import Mathlib

/-!
# CKV configuration files: scanners, table import and write-back

A shallow embedding of `src/ckv.cpp`.

* A `std::string` is a list of characters (`Str`).
* `file_reader` is an input stream: the characters not yet extracted together
  with the `eofbit` and `failbit` state flags of `std::ios`.
* `std::unordered_map<std::string, std::string>` is a list of entries with
  pairwise distinct keys; the order in which a range-`for` visits the entries
  is not fixed by the container, so the write-back operations take the
  iteration order as a parameter.
* A C++ member function that may throw returns an `Except CkvError _` paired
  with the state of the `ConfigFile` object it leaves behind.
* Character classification (`std::isalnum`, `std::isspace`) is that of the "C"
  locale.
-/

namespace ckv

/-- The type of `std::string` values. -/
abbrev Str := List Char

/-- The exceptions of the `ckv` namespace thrown by `ckv.cpp`. -/
inductive CkvError where
  | FileOpenFailed (path : Str)
  | EqualToWithoutAKey
  | InvalidCharacter (ch : Char)
  | MissingEqualTo
  | NoValueFoundForKey (key : Str)
  | TrailingCharsAfterEqualTo
  | InvalidOutputStream
  | KeyNotFound (key : Str)
  | ValueWithoutAKey
  deriving DecidableEq, Repr

/-- The input stream `file_reader`: the characters still to be extracted and
the two state flags the code can observe. -/
structure IFStream where
  rest : Str
  eofbit : Bool
  failbit : Bool
  deriving DecidableEq, Repr

/-- The members of `ckv::ConfigFile` that the operations read and write. -/
structure ConfigFile where
  file_reader : IFStream
  err_line_no : Nat
  deriving DecidableEq, Repr

/-- The function `std::ios::good()`. -/
def IFStream.good (s : IFStream) : Bool := !s.eofbit && !s.failbit

/-- The expression `file_reader >> ch` with `std::noskipws` set: extracts one
character. On a stream that is not good it sets `failbit`; at end of input it
sets `eofbit` and `failbit`. -/
def IFStream.get (s : IFStream) : Option Char × IFStream :=
  if s.good then
    match s.rest with
    | [] => (none, { s with eofbit := true, failbit := true })
    | c :: cs => (some c, { s with rest := cs })
  else (none, { s with failbit := true })

/-- The call `file_reader.peek()`: the next character without extracting it,
or `none` for `EOF`. At end of input it sets `eofbit`; on a stream that is not
good it sets `failbit`. -/
def IFStream.peek (s : IFStream) : Option Char × IFStream :=
  if s.good then
    match s.rest with
    | [] => (none, { s with eofbit := true })
    | c :: _ => (some c, s)
  else (none, { s with failbit := true })

/-- Source: `tab_or_space`. -/
def tab_or_space (ch : Char) : Bool := ch == '\t' || ch == ' '

/-- The function `std::isalnum` in the "C" locale. -/
def isalnum (ch : Char) : Bool :=
  (48 ≤ ch.toNat && ch.toNat ≤ 57) || (65 ≤ ch.toNat && ch.toNat ≤ 90) ||
    (97 ≤ ch.toNat && ch.toNat ≤ 122)

/-- The function `std::isspace` in the "C" locale: space, `\t`, `\n`, `\v`,
`\f` and `\r`. -/
def isspace (ch : Char) : Bool :=
  ch == ' ' || (9 ≤ ch.toNat && ch.toNat ≤ 13)

/-- Source: `is_char_invalid`. -/
def is_char_invalid (ch : Char) : Bool := !isalnum ch && ch != '_' && ch != '-'

/-- The loop `while (file_reader >> ch)` of `out_block_parse`, run on a good
stream whose unread characters are the first argument. Each iteration extracts
the head of the list; the empty list is the failed extraction that ends the
loop (setting `eofbit` and `failbit`) and runs the code after it. The other
arguments are the locals `next_is_value_start`, `next_is_equal_to`, `key` and
the member `err_line_no`. -/
def out_block_loop : Str → Bool → Bool → Str → Nat → Except CkvError Str × ConfigFile
  | [], next_is_value_start, next_is_equal_to, key, line =>
    if next_is_value_start then
      (.error (.NoValueFoundForKey key), ⟨⟨[], true, true⟩, line⟩)
    else if next_is_equal_to || !key.isEmpty then
      (.error .MissingEqualTo, ⟨⟨[], true, true⟩, line⟩)
    else
      (.ok key, ⟨⟨[], true, true⟩, line⟩)
  | ch :: cs, next_is_value_start, next_is_equal_to, key, line =>
    if ch = '\n' then
      if next_is_value_start then
        if (IFStream.peek ⟨cs, false, false⟩).1 ≠ some '\t' then
          (.error (.NoValueFoundForKey key), ⟨(IFStream.peek ⟨cs, false, false⟩).2, line⟩)
        else
          (.ok key, ⟨(IFStream.peek ⟨cs, false, false⟩).2, line⟩)
      else if !key.isEmpty then
        (.error .MissingEqualTo, ⟨⟨cs, false, false⟩, line⟩)
      else
        out_block_loop cs next_is_value_start next_is_equal_to key (line + 1)
    else if ch = '=' then
      if key.isEmpty then
        (.error .EqualToWithoutAKey, ⟨⟨cs, false, false⟩, line⟩)
      else
        out_block_loop cs true false key line
    else if next_is_equal_to && !tab_or_space ch then
      (.error .MissingEqualTo, ⟨⟨cs, false, false⟩, line⟩)
    else if next_is_value_start && !tab_or_space ch then
      (.error .TrailingCharsAfterEqualTo, ⟨⟨cs, false, false⟩, line⟩)
    else if !key.isEmpty && tab_or_space ch && !next_is_value_start then
      out_block_loop cs next_is_value_start true key line
    else if isspace ch then
      out_block_loop cs next_is_value_start next_is_equal_to key line
    else if is_char_invalid ch then
      (.error (.InvalidCharacter ch), ⟨⟨cs, false, false⟩, line⟩)
    else
      out_block_loop cs next_is_value_start next_is_equal_to (key ++ [ch]) line

/-- Source: `ckv::ConfigFile::out_block_parse`. On a stream that is not good
the first extraction fails, so only the code after the loop runs. -/
def out_block_parse (cf : ConfigFile) : Except CkvError Str × ConfigFile :=
  if cf.file_reader.good then
    out_block_loop cf.file_reader.rest false false [] cf.err_line_no
  else
    (.ok [], ⟨{ cf.file_reader with failbit := true }, cf.err_line_no⟩)

/-- The loop `while (file_reader >> ch)` of `in_block_parse`, run on a good
stream whose unread characters are the first argument; the other arguments
are the local `value` and the member `err_line_no`. At a newline the next
character is peeked: a tab keeps the newline in the value, a `+` does not, and
both are then extracted by the `file_reader >> ch` before `continue`; any other
character, or `EOF`, returns the value. -/
def in_block_loop : Str → Str → Nat → Str × ConfigFile
  | [], _, line => ([], ⟨⟨[], true, true⟩, line⟩)
  | ch :: cs, value, line =>
    if ch = '\n' then
      match cs with
      | [] => (value, ⟨⟨[], true, false⟩, line⟩)
      | next :: cs' =>
        if next = '\t' then in_block_loop cs' (value ++ [ch]) (line + 1)
        else if next ≠ '+' then (value, ⟨⟨next :: cs', false, false⟩, line⟩)
        else in_block_loop cs' value (line + 1)
    else in_block_loop cs (value ++ [ch]) line

/-- Source: `ckv::ConfigFile::in_block_parse`. The first `file_reader >> ch`
discards one character; if the stream is not good after it, the loop
condition fails at once and the empty string is returned. -/
def in_block_parse (cf : ConfigFile) : Str × ConfigFile :=
  if (cf.file_reader.get).2.good then
    in_block_loop (cf.file_reader.get).2.rest [] cf.err_line_no
  else
    ([], ⟨{ (cf.file_reader.get).2 with failbit := true }, cf.err_line_no⟩)

/-- The state in which a scan starts on an object whose file holds `doc` and
whose stream is closed, or open and without `failbit`: after `open_file()`,
`file_reader.seekg(0, std::ios::beg)` and `err_line_no = 1` the stream is good
and at the start of `doc` (theorem `object_begin_scan`). An object whose open
stream has `failbit` set does not start here, since `seekg` does not clear
`failbit`: the state it starts in is `ConfigFileObject.begin_scan`. -/
def start_scan (doc : Str) : ConfigFile := ⟨⟨doc, false, false⟩, 1⟩

/-- The loop of `get_value_for_key` together with the code after it. Each
iteration extracts at least one character, so the number of iterations is
bounded by the number of unread characters; `none` means the bound given as
first argument was too small. -/
def find_loop : Nat → Str → ConfigFile → Option (Except CkvError Str × ConfigFile)
  | 0, _, _ => none
  | fuel + 1, key, cf =>
    if (cf.file_reader.peek).1 = none then
      some (.error (.KeyNotFound key), ⟨(cf.file_reader.peek).2, 0⟩)
    else
      match out_block_parse ⟨(cf.file_reader.peek).2, cf.err_line_no⟩ with
      | (.error e, cf1) => some (.error e, cf1)
      | (.ok cur_key, cf1) =>
        if cur_key.isEmpty then
          some (.error (.KeyNotFound key), ⟨cf1.file_reader, 0⟩)
        else if key = cur_key then
          some (.ok (in_block_parse cf1).1, (in_block_parse cf1).2)
        else
          find_loop fuel key (in_block_parse cf1).2

/-- Source: `ckv::ConfigFile::get_value_for_key`, on a readable file holding
`doc`, for a scan that starts in `start_scan doc`; the operation on an object
in any state is `ConfigFileObject.get_value_for_key`. -/
def get_value_for_key (key : Str) (doc : Str) : Option (Except CkvError Str × ConfigFile) :=
  find_loop (doc.length + 1) key (start_scan doc)

/-- The type `std::unordered_map<std::string, std::string>`: entries with
pairwise distinct keys. -/
abbrev Table := List (Str × Str)

/-- The call `imported_map.insert({key, value})`: nothing happens when the key
is already present. -/
def Table.insert (m : Table) (key value : Str) : Table :=
  if (m.lookup key).isSome then m else m ++ [(key, value)]

/-- The loop of `import_to_map`; the bound is as for `find_loop`. -/
def import_loop : Nat → ConfigFile → Table → Option (Except CkvError Table × ConfigFile)
  | 0, _, _ => none
  | fuel + 1, cf, imported_map =>
    if (cf.file_reader.peek).1 = none then
      some (.ok imported_map, ⟨(cf.file_reader.peek).2, cf.err_line_no⟩)
    else
      match out_block_parse ⟨(cf.file_reader.peek).2, cf.err_line_no⟩ with
      | (.error e, cf1) => some (.error e, cf1)
      | (.ok key, cf1) =>
        if key.isEmpty then
          some (.ok imported_map, cf1)
        else
          import_loop fuel (in_block_parse cf1).2 (imported_map.insert key (in_block_parse cf1).1)

/-- Source: `ckv::ConfigFile::import_to_map`, on a readable file holding
`doc`, for a scan that starts in `start_scan doc`; the operation on an object
in any state is `ConfigFileObject.import_to_map`. -/
def import_to_map (doc : Str) : Option (Except CkvError Table × ConfigFile) :=
  import_loop (doc.length + 1) (start_scan doc) []

/-- A `std::ostream`: the text written so far and whether the stream is in a
failed state (`!out`). Writing to a failed stream writes nothing. -/
structure OStream where
  text : Str
  fail : Bool
  deriving DecidableEq, Repr

/-- The expression `out << s`. -/
def OStream.write (out : OStream) (s : Str) : OStream :=
  if out.fail then out else { out with text := out.text ++ s }

/-- The call `std::regex_replace(value, std::regex("\n"), "\n\t")`: every
newline becomes a newline followed by a tab. -/
def regex_replace_newline : Str → Str
  | [] => []
  | c :: cs =>
    if c = '\n' then '\n' :: '\t' :: regex_replace_newline cs
    else c :: regex_replace_newline cs

/-- Source: `ckv::ConfigFile::print_key_val`. -/
def print_key_val (out : OStream) (key value : Str) : OStream :=
  ((out.write (key ++ [' ', '=', '\n'])).write ('\t' :: regex_replace_newline value)).write ['\n']

/-- The range-`for` of `set_value_for_key` over the entries in the order
given; the accumulator is the stream `out` and the local `key_exists`. -/
def set_value_entries (key new_value : Str) : List (Str × Str) → OStream → Bool → OStream × Bool
  | [], out, key_exists => (out, key_exists)
  | pair :: pairs, out, key_exists =>
    if pair.1 = key then
      set_value_entries key new_value pairs ((print_key_val out key new_value).write ['\n']) true
    else
      set_value_entries key new_value pairs ((print_key_val out pair.1 pair.2).write ['\n']) key_exists

/-- Source: `ckv::ConfigFile::set_value_for_key(key, new_value, out)` on a
readable file holding `doc`, for an object that has not been opened before;
`iter` is the order in which the range-`for` visits the entries of a table.
The operation on an object in any state is
`ConfigFileObject.set_value_for_key`. -/
def set_value_for_key (iter : Table → List (Str × Str)) (key new_value : Str) (doc : Str)
    (out : OStream) : Option (Except CkvError Unit × ConfigFile × OStream) :=
  if out.fail then
    some (.error .InvalidOutputStream, ⟨⟨doc, false, false⟩, 0⟩, out)
  else
    match import_to_map doc with
    | none => none
    | some (.error e, cf) => some (.error e, cf, out)
    | some (.ok key_vals, cf) =>
      if (set_value_entries key new_value (iter key_vals) out false).2 then
        some (.ok (), cf, (set_value_entries key new_value (iter key_vals) out false).1)
      else
        some (.ok (), cf,
          print_key_val (set_value_entries key new_value (iter key_vals) out false).1 key new_value)

/-- The range-`for` of `remove_key` over the entries in the order given. -/
def remove_key_entries (key : Str) : List (Str × Str) → OStream → OStream
  | [], out => out
  | pair :: pairs, out =>
    if pair.1 ≠ key then
      remove_key_entries key pairs ((print_key_val out pair.1 pair.2).write ['\n'])
    else
      remove_key_entries key pairs out

/-- Source: `ckv::ConfigFile::remove_key(key, out)` on a readable file holding
`doc`, for an object that has not been opened before; `iter` is as for
`set_value_for_key`. The operation on an object in any state is
`ConfigFileObject.remove_key`. -/
def remove_key (iter : Table → List (Str × Str)) (key : Str) (doc : Str)
    (out : OStream) : Option (Except CkvError Unit × ConfigFile × OStream) :=
  if out.fail then
    some (.error .InvalidOutputStream, ⟨⟨doc, false, false⟩, 0⟩, out)
  else
    match import_to_map doc with
    | none => none
    | some (.error e, cf) => some (.error e, cf, out)
    | some (.ok key_vals, cf) => some (.ok (), cf, remove_key_entries key (iter key_vals) out)

/-- A character of the key alphabet `[A-Za-z0-9_-]`. -/
def key_char (ch : Char) : Bool := isalnum ch || ch == '_' || ch == '-'

/-- A valid key: non-empty, every character in `[A-Za-z0-9_-]`. -/
def valid_key (key : Str) : Bool := !key.isEmpty && key.all key_char

/-- The first character of `r`, if any, is neither a tab nor `+`: a value
block that ends just before `r` is not continued by it. -/
def ends_block (r : Str) : Bool := r.head? != some '\t' && r.head? != some '+'

/-- The loop of `import_to_map` with every declaration recorded, in stream
order, instead of inserted into the table: the key lines of the document,
each with the value block it introduces. -/
def declarations_loop : Nat → ConfigFile → List (Str × Str) →
    Option (Except CkvError (List (Str × Str)) × ConfigFile)
  | 0, _, _ => none
  | fuel + 1, cf, seen =>
    if (cf.file_reader.peek).1 = none then
      some (.ok seen, ⟨(cf.file_reader.peek).2, cf.err_line_no⟩)
    else
      match out_block_parse ⟨(cf.file_reader.peek).2, cf.err_line_no⟩ with
      | (.error e, cf1) => some (.error e, cf1)
      | (.ok key, cf1) =>
        if key.isEmpty then
          some (.ok seen, cf1)
        else
          declarations_loop fuel (in_block_parse cf1).2 (seen ++ [(key, (in_block_parse cf1).1)])

/-- The declarations of a document in stream order, duplicates included. -/
def declarations (doc : Str) : Option (Except CkvError (List (Str × Str)) × ConfigFile) :=
  declarations_loop (doc.length + 1) (start_scan doc) []

/-- The table built from a sequence of declarations by `insert`. -/
def first_wins (seen : List (Str × Str)) : Table :=
  seen.foldl (fun m e => m.insert e.1 e.2) []

/-- The text `print_key_val` writes for one entry. -/
def entry_text (e : Str × Str) : Str :=
  e.1 ++ ' ' :: '=' :: '\n' :: '\t' :: (regex_replace_newline e.2 ++ ['\n'])

/-- The text of a sequence of entries, each followed by the `std::endl` the
write-back loops add after it. -/
def entries_text : List (Str × Str) → Str
  | [] => []
  | e :: es => entry_text e ++ '\n' :: entries_text es

/-- A stream state in the middle of a document: good, with `n` newlines
before `text`. -/
def at_lines (n : Nat) (text : Str) (line : Nat) : ConfigFile :=
  ⟨⟨List.replicate n '\n' ++ text, false, false⟩, line⟩

/-- A table whose keys are pairwise distinct and valid. -/
def Table.WF (m : Table) : Prop :=
  (m.map Prod.fst).Nodup ∧ ∀ e ∈ m, valid_key e.1 = true

/-- A value block without its leading tab, given by its physical lines:
`first`, then for each entry of the list a newline, the marker character that
starts the next line and the rest of that line. Nothing follows the last
line. -/
def block_lines (first : Str) : List (Char × Str) → Str
  | [] => first
  | (marker, content) :: more => first ++ '\n' :: marker :: block_lines content more

/-- The exceptions `out_block_parse` throws. -/
def is_syntax_error : CkvError → Bool
  | .EqualToWithoutAKey => true
  | .InvalidCharacter _ => true
  | .MissingEqualTo => true
  | .NoValueFoundForKey _ => true
  | .TrailingCharsAfterEqualTo => true
  | _ => false

/-! ## The object and its stream between operations -/

/-- The call `file_reader.seekg(0, std::ios::beg)` on a stream that reads
`content`: `eofbit` is cleared first; then, unless `failbit` is set, the stream
is moved to the start of `content`. The source never calls `clear()`, so a
stream with `failbit` set stays where it is and stays failed. -/
def IFStream.seekg_beg (content : Str) (s : IFStream) : IFStream :=
  if s.failbit then { s with eofbit := false } else ⟨content, false, false⟩

/-- A `ckv::ConfigFile` object together with the file it names: `file` is the
content of the file at `file_path`, `none` when it cannot be opened for
reading; `writable` says whether a `std::ofstream` on `file_path` can be
opened; `is_open` is `file_reader.is_open()`; `state` holds the stream state
of `file_reader` and `err_line_no`. -/
structure ConfigFileObject where
  file_path : Str
  file : Option Str
  writable : Bool
  is_open : Bool
  state : ConfigFile
  deriving DecidableEq, Repr

/-- Source: `ckv::ConfigFile::open_file`. A stream that is already open is
left as it is, whatever its state; `std::ifstream::open` leaves a good stream
at the start of the file, or sets `failbit` when the file cannot be opened. -/
def ConfigFileObject.open_file (o : ConfigFileObject) : Except CkvError Unit × ConfigFileObject :=
  if o.is_open then (.ok (), o)
  else
    match o.file with
    | some content =>
      (.ok (), { o with is_open := true, state := ⟨⟨content, false, false⟩, o.state.err_line_no⟩ })
    | none =>
      (.error (.FileOpenFailed o.file_path),
        { o with state := ⟨{ o.state.file_reader with failbit := true }, 0⟩ })

/-- The statements `file_reader.seekg(0, std::ios::beg); err_line_no = 1;`
that start a scan. -/
def ConfigFileObject.begin_scan (o : ConfigFileObject) : ConfigFile :=
  ⟨o.state.file_reader.seekg_beg (o.file.getD []), 1⟩

/-- Source: `ckv::ConfigFile::get_value_for_key`, on any object. The bound of
the loop is the number of unread characters plus one. -/
def ConfigFileObject.get_value_for_key (o : ConfigFileObject) (key : Str) :
    Option (Except CkvError Str × ConfigFileObject) :=
  match o.open_file with
  | (.error e, o1) => some (.error e, o1)
  | (.ok _, o1) =>
    match find_loop (o1.begin_scan.file_reader.rest.length + 1) key o1.begin_scan with
    | none => none
    | some (r, cf) => some (r, { o1 with state := cf })

/-- Source: `ckv::ConfigFile::import_to_map`, on any object. -/
def ConfigFileObject.import_to_map (o : ConfigFileObject) :
    Option (Except CkvError Table × ConfigFileObject) :=
  match o.open_file with
  | (.error e, o1) => some (.error e, o1)
  | (.ok _, o1) =>
    match import_loop (o1.begin_scan.file_reader.rest.length + 1) o1.begin_scan [] with
    | none => none
    | some (r, cf) => some (r, { o1 with state := cf })

/-- Source: `ckv::ConfigFile::set_value_for_key(key, new_value, out)`, on any
object; `iter` is the order in which the range-`for` visits the entries of a
table. -/
def ConfigFileObject.set_value_for_key (o : ConfigFileObject) (iter : Table → List (Str × Str))
    (key new_value : Str) (out : OStream) :
    Option (Except CkvError Unit × ConfigFileObject × OStream) :=
  match o.open_file with
  | (.error e, o1) => some (.error e, o1, out)
  | (.ok _, o1) =>
    if out.fail then
      some (.error .InvalidOutputStream, { o1 with state := ⟨o1.state.file_reader, 0⟩ }, out)
    else
      match o1.import_to_map with
      | none => none
      | some (.error e, o2) => some (.error e, o2, out)
      | some (.ok key_vals, o2) =>
        if (set_value_entries key new_value (iter key_vals) out false).2 then
          some (.ok (), o2, (set_value_entries key new_value (iter key_vals) out false).1)
        else
          some (.ok (), o2,
            print_key_val (set_value_entries key new_value (iter key_vals) out false).1 key
              new_value)

/-- Source: `ckv::ConfigFile::remove_key(key, out)`, on any object. -/
def ConfigFileObject.remove_key (o : ConfigFileObject) (iter : Table → List (Str × Str))
    (key : Str) (out : OStream) : Option (Except CkvError Unit × ConfigFileObject × OStream) :=
  match o.open_file with
  | (.error e, o1) => some (.error e, o1, out)
  | (.ok _, o1) =>
    if out.fail then
      some (.error .InvalidOutputStream, { o1 with state := ⟨o1.state.file_reader, 0⟩ }, out)
    else
      match o1.import_to_map with
      | none => none
      | some (.error e, o2) => some (.error e, o2, out)
      | some (.ok key_vals, o2) => some (.ok (), o2, remove_key_entries key (iter key_vals) out)

/-- The statements `std::ofstream out(file_path); if (!out) ...` of the two
operations that rewrite the file in place, followed by the writing `body`: a
file that cannot be opened for writing gives `FileOpenFailed` with
`err_line_no` set to 0; otherwise the file holds what `body` wrote to the new,
empty stream. -/
def ConfigFileObject.rewrite (o : ConfigFileObject) (body : OStream → OStream) :
    Except CkvError Unit × ConfigFileObject :=
  if o.writable then (.ok (), { o with file := some (body ⟨[], false⟩).text })
  else (.error (.FileOpenFailed o.file_path), { o with state := ⟨o.state.file_reader, 0⟩ })

/-- Source: `ckv::ConfigFile::set_value_for_key(key, new_value)`, which
rewrites the file in place. A failure of `open_file` is caught and the table
stays empty; otherwise the table is imported and `file_reader` closed. -/
def ConfigFileObject.set_value_for_key_in_place (o : ConfigFileObject)
    (iter : Table → List (Str × Str)) (key new_value : Str) :
    Option (Except CkvError Unit × ConfigFileObject) :=
  match o.open_file with
  | (.error _, o1) => some (o1.rewrite (fun out => print_key_val out key new_value))
  | (.ok _, o1) =>
    match o1.import_to_map with
    | none => none
    | some (.error e, o2) => some (.error e, o2)
    | some (.ok key_vals, o2) =>
      some (ConfigFileObject.rewrite { o2 with is_open := false } (fun out =>
        if (set_value_entries key new_value (iter key_vals) out false).2 then
          (set_value_entries key new_value (iter key_vals) out false).1
        else
          print_key_val (set_value_entries key new_value (iter key_vals) out false).1 key
            new_value))

/-- Source: `ckv::ConfigFile::remove_key(key)`, which rewrites the file in
place. -/
def ConfigFileObject.remove_key_in_place (o : ConfigFileObject)
    (iter : Table → List (Str × Str)) (key : Str) :
    Option (Except CkvError Unit × ConfigFileObject) :=
  match o.open_file with
  | (.error e, o1) => some (.error e, o1)
  | (.ok _, o1) =>
    match o1.import_to_map with
    | none => none
    | some (.error e, o2) => some (.error e, o2)
    | some (.ok key_vals, o2) =>
      some (ConfigFileObject.rewrite { o2 with is_open := false } (fun out =>
        remove_key_entries key (iter key_vals) out))

/-- An object whose `file_reader` has not been opened yet; `line` is whatever
`err_line_no` holds before the first operation. -/
def ConfigFileObject.unopened (file_path : Str) (file : Option Str) (line : Nat) :
    ConfigFileObject :=
  ⟨file_path, file, true, false, ⟨⟨[], false, false⟩, line⟩⟩

/-- The states in which a scan that started in `start` calls `out_block_parse`:
after the loop condition `file_reader.peek() != EOF` held, at the start and
after each key and value block scanned. -/
inductive ScanPoint (start : ConfigFile) : ConfigFile → Prop
  | first : ¬ (start.file_reader.peek).1 = none →
      ScanPoint start ⟨(start.file_reader.peek).2, start.err_line_no⟩
  | next (cf cf1 : ConfigFile) (key : Str) : ScanPoint start cf →
      out_block_parse cf = (.ok key, cf1) → ¬ key.isEmpty = true →
      ¬ ((in_block_parse cf1).2.file_reader.peek).1 = none →
      ScanPoint start
        ⟨((in_block_parse cf1).2.file_reader.peek).2, (in_block_parse cf1).2.err_line_no⟩

/-! ## Tables -/

theorem Table.lookup_append_single (m : Table) (k key value : Str) :
    List.lookup k (m ++ [(key, value)]) =
      (List.lookup k m).or (if k = key then some value else none) := by
  induction m with
  | nil =>
    by_cases h : k = key
    · simp [List.lookup, h]
    · have : (k == key) = false := by simpa using h
      simp [List.lookup, h, this]
  | cons e m ih =>
    obtain ⟨a, b⟩ := e
    by_cases h : k = a
    · subst h
      simp [List.lookup]
    · have : (k == a) = false := by simpa using h
      simp only [List.cons_append, List.lookup, this]
      exact ih

theorem Table.lookup_insert_of_some (m : Table) (k key value v : Str)
    (h : List.lookup k m = some v) : List.lookup k (m.insert key value) = some v := by
  unfold Table.insert
  split
  · exact h
  · rw [Table.lookup_append_single, h]
    rfl

theorem Table.lookup_insert_self (m : Table) (k value : Str)
    (h : List.lookup k m = none) : List.lookup k (m.insert k value) = some value := by
  unfold Table.insert
  simp [h, Table.lookup_append_single]

theorem Table.lookup_insert_of_ne (m : Table) (k key value : Str) (hne : k ≠ key) :
    List.lookup k (m.insert key value) = List.lookup k m := by
  unfold Table.insert
  split
  · rfl
  · rw [Table.lookup_append_single]
    simp [hne]

/-! ## The import loop keeps what the table already holds -/

theorem import_loop_lookup_mono (k v : Str) :
    ∀ (fuel : Nat) (cf : ConfigFile) (m M : Table) (cf' : ConfigFile),
      import_loop fuel cf m = some (.ok M, cf') → List.lookup k m = some v →
      List.lookup k M = some v := by
  intro fuel
  induction fuel with
  | zero => intro cf m M cf' h; simp [import_loop] at h
  | succ fuel ih =>
    intro cf m M cf' h hk
    rw [import_loop] at h
    split at h
    · simp only [Option.some.injEq, Prod.mk.injEq, Except.ok.injEq] at h
      rw [← h.1]; exact hk
    · split at h
      · simp at h
      · split at h
        · simp only [Option.some.injEq, Prod.mk.injEq, Except.ok.injEq] at h
          rw [← h.1]; exact hk
        · exact ih _ _ _ _ h (Table.lookup_insert_of_some _ _ _ _ _ hk)

/-- Whenever the import loop succeeds, looking up a key of the resulting table
through the find loop, from the same stream state and with the same bound,
returns the value the table holds. -/
theorem find_loop_of_import_loop (k v : Str) :
    ∀ (fuel : Nat) (cf : ConfigFile) (m M : Table) (cf' : ConfigFile),
      import_loop fuel cf m = some (.ok M, cf') → List.lookup k m = none →
      List.lookup k M = some v → ∃ cf'', find_loop fuel k cf = some (.ok v, cf'') := by
  intro fuel
  induction fuel with
  | zero => intro cf m M cf' h; simp [import_loop] at h
  | succ fuel ih =>
    intro cf m M cf' h hm hM
    rw [import_loop] at h
    rw [find_loop]
    split at h
    · simp only [Option.some.injEq, Prod.mk.injEq, Except.ok.injEq] at h
      rw [← h.1, hm] at hM; simp at hM
    · rename_i hpeek
      rw [if_neg hpeek]
      split at h
      · simp at h
      · rename_i cur_key cf1 hout
        split at h
        · simp only [Option.some.injEq, Prod.mk.injEq, Except.ok.injEq] at h
          rw [← h.1, hm] at hM; simp at hM
        · rename_i hne
          simp only [hne]
          by_cases hk : k = cur_key
          · subst hk
            have := import_loop_lookup_mono k _ _ _ _ _ _ h
              (Table.lookup_insert_self m k (in_block_parse cf1).1 hm)
            rw [this] at hM
            simp only [Option.some.injEq] at hM
            subst hM
            exact ⟨(in_block_parse cf1).2, by simp⟩
          · simp only [hk, if_false]
            refine ih _ _ _ _ h ?_ hM
            rw [Table.lookup_insert_of_ne _ _ _ _ hk]; exact hm

/-- From the same stream state and with the same bound, the find loop reports
`KeyNotFound` for every key the import loop leaves out of its table. -/
theorem find_loop_absent (k : Str) :
    ∀ (fuel : Nat) (cf : ConfigFile) (m M : Table) (cf' : ConfigFile),
      import_loop fuel cf m = some (.ok M, cf') → List.lookup k M = none →
      ∃ fr, find_loop fuel k cf = some (.error (.KeyNotFound k), ⟨fr, 0⟩) := by
  intro fuel
  induction fuel with
  | zero => intro cf m M cf' h; simp [import_loop] at h
  | succ fuel ih =>
    intro cf m M cf' h hM
    rw [import_loop] at h
    rw [find_loop]
    split at h
    · rename_i hpeek
      rw [if_pos hpeek]
      exact ⟨_, rfl⟩
    · rename_i hpeek
      rw [if_neg hpeek]
      split at h
      · simp at h
      · rename_i cur_key cf1 hout
        split at h
        · rename_i hemp
          simp only [hemp, if_true]
          exact ⟨_, rfl⟩
        · rename_i hne
          simp only [hne]
          by_cases hk : k = cur_key
          · subst hk
            exfalso
            cases hl : List.lookup k m with
            | none =>
              have := import_loop_lookup_mono k _ _ _ _ _ _ h
                (Table.lookup_insert_self m k (in_block_parse cf1).1 hl)
              rw [this] at hM; simp at hM
            | some v0 =>
              have := import_loop_lookup_mono k _ _ _ _ _ _ h
                (Table.lookup_insert_of_some m k k (in_block_parse cf1).1 v0 hl)
              rw [this] at hM; simp at hM
          · simp only [hk, if_false]
            exact ih _ _ _ _ h hM

/-! ## Declarations in stream order -/

theorem first_wins_append (seen : List (Str × Str)) (key value : Str) :
    first_wins (seen ++ [(key, value)]) = (first_wins seen).insert key value := by
  simp [first_wins, List.foldl_append]

theorem lookup_first_wins (k : Str) (seen : List (Str × Str)) :
    List.lookup k (first_wins seen) = List.lookup k seen := by
  induction seen using List.reverseRecOn with
  | nil => rfl
  | append_singleton seen e ih =>
    obtain ⟨key, value⟩ := e
    rw [first_wins_append, Table.lookup_append_single, ← ih]
    unfold Table.insert
    split
    · rename_i hsome
      by_cases hk : k = key
      · subst hk
        cases hl : List.lookup k (first_wins seen) with
        | none => simp [hl] at hsome
        | some v0 => rfl
      · simp [hk]
    · rw [Table.lookup_append_single]

/-- The import loop is the declarations loop followed by `insert`. -/
theorem import_loop_eq_declarations :
    ∀ (fuel : Nat) (cf : ConfigFile) (seen : List (Str × Str)),
      import_loop fuel cf (first_wins seen) =
        (declarations_loop fuel cf seen).map (fun r => (r.1.map first_wins, r.2)) := by
  intro fuel
  induction fuel with
  | zero => intro cf seen; rfl
  | succ fuel ih =>
    intro cf seen
    rw [import_loop, declarations_loop]
    split
    · rfl
    · split
      · rfl
      · split
        · rfl
        · rw [← first_wins_append, ih]

theorem lookup_first_occurrence (k v : Str) (ds1 ds2 : List (Str × Str))
    (h : ∀ e ∈ ds1, e.1 ≠ k) : List.lookup k (ds1 ++ (k, v) :: ds2) = some v := by
  induction ds1 with
  | nil => simp [List.lookup]
  | cons e ds1 ih =>
    obtain ⟨a, b⟩ := e
    have hne : (k == a) = false := by
      have := h (a, b) (List.mem_cons_self _ _)
      simpa using fun hh => this hh.symm
    simp only [List.cons_append, List.lookup, hne]
    exact ih (fun e he => h e (List.mem_cons_of_mem _ he))

/-! ## The stream primitives on a good stream -/

@[simp] theorem peek_good_fst (cs : Str) : (IFStream.peek ⟨cs, false, false⟩).1 = cs.head? := by
  cases cs <;> rfl

@[simp] theorem peek_good_snd (cs : Str) :
    (IFStream.peek ⟨cs, false, false⟩).2 = ⟨cs, cs.isEmpty, false⟩ := by
  cases cs <;> rfl

@[simp] theorem get_good_cons (c : Char) (cs : Str) :
    IFStream.get ⟨c :: cs, false, false⟩ = (some c, ⟨cs, false, false⟩) := rfl

theorem peek_rest (s : IFStream) : (s.peek).2.rest = s.rest := by
  unfold IFStream.peek
  split
  · split <;> simp_all
  · rfl

theorem peek_some_good (s : IFStream) (h : ¬ (s.peek).1 = none) :
    ∃ c cs, s = ⟨c :: cs, false, false⟩ := by
  obtain ⟨rest, e, f⟩ := s
  cases e <;> cases f <;> cases rest <;> simp [IFStream.peek, IFStream.good] at h ⊢

theorem get_rest_le (s : IFStream) : (s.get).2.rest.length ≤ s.rest.length := by
  unfold IFStream.get
  split
  · split <;> simp_all
  · simp

/-! ## The scanners only move forward -/

theorem out_block_loop_rest_le : ∀ (cs : Str) (a b : Bool) (k : Str) (l : Nat),
    (out_block_loop cs a b k l).2.file_reader.rest.length ≤ cs.length := by
  intro cs
  induction cs with
  | nil =>
    intro a b k l
    rw [out_block_loop]
    split_ifs <;> simp
  | cons ch cs ih =>
    intro a b k l
    rw [out_block_loop]
    split_ifs <;> first
      | exact Nat.le_succ_of_le (ih _ _ _ _)
      | simp

theorem out_block_loop_cons_rest_lt (ch : Char) (cs : Str) (a b : Bool) (k : Str) (l : Nat) :
    (out_block_loop (ch :: cs) a b k l).2.file_reader.rest.length < (ch :: cs).length := by
  rw [out_block_loop]
  split_ifs <;> first
    | exact Nat.lt_succ_of_le (out_block_loop_rest_le _ _ _ _ _)
    | simp

theorem in_block_loop_nil (value : Str) (l : Nat) :
    in_block_loop [] value l = ([], ⟨⟨[], true, true⟩, l⟩) := by
  rw [in_block_loop.eq_def]

theorem in_block_loop_cons_ne (ch : Char) (cs value : Str) (l : Nat) (h : ch ≠ '\n') :
    in_block_loop (ch :: cs) value l = in_block_loop cs (value ++ [ch]) l := by
  rw [in_block_loop.eq_def]
  simp [h]

theorem in_block_loop_nl_nil (value : Str) (l : Nat) :
    in_block_loop ['\n'] value l = (value, ⟨⟨[], true, false⟩, l⟩) := by
  rw [in_block_loop.eq_def]
  simp

theorem in_block_loop_nl_tab (cs value : Str) (l : Nat) :
    in_block_loop ('\n' :: '\t' :: cs) value l = in_block_loop cs (value ++ ['\n']) (l + 1) := by
  rw [in_block_loop.eq_def]
  simp

theorem in_block_loop_nl_plus (cs value : Str) (l : Nat) :
    in_block_loop ('\n' :: '+' :: cs) value l = in_block_loop cs value (l + 1) := by
  rw [in_block_loop.eq_def]
  simp

theorem in_block_loop_nl_other (next : Char) (cs value : Str) (l : Nat)
    (h1 : next ≠ '\t') (h2 : next ≠ '+') :
    in_block_loop ('\n' :: next :: cs) value l = (value, ⟨⟨next :: cs, false, false⟩, l⟩) := by
  rw [in_block_loop.eq_def]
  simp [h1, h2]

theorem in_block_loop_rest_le : ∀ (cs value : Str) (l : Nat),
    (in_block_loop cs value l).2.file_reader.rest.length ≤ cs.length := by
  intro cs value l
  induction cs, value, l using in_block_loop.induct with
  | case1 value line => simp [in_block_loop_nil]
  | case2 value line => simp [in_block_loop_nl_nil]
  | case3 value line cs' ih =>
    rw [in_block_loop_nl_tab]
    simp only [List.length_cons]
    omega
  | case4 value line next cs' h1 h2 =>
    rw [in_block_loop_nl_other _ _ _ _ h1 h2]
    simp
  | case5 value line next cs' h1 h2 ih =>
    have : next = '+' := by simpa using h2
    subst this
    rw [in_block_loop_nl_plus]
    simp only [List.length_cons]
    omega
  | case6 ch cs value line h ih =>
    rw [in_block_loop_cons_ne _ _ _ _ h]
    simp only [List.length_cons]
    omega

theorem in_block_parse_rest_le (cf : ConfigFile) :
    (in_block_parse cf).2.file_reader.rest.length ≤ cf.file_reader.rest.length := by
  unfold in_block_parse
  split
  · exact le_trans (in_block_loop_rest_le _ _ _) (get_rest_le _)
  · exact get_rest_le _

/-- One iteration of a top-level loop leaves fewer unread characters. -/
theorem iteration_rest_lt (cf : ConfigFile) (h : ¬ (cf.file_reader.peek).1 = none) :
    (in_block_parse (out_block_parse ⟨(cf.file_reader.peek).2, cf.err_line_no⟩).2).2.file_reader.rest.length
      < cf.file_reader.rest.length := by
  obtain ⟨c, cs, hs⟩ := peek_some_good _ h
  refine lt_of_le_of_lt (in_block_parse_rest_le _) ?_
  rw [hs]
  simp only [peek_good_snd, out_block_parse, IFStream.good, List.isEmpty_cons]
  exact out_block_loop_cons_rest_lt _ _ _ _ _ _

/-! ## The bound on the number of iterations is large enough -/

theorem find_loop_mono (key : Str) :
    ∀ (fuel : Nat) (cf : ConfigFile) (r : Except CkvError Str × ConfigFile),
      find_loop fuel key cf = some r → find_loop (fuel + 1) key cf = some r := by
  intro fuel
  induction fuel with
  | zero => intro cf r h; simp [find_loop] at h
  | succ fuel ih =>
    intro cf r h
    rw [find_loop] at h
    rw [find_loop]
    split
    · rename_i hp; rw [if_pos hp] at h; exact h
    · rename_i hp
      rw [if_neg hp] at h
      split
      · rename_i hout; rw [hout] at h; exact h
      · rename_i hout
        rw [hout] at h
        simp only at h
        split
        · rename_i he; rw [if_pos he] at h; exact h
        · rename_i he
          rw [if_neg he] at h
          split
          · rename_i hk; rw [if_pos hk] at h; exact h
          · rename_i hk; rw [if_neg hk] at h; exact ih _ _ h

theorem find_loop_mono_le (key : Str) (f1 f2 : Nat) (hle : f1 ≤ f2) (cf : ConfigFile)
    (r : Except CkvError Str × ConfigFile) (h : find_loop f1 key cf = some r) :
    find_loop f2 key cf = some r := by
  induction hle with
  | refl => exact h
  | step _ ih => exact find_loop_mono _ _ _ _ ih

theorem import_loop_mono :
    ∀ (fuel : Nat) (cf : ConfigFile) (m : Table) (r : Except CkvError Table × ConfigFile),
      import_loop fuel cf m = some r → import_loop (fuel + 1) cf m = some r := by
  intro fuel
  induction fuel with
  | zero => intro cf m r h; simp [import_loop] at h
  | succ fuel ih =>
    intro cf m r h
    rw [import_loop] at h
    rw [import_loop]
    split
    · rename_i hp; rw [if_pos hp] at h; exact h
    · rename_i hp
      rw [if_neg hp] at h
      split
      · rename_i hout; rw [hout] at h; exact h
      · rename_i hout
        rw [hout] at h
        simp only at h
        split
        · rename_i he; rw [if_pos he] at h; exact h
        · rename_i he; rw [if_neg he] at h; exact ih _ _ _ h

theorem import_loop_mono_le (f1 f2 : Nat) (hle : f1 ≤ f2) (cf : ConfigFile) (m : Table)
    (r : Except CkvError Table × ConfigFile) (h : import_loop f1 cf m = some r) :
    import_loop f2 cf m = some r := by
  induction hle with
  | refl => exact h
  | step _ ih => exact import_loop_mono _ _ _ _ ih

theorem find_loop_total (key : Str) :
    ∀ (fuel : Nat) (cf : ConfigFile), cf.file_reader.rest.length < fuel →
      ∃ r, find_loop fuel key cf = some r := by
  intro fuel
  induction fuel with
  | zero => intro cf h; omega
  | succ fuel ih =>
    intro cf h
    rw [find_loop]
    split
    · exact ⟨_, rfl⟩
    · rename_i hp
      have hlt := iteration_rest_lt cf hp
      split
      · exact ⟨_, rfl⟩
      · rename_i hout
        rw [hout] at hlt
        simp only at hlt
        split
        · exact ⟨_, rfl⟩
        · split
          · exact ⟨_, rfl⟩
          · exact ih _ (by omega)

theorem import_loop_total :
    ∀ (fuel : Nat) (cf : ConfigFile) (m : Table), cf.file_reader.rest.length < fuel →
      ∃ r, import_loop fuel cf m = some r := by
  intro fuel
  induction fuel with
  | zero => intro cf m h; omega
  | succ fuel ih =>
    intro cf m h
    rw [import_loop]
    split
    · exact ⟨_, rfl⟩
    · rename_i hp
      have hlt := iteration_rest_lt cf hp
      split
      · exact ⟨_, rfl⟩
      · rename_i hout
        rw [hout] at hlt
        simp only at hlt
        split
        · exact ⟨_, rfl⟩
        · exact ih _ _ (by omega)

/-- A result obtained with any bound is the result with the bound the
top-level operation uses. -/
theorem find_loop_canon (key : Str) (fuel : Nat) (cf : ConfigFile)
    (r : Except CkvError Str × ConfigFile) (h : find_loop fuel key cf = some r) :
    find_loop (cf.file_reader.rest.length + 1) key cf = some r := by
  obtain ⟨r', hr'⟩ := find_loop_total key (cf.file_reader.rest.length + 1) cf (Nat.lt_succ_self _)
  have h1 := find_loop_mono_le key _ _ (Nat.le_max_left fuel (cf.file_reader.rest.length + 1)) cf r h
  have h2 := find_loop_mono_le key _ _ (Nat.le_max_right fuel (cf.file_reader.rest.length + 1)) cf r' hr'
  rw [h1] at h2
  rw [hr', ← h2]

theorem import_loop_canon (fuel : Nat) (cf : ConfigFile) (m : Table)
    (r : Except CkvError Table × ConfigFile) (h : import_loop fuel cf m = some r) :
    import_loop (cf.file_reader.rest.length + 1) cf m = some r := by
  obtain ⟨r', hr'⟩ := import_loop_total (cf.file_reader.rest.length + 1) cf m (Nat.lt_succ_self _)
  have h1 := import_loop_mono_le _ _ (Nat.le_max_left fuel (cf.file_reader.rest.length + 1)) cf m r h
  have h2 := import_loop_mono_le _ _ (Nat.le_max_right fuel (cf.file_reader.rest.length + 1)) cf m r' hr'
  rw [h1] at h2
  rw [hr', ← h2]

/-- The bound `get_value_for_key` gives its loop is never exhausted. -/
theorem get_value_for_key_total (key doc : Str) : ∃ r, get_value_for_key key doc = some r :=
  find_loop_total key _ _ (Nat.lt_succ_self _)

/-- The bound `import_to_map` gives its loop is never exhausted. -/
theorem import_to_map_total (doc : Str) : ∃ r, import_to_map doc = some r :=
  import_loop_total _ _ _ (Nat.lt_succ_self _)

/-! ## The key alphabet -/

theorem is_char_invalid_eq (c : Char) : is_char_invalid c = !key_char c := by
  unfold is_char_invalid key_char
  cases isalnum c <;> cases h1 : (c == '_') <;> cases h2 : (c == '-') <;> simp [bne, h1, h2]

theorem key_char_toNat (c : Char) (h : key_char c = true) :
    (48 ≤ c.toNat ∧ c.toNat ≤ 57) ∨ (65 ≤ c.toNat ∧ c.toNat ≤ 90) ∨
      (97 ≤ c.toNat ∧ c.toNat ≤ 122) ∨ c.toNat = 95 ∨ c.toNat = 45 := by
  simp only [key_char, isalnum, Bool.or_eq_true, Bool.and_eq_true, decide_eq_true_eq,
    beq_iff_eq] at h
  rcases h with (((h | h) | h) | h) | h
  · exact Or.inl h
  · exact Or.inr (Or.inl h)
  · exact Or.inr (Or.inr (Or.inl h))
  · subst h; exact Or.inr (Or.inr (Or.inr (Or.inl rfl)))
  · subst h; exact Or.inr (Or.inr (Or.inr (Or.inr rfl)))

theorem key_char_ne (c d : Char) (h : key_char c = true) (hd : key_char d = false) : c ≠ d := by
  rintro rfl
  rw [h] at hd
  exact Bool.noConfusion hd

theorem key_char_not_space (c : Char) (h : key_char c = true) : isspace c = false := by
  have hn := key_char_toNat c h
  have h1 : c ≠ ' ' := key_char_ne c _ h (by decide)
  simp only [isspace, Bool.or_eq_false_iff, beq_eq_false_iff_ne, ne_eq, h1, not_false_eq_true,
    true_and, Bool.and_eq_false_imp, decide_eq_true_eq, decide_eq_false_iff_not, not_le]
  omega

theorem key_char_not_tab_or_space (c : Char) (h : key_char c = true) : tab_or_space c = false := by
  have h1 : c ≠ ' ' := key_char_ne c _ h (by decide)
  have h2 : c ≠ '\t' := key_char_ne c _ h (by decide)
  simp [tab_or_space, h1, h2]

/-! ## Scanning one rendered entry -/

theorem out_block_loop_newline (cs : Str) (l : Nat) :
    out_block_loop ('\n' :: cs) false false [] l = out_block_loop cs false false [] (l + 1) := by
  rw [out_block_loop]
  simp

theorem out_block_loop_newlines (n : Nat) (cs : Str) :
    ∀ l, out_block_loop (List.replicate n '\n' ++ cs) false false [] l =
      out_block_loop cs false false [] (l + n) := by
  induction n with
  | zero => intro l; rfl
  | succ n ih =>
    intro l
    rw [List.replicate_succ, List.cons_append, out_block_loop_newline, ih]
    congr 1
    omega

theorem out_block_loop_key_step (c : Char) (hc : key_char c = true) (cs acc : Str) (l : Nat) :
    out_block_loop (c :: cs) false false acc l = out_block_loop cs false false (acc ++ [c]) l := by
  have h1 : c ≠ '\n' := key_char_ne c _ hc (by decide)
  have h2 : c ≠ '=' := key_char_ne c _ hc (by decide)
  rw [out_block_loop]
  simp [h1, h2, key_char_not_tab_or_space c hc, key_char_not_space c hc, is_char_invalid_eq, hc]

theorem out_block_loop_key_end (acc : Str) (hacc : acc ≠ []) (z : Str) (l : Nat) :
    out_block_loop (' ' :: '=' :: '\n' :: '\t' :: z) false false acc l =
      (.ok acc, ⟨⟨'\t' :: z, false, false⟩, l⟩) := by
  have he : acc.isEmpty = false := by
    cases acc with
    | nil => exact absurd rfl hacc
    | cons a as => rfl
  have s1 : out_block_loop (' ' :: '=' :: '\n' :: '\t' :: z) false false acc l =
      out_block_loop ('=' :: '\n' :: '\t' :: z) false true acc l := by
    rw [out_block_loop]
    simp [he, tab_or_space]
  have s2 : out_block_loop ('=' :: '\n' :: '\t' :: z) false true acc l =
      out_block_loop ('\n' :: '\t' :: z) true false acc l := by
    rw [out_block_loop]
    simp [he]
  rw [s1, s2, out_block_loop]
  simp

theorem out_block_loop_key_line (k : Str) (hk : k.all key_char = true) :
    ∀ (acc z : Str) (l : Nat), acc ++ k ≠ [] →
      out_block_loop (k ++ ' ' :: '=' :: '\n' :: '\t' :: z) false false acc l =
        (.ok (acc ++ k), ⟨⟨'\t' :: z, false, false⟩, l⟩) := by
  induction k with
  | nil =>
    intro acc z l h
    simp only [List.append_nil] at h
    simpa using out_block_loop_key_end acc h z l
  | cons c k ih =>
    intro acc z l _
    simp only [List.all_cons, Bool.and_eq_true] at hk
    rw [List.cons_append, out_block_loop_key_step c hk.1]
    have := ih hk.2 (acc ++ [c]) z l (by simp)
    simpa using this

theorem in_block_loop_fold (v : Str) :
    ∀ (acc r : Str) (l : Nat), ends_block r = true →
      in_block_loop (regex_replace_newline v ++ '\n' :: r) acc l =
        (acc ++ v, ⟨⟨r, r.isEmpty, false⟩, l + v.count '\n'⟩) := by
  induction v with
  | nil =>
    intro acc r l hr
    cases r with
    | nil => simp [regex_replace_newline, in_block_loop_nl_nil]
    | cons c r =>
      simp only [ends_block, List.head?_cons, Bool.and_eq_true, bne_iff_ne, ne_eq,
        Option.some.injEq] at hr
      simp [regex_replace_newline, in_block_loop_nl_other c r acc l hr.1 hr.2]
  | cons c v ih =>
    intro acc r l hr
    by_cases hc : c = '\n'
    · subst hc
      simp only [regex_replace_newline, if_true, List.cons_append, in_block_loop_nl_tab]
      rw [ih _ _ _ hr]
      simp only [List.append_assoc, List.singleton_append, List.count_cons_self, Prod.mk.injEq,
        true_and]
      congr 1
      omega
    · simp only [regex_replace_newline, hc, if_false, List.cons_append]
      rw [in_block_loop_cons_ne _ _ _ _ hc, ih _ _ _ hr]
      have : List.count '\n' (c :: v) = List.count '\n' v := by
        rw [List.count_cons_of_ne]
        exact fun h => hc h.symm
      simp [this]

theorem valid_key_ne_nil (k : Str) (hk : valid_key k = true) : k ≠ [] := by
  rintro rfl
  simp [valid_key] at hk

theorem valid_key_isEmpty (k : Str) (hk : valid_key k = true) : k.isEmpty = false := by
  cases k with
  | nil => simp [valid_key] at hk
  | cons c k => rfl

theorem valid_key_all (k : Str) (hk : valid_key k = true) : k.all key_char = true := by
  simp only [valid_key, Bool.and_eq_true] at hk
  exact hk.2

theorem entry_text_append (k v r : Str) :
    entry_text (k, v) ++ r = k ++ ' ' :: '=' :: '\n' :: '\t' :: (regex_replace_newline v ++ '\n' :: r) := by
  simp [entry_text]

theorem peek_at_lines_entry (k v r : Str) (n l : Nat) :
    (at_lines n (entry_text (k, v) ++ r) l).file_reader.peek =
      ((List.replicate n '\n' ++ (entry_text (k, v) ++ r)).head?,
        (at_lines n (entry_text (k, v) ++ r) l).file_reader) := by
  have hne : List.replicate n '\n' ++ (entry_text (k, v) ++ r) ≠ [] := by
    simp [entry_text_append]
  unfold at_lines
  generalize List.replicate n '\n' ++ (entry_text (k, v) ++ r) = t at hne
  cases t with
  | nil => exact absurd rfl hne
  | cons c t => rfl

theorem peek_at_lines_entry_ne (k v r : Str) (n l : Nat) :
    ¬ (at_lines n (entry_text (k, v) ++ r) l).file_reader.peek.1 = none := by
  rw [peek_at_lines_entry k]
  have hne : List.replicate n '\n' ++ (entry_text (k, v) ++ r) ≠ [] := by
    simp [entry_text_append]
  generalize List.replicate n '\n' ++ (entry_text (k, v) ++ r) = t at hne
  cases t with
  | nil => exact absurd rfl hne
  | cons c t => simp

/-- The key line of a rendered entry is accepted, whatever follows the tab. -/
theorem scan_entry_out (k : Str) (hk : valid_key k = true) (v r : Str) (n l : Nat) :
    out_block_parse (at_lines n (entry_text (k, v) ++ r) l) =
      (.ok k, ⟨⟨'\t' :: (regex_replace_newline v ++ '\n' :: r), false, false⟩, l + n⟩) := by
  unfold out_block_parse at_lines
  simp only [IFStream.good, Bool.not_false, Bool.and_self, if_true]
  rw [out_block_loop_newlines, entry_text_append,
    out_block_loop_key_line k (valid_key_all k hk) [] _ _ (by simpa using valid_key_ne_nil k hk)]
  rfl

/-- The value block of a rendered entry is read back in full. -/
theorem scan_entry_in (v r : Str) (l : Nat) (hr : ends_block r = true) :
    in_block_parse ⟨⟨'\t' :: (regex_replace_newline v ++ '\n' :: r), false, false⟩, l⟩ =
      (v, ⟨⟨r, r.isEmpty, false⟩, l + v.count '\n'⟩) := by
  unfold in_block_parse
  simp only [get_good_cons, IFStream.good, Bool.not_false, Bool.and_self, if_true]
  rw [in_block_loop_fold v [] r l hr]
  rfl

theorem import_loop_entry (k : Str) (hk : valid_key k = true) (v r : Str) (hr : ends_block r = true)
    (n l fuel : Nat) (m : Table) :
    import_loop (fuel + 1) (at_lines n (entry_text (k, v) ++ r) l) m =
      import_loop fuel ⟨⟨r, r.isEmpty, false⟩, l + n + v.count '\n'⟩ (m.insert k v) := by
  rw [import_loop, if_neg (peek_at_lines_entry_ne k v r n l), peek_at_lines_entry k]
  have h := scan_entry_out k hk v r n l
  unfold at_lines at h ⊢
  simp only [h, valid_key_isEmpty k hk, scan_entry_in v r (l + n) hr]
  rfl

theorem find_loop_entry_skip (key k : Str) (hk : valid_key k = true) (hne : key ≠ k) (v r : Str)
    (hr : ends_block r = true) (n l fuel : Nat) :
    find_loop (fuel + 1) key (at_lines n (entry_text (k, v) ++ r) l) =
      find_loop fuel key ⟨⟨r, r.isEmpty, false⟩, l + n + v.count '\n'⟩ := by
  rw [find_loop, if_neg (peek_at_lines_entry_ne k v r n l), peek_at_lines_entry k]
  have h := scan_entry_out k hk v r n l
  unfold at_lines at h ⊢
  simp only [h, valid_key_isEmpty k hk, scan_entry_in v r (l + n) hr, hne]
  rfl

theorem find_loop_entry_hit (k : Str) (hk : valid_key k = true) (v r : Str)
    (hr : ends_block r = true) (n l fuel : Nat) :
    find_loop (fuel + 1) k (at_lines n (entry_text (k, v) ++ r) l) =
      some (.ok v, ⟨⟨r, r.isEmpty, false⟩, l + n + v.count '\n'⟩) := by
  rw [find_loop, if_neg (peek_at_lines_entry_ne k v r n l), peek_at_lines_entry k]
  have h := scan_entry_out k hk v r n l
  unfold at_lines at h ⊢
  simp only [h, valid_key_isEmpty k hk, scan_entry_in v r (l + n) hr]
  rfl

/-! ## Tables built by the import loop are well formed -/

theorem key_char_of_not_invalid (c : Char) (h : ¬ is_char_invalid c = true) :
    key_char c = true := by
  rw [is_char_invalid_eq] at h
  simpa using h

theorem out_block_loop_ok_key_chars :
    ∀ (cs : Str) (a b : Bool) (k : Str) (l : Nat) (key : Str) (cf : ConfigFile),
      k.all key_char = true → out_block_loop cs a b k l = (.ok key, cf) →
      key.all key_char = true := by
  intro cs
  induction cs with
  | nil =>
    intro a b k l key cf hk h
    rw [out_block_loop] at h
    split_ifs at h <;> first
      | (simp only [Prod.mk.injEq, false_and, reduceCtorEq] at h; done)
      | (simp only [Prod.mk.injEq, Except.ok.injEq] at h; rw [← h.1]; exact hk)
  | cons ch cs ih =>
    intro a b k l key cf hk h
    rw [out_block_loop] at h
    split_ifs at h <;> first
      | (simp only [Prod.mk.injEq, false_and, reduceCtorEq] at h; done)
      | exact ih _ _ _ _ _ _ hk h
      | (simp only [Prod.mk.injEq, Except.ok.injEq] at h; rw [← h.1]; exact hk)
      | exact ih _ _ _ _ _ _ (by
          rw [List.all_append, hk]
          simp only [List.all_cons, List.all_nil, Bool.and_true, Bool.true_and]
          exact key_char_of_not_invalid _ (by assumption)) h

theorem out_block_parse_ok_valid (cf cf1 : ConfigFile) (key : Str)
    (h : out_block_parse cf = (.ok key, cf1)) (hne : ¬ key.isEmpty = true) :
    valid_key key = true := by
  unfold out_block_parse at h
  split at h
  · have := out_block_loop_ok_key_chars _ _ _ _ _ _ _ (by rfl) h
    simp only [valid_key, this, Bool.and_true, Bool.not_eq_true']
    simpa using hne
  · simp only [Prod.mk.injEq, Except.ok.injEq] at h
    rw [← h.1] at hne
    exact absurd rfl hne

theorem lookup_eq_none_iff_not_mem_keys (k : Str) (m : Table) :
    List.lookup k m = none ↔ k ∉ m.map Prod.fst := by
  rw [List.lookup_eq_none_iff]
  simp only [bne_iff_ne, ne_eq, List.mem_map, not_exists, not_and]
  constructor
  · intro h e he hk
    exact h e he hk.symm
  · intro h e he hk
    exact h e he hk.symm

theorem Table.mem_insert (m : Table) (key value : Str) (e : Str × Str)
    (h : e ∈ m.insert key value) : e ∈ m ∨ e = (key, value) := by
  unfold Table.insert at h
  split at h
  · exact Or.inl h
  · simpa using h

theorem Table.insert_wf (m : Table) (key value : Str) (hm : m.WF) (hk : valid_key key = true) :
    (m.insert key value).WF := by
  unfold Table.insert
  split
  · exact hm
  · rename_i hnone
    have hnot : key ∉ m.map Prod.fst := by
      rw [← lookup_eq_none_iff_not_mem_keys]
      cases hl : List.lookup key m with
      | none => rfl
      | some v0 => simp [hl] at hnone
    constructor
    · rw [List.map_append, List.nodup_append]
      refine ⟨hm.1, by simp, ?_⟩
      intro a ha hb
      simp only [List.map_cons, List.map_nil, List.mem_singleton] at hb
      subst hb
      exact hnot ha
    · intro e he
      rcases List.mem_append.mp he with h | h
      · exact hm.2 e h
      · simp only [List.mem_singleton] at h
        subst h; exact hk

theorem import_loop_wf :
    ∀ (fuel : Nat) (cf : ConfigFile) (m M : Table) (cf' : ConfigFile),
      import_loop fuel cf m = some (.ok M, cf') → m.WF → M.WF := by
  intro fuel
  induction fuel with
  | zero => intro cf m M cf' h; simp [import_loop] at h
  | succ fuel ih =>
    intro cf m M cf' h hm
    rw [import_loop] at h
    split at h
    · simp only [Option.some.injEq, Prod.mk.injEq, Except.ok.injEq] at h
      rw [← h.1]; exact hm
    · split at h
      · simp at h
      · rename_i cur_key cf1 hout
        split at h
        · simp only [Option.some.injEq, Prod.mk.injEq, Except.ok.injEq] at h
          rw [← h.1]; exact hm
        · rename_i hne
          exact ih _ _ _ _ h (Table.insert_wf _ _ _ hm (out_block_parse_ok_valid _ _ _ hout hne))

theorem import_to_map_wf (doc : Str) (M : Table) (cf : ConfigFile)
    (h : import_to_map doc = some (.ok M, cf)) : M.WF :=
  import_loop_wf _ _ _ _ _ h ⟨List.nodup_nil, fun _ he => absurd he (List.not_mem_nil _)⟩

theorem Table.WF.perm {m it : Table} (hm : m.WF) (hp : it.Perm m) : it.WF :=
  ⟨((hp.map Prod.fst).nodup_iff).mpr hm.1, fun e he => hm.2 e (hp.mem_iff.mp he)⟩

theorem Table.WF.tail {e : Str × Str} {es : Table} (h : Table.WF (e :: es)) : Table.WF es :=
  ⟨(List.nodup_cons.mp h.1).2, fun x hx => h.2 x (List.mem_cons_of_mem _ hx)⟩

theorem Table.WF.filter {m : Table} (hm : m.WF) (p : Str × Str → Bool) : Table.WF (m.filter p) :=
  ⟨List.Nodup.sublist ((List.filter_sublist m).map Prod.fst) hm.1,
    fun e he => hm.2 e (List.mem_of_mem_filter he)⟩

/-- Inserting entries with fresh, pairwise distinct keys appends them. -/
theorem foldl_insert_fresh : ∀ (es m : Table), ((m ++ es).map Prod.fst).Nodup →
    es.foldl (fun m e => m.insert e.1 e.2) m = m ++ es := by
  intro es
  induction es with
  | nil => intro m _; simp
  | cons e es ih =>
    intro m h
    have hnot : e.1 ∉ m.map Prod.fst := by
      rw [List.map_append, List.nodup_append] at h
      intro hmem
      exact h.2.2 hmem (by simp)
    have hins : m.insert e.1 e.2 = m ++ [e] := by
      unfold Table.insert
      rw [(lookup_eq_none_iff_not_mem_keys _ _).mpr hnot]
      rfl
    rw [List.foldl_cons, hins, ih (m ++ [e]) (by simpa using h)]
    simp

/-! ## Scanning rendered documents -/

theorem ends_block_newline (r : Str) : ends_block ('\n' :: r) = true := by
  simp [ends_block]

theorem ends_block_nil : ends_block [] = true := rfl

/-- A stream holding nothing but blank lines ends the import loop. -/
theorem import_loop_blank (n l : Nat) (m : Table) :
    ∃ cf, import_loop 1 (at_lines n [] l) m = some (.ok m, cf) := by
  cases n with
  | zero => exact ⟨_, rfl⟩
  | succ n =>
    refine ⟨⟨⟨[], true, true⟩, l + (n + 1)⟩, ?_⟩
    rw [import_loop]
    have hp : (at_lines (n + 1) [] l).file_reader.peek =
        (some '\n', (at_lines (n + 1) [] l).file_reader) := rfl
    rw [hp]
    simp only [if_false, reduceCtorEq]
    have hout : out_block_parse ⟨(at_lines (n + 1) [] l).file_reader, (at_lines (n + 1) [] l).err_line_no⟩
        = (.ok [], ⟨⟨[], true, true⟩, l + (n + 1)⟩) := by
      unfold out_block_parse at_lines
      simp only [IFStream.good, Bool.not_false, Bool.and_self, if_true]
      rw [out_block_loop_newlines]
      rfl
    rw [hout]
    rfl

/-- The import loop on the text of a sequence of entries with valid keys,
followed by any text `t`, inserts every entry and carries on with `t`. -/
theorem import_loop_entries (t : Str) :
    ∀ (es : List (Str × Str)), (∀ e ∈ es, valid_key e.1 = true) →
      ∀ (n l fuel : Nat) (m : Table), ∃ n' l',
        import_loop (es.length + fuel) (at_lines n (entries_text es ++ t) l) m =
          import_loop fuel (at_lines n' t l') (es.foldl (fun m e => m.insert e.1 e.2) m) := by
  intro es
  induction es with
  | nil =>
    intro _ n l fuel m
    exact ⟨n, l, by simp [entries_text]⟩
  | cons e es ih =>
    intro hv n l fuel m
    obtain ⟨k, v⟩ := e
    obtain ⟨n', l', h⟩ := ih (fun e he => hv e (List.mem_cons_of_mem _ he)) 1
      (l + n + v.count '\n') fuel (m.insert k v)
    refine ⟨n', l', ?_⟩
    have htext : entries_text ((k, v) :: es) ++ t =
        entry_text (k, v) ++ '\n' :: (entries_text es ++ t) := by
      simp [entries_text]
    rw [htext, List.length_cons, Nat.add_right_comm,
      import_loop_entry k (hv _ (List.mem_cons_self _ _)) v _ (ends_block_newline _)]
    exact h

/-- Importing the text of entries with pairwise distinct valid keys gives back
the entries. -/
theorem import_to_map_entries_text (es : Table) (hes : es.WF) :
    ∃ cf, import_to_map (entries_text es) = some (.ok es, cf) := by
  obtain ⟨n', l', h⟩ := import_loop_entries [] es hes.2 0 1 1 []
  obtain ⟨cf, hb⟩ := import_loop_blank n' l' (es.foldl (fun m e => m.insert e.1 e.2) [])
  rw [hb, foldl_insert_fresh es [] (by simpa using hes.1)] at h
  refine ⟨cf, ?_⟩
  have := import_loop_canon _ _ _ _ h
  simpa [at_lines, import_to_map, start_scan] using this

/-! ## The text written by the write-back loops -/

theorem print_key_val_text (out : OStream) (hout : out.fail = false) (key value : Str) :
    print_key_val out key value = ⟨out.text ++ entry_text (key, value), false⟩ := by
  obtain ⟨text, fail⟩ := out
  simp only at hout
  subst hout
  simp [print_key_val, OStream.write, entry_text]

theorem remove_key_entries_text (key : Str) :
    ∀ (es : List (Str × Str)) (out : OStream), out.fail = false →
      remove_key_entries key es out =
        ⟨out.text ++ entries_text (es.filter (fun e => e.1 != key)), false⟩ := by
  intro es
  induction es with
  | nil =>
    intro out hout
    obtain ⟨text, fail⟩ := out
    simp only at hout
    subst hout
    simp [remove_key_entries, entries_text]
  | cons e es ih =>
    intro out hout
    rw [remove_key_entries]
    by_cases he : e.1 = key
    · simp only [he, ne_eq, not_true_eq_false, if_false]
      rw [ih out hout]
      simp [List.filter_cons, he]
    · simp only [ne_eq, he, not_false_eq_true, if_true]
      rw [print_key_val_text out hout, ih _ (by simp [OStream.write])]
      simp [List.filter_cons, he, OStream.write, entries_text]

theorem set_value_entries_text (key new_value : Str) :
    ∀ (es : List (Str × Str)) (out : OStream) (b : Bool), out.fail = false →
      set_value_entries key new_value es out b =
        (⟨out.text ++ entries_text (es.map (fun e => if e.1 = key then (key, new_value) else e)),
            false⟩, b || es.any (fun e => e.1 == key)) := by
  intro es
  induction es with
  | nil =>
    intro out b hout
    obtain ⟨text, fail⟩ := out
    simp only at hout
    subst hout
    simp [set_value_entries, entries_text]
  | cons e es ih =>
    intro out b hout
    rw [set_value_entries]
    by_cases he : e.1 = key
    · simp only [he, if_true]
      rw [print_key_val_text out hout, ih _ _ (by simp [OStream.write])]
      simp [OStream.write, entries_text, he]
    · have hb : (e.1 == key) = false := by simpa using he
      simp only [he, if_false]
      rw [print_key_val_text out hout, ih _ _ (by simp [OStream.write])]
      simp [OStream.write, entries_text, he, hb]

/-- The find loop on the text an upsert writes reaches the entry of the key
and returns the new value. -/
theorem find_loop_upsert_text (key new_value : Str) (hkey : valid_key key = true) (t : Str) :
    ∀ (es : List (Str × Str)), (∀ e ∈ es, valid_key e.1 = true) →
      ((∃ e ∈ es, e.1 = key) ∨ t = entry_text (key, new_value)) →
      ∀ (n l : Nat), ∃ cf,
        find_loop (es.length + 1) key
          (at_lines n
            (entries_text (es.map (fun e => if e.1 = key then (key, new_value) else e)) ++ t) l) =
          some (.ok new_value, cf) := by
  intro es
  induction es with
  | nil =>
    intro _ ht n l
    rcases ht with ⟨e, he, _⟩ | ht
    · exact absurd he (List.not_mem_nil _)
    · subst ht
      have := find_loop_entry_hit key hkey new_value [] ends_block_nil n l 0
      exact ⟨_, by simpa [entries_text] using this⟩
  | cons e es ih =>
    intro hv ht n l
    obtain ⟨k, v⟩ := e
    by_cases hk : k = key
    · subst hk
      have := find_loop_entry_hit k hkey new_value
        ('\n' :: (entries_text (es.map (fun e => if e.1 = k then (k, new_value) else e)) ++ t))
        (ends_block_newline _) n l (es.length + 1)
      exact ⟨_, by simpa [entries_text] using this⟩
    · have ht' : (∃ e ∈ es, e.1 = key) ∨ t = entry_text (key, new_value) := by
        rcases ht with ⟨e, he, hek⟩ | ht
        · rcases List.mem_cons.mp he with h | h
          · subst h; exact absurd hek hk
          · exact Or.inl ⟨e, h, hek⟩
        · exact Or.inr ht
      obtain ⟨cf, h⟩ := ih (fun e he => hv e (List.mem_cons_of_mem _ he)) ht' 1
        (l + n + v.count '\n')
      refine ⟨cf, ?_⟩
      have hskip := find_loop_entry_skip key k (hv _ (List.mem_cons_self _ _))
        (fun h => hk h.symm) v
        ('\n' :: (entries_text (es.map (fun e => if e.1 = key then (key, new_value) else e)) ++ t))
        (ends_block_newline _) n l (es.length + 1)
      simp only [List.map_cons, hk, if_false, entries_text, List.length_cons, List.append_assoc,
        List.cons_append]
      rw [hskip]
      exact h

/-! ## Agreement of lookup and import -/

/-- Lookup and import agree when each scan starts from the beginning of the
document: on every document for which `import_to_map` succeeds with table `M`,
`get_value_for_key` succeeds for every key of `M` and returns exactly the
value `M` holds for that key. -/
theorem find_agrees_with_import (doc : Str) (M : Table) (cf : ConfigFile) (key value : Str)
    (himport : import_to_map doc = some (.ok M, cf))
    (hkey : List.lookup key M = some value) :
    ∃ cf', get_value_for_key key doc = some (.ok value, cf') :=
  find_loop_of_import_loop key value _ _ _ _ _ himport rfl hkey

/-- A document with a duplicate key line and an unterminated last value. -/
theorem find_agrees_with_import_witness :
    import_to_map "A =\n\tx\nA =\n\ty\nB =\n\tz".toList =
        some (.ok [("A".toList, "x".toList), ("B".toList, [])], ⟨⟨[], true, true⟩, 1⟩) ∧
      List.lookup "B".toList [("A".toList, "x".toList), ("B".toList, [])] = some [] ∧
      ∃ cf', get_value_for_key "B".toList "A =\n\tx\nA =\n\ty\nB =\n\tz".toList =
        some (.ok [], cf') :=
  ⟨rfl, rfl, find_agrees_with_import _ _ _ _ _ rfl rfl⟩

/-! ## Round trip through the rendered text -/

/-- C2: for every table `M` with pairwise distinct valid keys (in particular
every table `import_to_map` returns) and every order `it` in which its entries
are visited, the text the render loop of `remove_key` writes for `it` (each
entry as key, `" =\n"`, a tab, the value with every newline replaced by
newline-tab, a newline, and one more newline) is imported successfully, and the
imported table holds exactly the entries of `M`. -/
theorem render_import_round_trip (M it : Table) (key : Str)
    (hM : M.WF ∨ ∃ doc cf, import_to_map doc = some (.ok M, cf))
    (hit : it.Perm M) (hkey : ∀ e ∈ M, e.1 ≠ key) :
    (remove_key_entries key it ⟨[], false⟩).text = entries_text it ∧
      ∃ M' cf', import_to_map (remove_key_entries key it ⟨[], false⟩).text = some (.ok M', cf') ∧
        M'.Perm M := by
  have hwf : M.WF := by
    rcases hM with h | ⟨doc, cf, h⟩
    · exact h
    · exact import_to_map_wf doc M cf h
  have hfilter : it.filter (fun e => e.1 != key) = it := by
    rw [List.filter_eq_self]
    intro e he
    simpa using hkey e (hit.mem_iff.mp he)
  have htext : (remove_key_entries key it ⟨[], false⟩).text = entries_text it := by
    rw [remove_key_entries_text key it ⟨[], false⟩ rfl, hfilter]
    rfl
  obtain ⟨cf', h⟩ := import_to_map_entries_text it (hwf.perm hit)
  exact ⟨htext, it, cf', by rw [htext]; exact h, hit⟩

theorem render_import_round_trip_witness :
    (Table.WF [("A".toList, "x\n\ty\n".toList), ("B-1".toList, [])] ∨
        ∃ doc cf, import_to_map doc =
          some (.ok [("A".toList, "x\n\ty\n".toList), ("B-1".toList, [])], cf)) ∧
      List.Perm [("B-1".toList, []), ("A".toList, "x\n\ty\n".toList)]
        [("A".toList, "x\n\ty\n".toList), ("B-1".toList, [])] ∧
      (remove_key_entries [] [("B-1".toList, []), ("A".toList, "x\n\ty\n".toList)] ⟨[], false⟩).text
        = "B-1 =\n\t\n\nA =\n\tx\n\t\ty\n\t\n\n".toList ∧
      ∃ M' cf', import_to_map
          (remove_key_entries [] [("B-1".toList, []), ("A".toList, "x\n\ty\n".toList)]
            ⟨[], false⟩).text = some (.ok M', cf') ∧
        M'.Perm [("A".toList, "x\n\ty\n".toList), ("B-1".toList, [])] :=
  have hwf : Table.WF [("A".toList, "x\n\ty\n".toList), ("B-1".toList, [])] :=
    ⟨by decide, by decide⟩
  have hperm : List.Perm [("B-1".toList, []), ("A".toList, "x\n\ty\n".toList)]
      [("A".toList, "x\n\ty\n".toList), ("B-1".toList, [])] := List.Perm.swap _ _ _
  ⟨Or.inl hwf, hperm, rfl,
    (render_import_round_trip _ _ [] (Or.inl hwf) hperm (by decide)).2⟩

/-! ## Upsert -/

/-- C3: for every document on which `import_to_map` succeeds, every valid key
and every value, `set_value_for_key` succeeds, and `get_value_for_key` for that
key on the text it wrote returns exactly that value, whether or not the key
was in the document and whatever the iteration order of the table. -/
theorem upsert_then_find (iter : Table → List (Str × Str)) (hiter : ∀ m, (iter m).Perm m)
    (doc : Str) (M : Table) (cf : ConfigFile) (key value : Str)
    (himport : import_to_map doc = some (.ok M, cf)) (hkey : valid_key key = true) :
    ∃ out, set_value_for_key iter key value doc ⟨[], false⟩ = some (.ok (), cf, out) ∧
      ∃ cf', get_value_for_key key out.text = some (.ok value, cf') := by
  have hwf : Table.WF (iter M) := (import_to_map_wf doc M cf himport).perm (hiter M)
  have hentries := set_value_entries_text key value (iter M) ⟨[], false⟩ false rfl
  simp only [List.nil_append, Bool.false_or] at hentries
  by_cases hex : (iter M).any (fun e => e.1 == key) = true
  · refine ⟨⟨entries_text ((iter M).map (fun e => if e.1 = key then (key, value) else e)), false⟩,
      ?_, ?_⟩
    · simp [set_value_for_key, himport, hentries, hex]
    · obtain ⟨e, he, hek⟩ := List.any_eq_true.mp hex
      obtain ⟨cf', h⟩ := find_loop_upsert_text key value hkey [] (iter M) hwf.2
        (Or.inl ⟨e, he, by simpa using hek⟩) 0 1
      have := find_loop_canon _ _ _ _ h
      exact ⟨cf', by simpa [at_lines, get_value_for_key, start_scan] using this⟩
  · refine ⟨⟨entries_text ((iter M).map (fun e => if e.1 = key then (key, value) else e)) ++
        entry_text (key, value), false⟩, ?_, ?_⟩
    · simp [set_value_for_key, himport, hentries, hex, print_key_val_text]
    · obtain ⟨cf', h⟩ := find_loop_upsert_text key value hkey (entry_text (key, value)) (iter M)
        hwf.2 (Or.inr rfl) 0 1
      have := find_loop_canon _ _ _ _ h
      exact ⟨cf', by simpa [at_lines, get_value_for_key, start_scan] using this⟩

theorem upsert_then_find_witness :
    (∀ m : Table, (List.reverse m).Perm m) ∧
      import_to_map "A =\n\tx\n\nB =\n\ty\n".toList =
        some (.ok [("A".toList, "x".toList), ("B".toList, "y".toList)], ⟨⟨[], true, true⟩, 2⟩) ∧
      valid_key "A".toList = true ∧
      ∃ out, set_value_for_key List.reverse "A".toList "+u\n\n\tv".toList
          "A =\n\tx\n\nB =\n\ty\n".toList ⟨[], false⟩ = some (.ok (), ⟨⟨[], true, true⟩, 2⟩, out) ∧
        ∃ cf', get_value_for_key "A".toList out.text = some (.ok "+u\n\n\tv".toList, cf') :=
  ⟨fun m => List.reverse_perm m, rfl, rfl,
    upsert_then_find List.reverse (fun m => List.reverse_perm m) _ _ _ _ _ rfl rfl⟩

/-! ## Delete -/

/-- Delete on an object that has not been opened before: for every document on
which `import_to_map` succeeds with table `M` and every key, `remove_key`
succeeds; importing the text it wrote yields `M`
without the entry of that key (all of `M` when the key is absent), and
`get_value_for_key` for that key on the text fails with `KeyNotFound`
carrying the key. -/
theorem delete_removes_key (iter : Table → List (Str × Str)) (hiter : ∀ m, (iter m).Perm m)
    (doc : Str) (M : Table) (cf : ConfigFile) (key : Str)
    (himport : import_to_map doc = some (.ok M, cf)) :
    ∃ out, remove_key iter key doc ⟨[], false⟩ = some (.ok (), cf, out) ∧
      (∃ M' cf', import_to_map out.text = some (.ok M', cf') ∧
        M'.Perm (M.filter (fun e => e.1 != key))) ∧
      ∃ fr, get_value_for_key key out.text = some (.error (.KeyNotFound key), ⟨fr, 0⟩) := by
  have hwf : Table.WF ((iter M).filter (fun e => e.1 != key)) :=
    ((import_to_map_wf doc M cf himport).perm (hiter M)).filter _
  have htext := remove_key_entries_text key (iter M) ⟨[], false⟩ rfl
  simp only [List.nil_append] at htext
  obtain ⟨cf', h⟩ := import_to_map_entries_text _ hwf
  refine ⟨_, by simp only [remove_key, himport]; rfl, ?_, ?_⟩
  · rw [htext]
    exact ⟨_, cf', h, (hiter M).filter _⟩
  · rw [htext]
    refine find_loop_absent key _ _ _ _ _ h ?_
    rw [lookup_eq_none_iff_not_mem_keys]
    intro hmem
    obtain ⟨e, he, hek⟩ := List.mem_map.mp hmem
    have := (List.mem_filter.mp he).2
    simp [hek] at this

theorem delete_removes_key_witness :
    (∀ m : Table, (List.reverse m).Perm m) ∧
      import_to_map "A =\n\tx\n\nB =\n\ty\n".toList =
        some (.ok [("A".toList, "x".toList), ("B".toList, "y".toList)], ⟨⟨[], true, true⟩, 2⟩) ∧
      ∃ out, remove_key List.reverse "A".toList "A =\n\tx\n\nB =\n\ty\n".toList ⟨[], false⟩ =
          some (.ok (), ⟨⟨[], true, true⟩, 2⟩, out) ∧
        (∃ M' cf', import_to_map out.text = some (.ok M', cf') ∧
          M'.Perm ([("A".toList, "x".toList), ("B".toList, "y".toList)].filter
            (fun e => e.1 != "A".toList))) ∧
        ∃ fr, get_value_for_key "A".toList out.text =
          some (.error (.KeyNotFound "A".toList), ⟨fr, 0⟩) :=
  ⟨fun m => List.reverse_perm m, rfl,
    delete_removes_key List.reverse (fun m => List.reverse_perm m) _ _ _ _ rfl⟩

/-! ## The value block of the tab form -/

/-- C5: for every value and every remainder `r` that is empty or starts with
a character other than tab and `+`, `in_block_parse` on a tab, the value with
every newline replaced by newline-tab, a newline and `r` returns exactly the
value and leaves the stream at the start of `r`. -/
theorem fold_unfold_tab_form (value r : Str) (line : Nat) (hr : ends_block r = true) :
    in_block_parse ⟨⟨'\t' :: (regex_replace_newline value ++ '\n' :: r), false, false⟩, line⟩ =
      (value, ⟨⟨r, r.isEmpty, false⟩, line + value.count '\n'⟩) :=
  scan_entry_in value r line hr

theorem fold_unfold_tab_form_witness :
    ends_block [] = true ∧
      in_block_parse ⟨⟨"\tline1\n\tline2\n".toList, false, false⟩, 1⟩ =
        ("line1\nline2".toList, ⟨⟨[], true, false⟩, 2⟩) ∧
      in_block_parse ⟨⟨"\tJohn\n".toList, false, false⟩, 1⟩ =
        ("John".toList, ⟨⟨[], true, false⟩, 1⟩) ∧
      in_block_parse ⟨⟨"\t+a\n\t\n\t\tb\n\t\nK =\n".toList, false, false⟩, 1⟩ =
        ("+a\n\n\tb\n".toList, ⟨⟨"K =\n".toList, false, false⟩, 4⟩) :=
  ⟨rfl, fold_unfold_tab_form "line1\nline2".toList [] 1 rfl,
    fold_unfold_tab_form "John".toList [] 1 rfl,
    fold_unfold_tab_form "+a\n\n\tb\n".toList "K =\n".toList 1 rfl⟩

/-! ## Absent keys -/

/-- C7: on every document for which `import_to_map` succeeds with table `M`,
`get_value_for_key` for a key that `M` does not hold fails with `KeyNotFound`
carrying that key, and leaves `err_line_no` at 0. -/
theorem find_absent_key (doc : Str) (M : Table) (cf : ConfigFile) (key : Str)
    (himport : import_to_map doc = some (.ok M, cf)) (hkey : List.lookup key M = none) :
    ∃ fr, get_value_for_key key doc = some (.error (.KeyNotFound key), ⟨fr, 0⟩) :=
  find_loop_absent key _ _ _ _ _ himport hkey

theorem find_absent_key_witness :
    (import_to_map [] = some (.ok [], ⟨⟨[], true, false⟩, 1⟩) ∧
        List.lookup "A".toList ([] : Table) = none ∧
        ∃ fr, get_value_for_key "A".toList [] =
          some (.error (.KeyNotFound "A".toList), ⟨fr, 0⟩)) ∧
      (import_to_map "\n \t \n\n".toList = some (.ok [], ⟨⟨[], true, true⟩, 4⟩) ∧
        List.lookup "A".toList ([] : Table) = none ∧
        ∃ fr, get_value_for_key "A".toList "\n \t \n\n".toList =
          some (.error (.KeyNotFound "A".toList), ⟨fr, 0⟩)) ∧
      (import_to_map "\n \t \n\nB =\n\ty\n".toList =
          some (.ok [("B".toList, "y".toList)], ⟨⟨[], true, true⟩, 4⟩) ∧
        List.lookup [] [("B".toList, "y".toList)] = none ∧
        ∃ fr, get_value_for_key [] "\n \t \n\nB =\n\ty\n".toList =
          some (.error (.KeyNotFound []), ⟨fr, 0⟩)) :=
  ⟨⟨rfl, rfl, find_absent_key [] [] _ "A".toList rfl rfl⟩,
    ⟨rfl, rfl, find_absent_key "\n \t \n\n".toList [] _ "A".toList rfl rfl⟩,
    ⟨rfl, rfl, find_absent_key _ _ _ [] rfl rfl⟩⟩

/-! ## Duplicate keys -/

/-- C9: whenever `import_to_map` succeeds, the document's declarations scan
without error, and every key is mapped to the value of its first declaration
in stream order, whatever later declarations of the same key hold; and an
error raised while scanning any declaration, a later duplicate included,
makes `import_to_map` fail with that error. -/
theorem duplicate_keys_first_wins (doc : Str) :
    (∀ M cf, import_to_map doc = some (.ok M, cf) →
      ∃ ds, declarations doc = some (.ok ds, cf) ∧
        ∀ key value ds1 ds2, ds = ds1 ++ (key, value) :: ds2 → (∀ e ∈ ds1, e.1 ≠ key) →
          List.lookup key M = some value) ∧
    (∀ e cf, declarations doc = some (.error e, cf) →
      import_to_map doc = some (.error e, cf)) := by
  have heq : import_to_map doc =
      (declarations doc).map (fun r => (r.1.map first_wins, r.2)) :=
    import_loop_eq_declarations _ _ []
  constructor
  · intro M cf h
    rw [heq] at h
    cases hd : declarations doc with
    | none => rw [hd] at h; simp at h
    | some r =>
      obtain ⟨res, cf1⟩ := r
      rw [hd] at h
      cases res with
      | error e => simp [Except.map] at h
      | ok ds =>
        simp only [Option.map_some', Except.map, Option.some.injEq, Prod.mk.injEq,
          Except.ok.injEq] at h
        refine ⟨ds, by rw [h.2], ?_⟩
        intro key value ds1 ds2 hds hfirst
        rw [← h.1, lookup_first_wins, hds]
        exact lookup_first_occurrence key value ds1 ds2 hfirst
  · intro e cf h
    rw [heq, h]
    rfl

theorem duplicate_keys_first_wins_witness :
    (import_to_map "A =\n\tx\nB =\n\tz\nA =\n\ty\n".toList =
        some (.ok [("A".toList, "x".toList), ("B".toList, "z".toList)], ⟨⟨[], true, true⟩, 1⟩) ∧
      ∃ ds, declarations "A =\n\tx\nB =\n\tz\nA =\n\ty\n".toList =
          some (.ok ds, ⟨⟨[], true, true⟩, 1⟩) ∧
        ∀ key value ds1 ds2, ds = ds1 ++ (key, value) :: ds2 → (∀ e ∈ ds1, e.1 ≠ key) →
          List.lookup key [("A".toList, "x".toList), ("B".toList, "z".toList)] = some value) ∧
    (declarations "A =\n\tx\nA = y\n".toList =
        some (.error .TrailingCharsAfterEqualTo, ⟨⟨"\n".toList, false, false⟩, 1⟩) ∧
      import_to_map "A =\n\tx\nA = y\n".toList =
        some (.error .TrailingCharsAfterEqualTo, ⟨⟨"\n".toList, false, false⟩, 1⟩)) :=
  ⟨⟨rfl, (duplicate_keys_first_wins _).1 _ _ rfl⟩,
    ⟨rfl, (duplicate_keys_first_wins _).2 _ _ rfl⟩⟩

/-! ## One step of the key line scanner -/

/-- What one iteration of the loop of `out_block_parse` does depends on the
unread characters only at a newline that follows `=`, where the next character
is peeked; otherwise it either throws or continues, whatever comes next. -/
theorem out_block_loop_step (ch : Char) (a b : Bool) (k : Str) (l : Nat) :
    (ch = '\n' ∧ a = true ∧ ∀ cs, out_block_loop (ch :: cs) a b k l =
        if cs.head? ≠ some '\t' then
          (.error (.NoValueFoundForKey k), ⟨⟨cs, cs.isEmpty, false⟩, l⟩)
        else (.ok k, ⟨⟨cs, cs.isEmpty, false⟩, l⟩)) ∨
    (∃ e, ∀ cs, out_block_loop (ch :: cs) a b k l = (.error e, ⟨⟨cs, false, false⟩, l⟩)) ∨
    (∃ a' b' k' l', ∀ cs, out_block_loop (ch :: cs) a b k l = out_block_loop cs a' b' k' l') := by
  by_cases h1 : ch = '\n'
  · by_cases h2 : a = true
    · exact Or.inl ⟨h1, h2, fun cs => by rw [out_block_loop]; simp [h1, h2]⟩
    · by_cases h3 : k.isEmpty = true
      · exact Or.inr (Or.inr ⟨a, b, k, l + 1, fun cs => by rw [out_block_loop]; simp [h1, h2, h3]⟩)
      · exact Or.inr (Or.inl ⟨.MissingEqualTo, fun cs => by rw [out_block_loop]; simp [h1, h2, h3]⟩)
  · by_cases h2 : ch = '='
    · by_cases h3 : k.isEmpty = true
      · exact Or.inr (Or.inl ⟨.EqualToWithoutAKey, fun cs => by
          rw [out_block_loop]; simp [h2, h3]⟩)
      · exact Or.inr (Or.inr ⟨true, false, k, l, fun cs => by
          rw [out_block_loop]; simp [h2, h3]⟩)
    · by_cases h3 : (b && !tab_or_space ch) = true
      · exact Or.inr (Or.inl ⟨.MissingEqualTo, fun cs => by
          rw [out_block_loop]; simp only [h1, h2, h3, if_true, if_false, Bool.false_eq_true]⟩)
      · by_cases h4 : (a && !tab_or_space ch) = true
        · exact Or.inr (Or.inl ⟨.TrailingCharsAfterEqualTo, fun cs => by
            rw [out_block_loop]; simp only [h1, h2, h3, h4, if_true, if_false, Bool.false_eq_true]⟩)
        · by_cases h5 : (!k.isEmpty && tab_or_space ch && !a) = true
          · exact Or.inr (Or.inr ⟨a, true, k, l, fun cs => by
              rw [out_block_loop]; simp only [h1, h2, h3, h4, h5, if_true, if_false, Bool.false_eq_true]⟩)
          · by_cases h6 : isspace ch = true
            · exact Or.inr (Or.inr ⟨a, b, k, l, fun cs => by
                rw [out_block_loop]; simp only [h1, h2, h3, h4, h5, h6, if_true, if_false, Bool.false_eq_true]⟩)
            · by_cases h7 : is_char_invalid ch = true
              · exact Or.inr (Or.inl ⟨.InvalidCharacter ch, fun cs => by
                  rw [out_block_loop]
                  simp only [h1, h2, h3, h4, h5, h6, h7, if_true, if_false, Bool.false_eq_true]⟩)
              · exact Or.inr (Or.inr ⟨a, b, k ++ [ch], l, fun cs => by
                  rw [out_block_loop]
                  simp only [h1, h2, h3, h4, h5, h6, h7, if_true, if_false, Bool.false_eq_true]⟩)

/-- A key line that was accepted is accepted in the same way when more text
is appended to the document: the scanner stopped on the peeked tab. -/
theorem out_block_loop_append (x : Str) :
    ∀ (cs : Str) (a b : Bool) (k : Str) (l : Nat) (key : Str) (cf1 : ConfigFile),
      out_block_loop cs a b k l = (.ok key, cf1) →
      key.isEmpty = true ∨
        ∃ r l', cf1 = ⟨⟨'\t' :: r, false, false⟩, l'⟩ ∧ (∃ p, cs = p ++ '\t' :: r) ∧
          out_block_loop (cs ++ x) a b k l = (.ok key, ⟨⟨'\t' :: (r ++ x), false, false⟩, l'⟩) := by
  intro cs
  induction cs with
  | nil =>
    intro a b k l key cf1 h
    rw [out_block_loop] at h
    split_ifs at h with h1 h2
    · simp at h
    · simp at h
    · simp only [Prod.mk.injEq, Except.ok.injEq] at h
      left
      rw [← h.1]
      simp only [Bool.or_eq_true, Bool.not_eq_true', not_or, Bool.not_eq_true,
        Bool.not_eq_false] at h2
      exact h2.2
  | cons ch cs ih =>
    intro a b k l key cf1 h
    rcases out_block_loop_step ch a b k l with ⟨_, _, hs⟩ | ⟨e, hs⟩ | ⟨a', b', k', l', hs⟩
    · rw [hs] at h
      split_ifs at h with hpeek
      · simp at h
      · simp only [Prod.mk.injEq, Except.ok.injEq] at h
        cases cs with
        | nil => simp at hpeek
        | cons c r =>
          simp only [List.head?_cons, ne_eq, Option.some.injEq, not_not] at hpeek
          subst hpeek
          right
          refine ⟨r, l, by rw [← h.2]; rfl, ⟨[ch], rfl⟩, ?_⟩
          rw [List.cons_append, hs, ← h.1]
          simp
    · rw [hs] at h
      simp at h
    · rw [hs] at h
      rcases ih _ _ _ _ _ _ h with h0 | ⟨r, l2, hcf, ⟨p, hp⟩, happ⟩
      · exact Or.inl h0
      · right
        refine ⟨r, l2, hcf, ⟨ch :: p, by rw [hp]; rfl⟩, ?_⟩
        rw [List.cons_append, hs]
        exact happ

/-! ## Physical lines of a value block -/

theorem in_block_loop_segment (seg : Str) (hseg : '\n' ∉ seg) :
    ∀ (rest acc : Str) (l : Nat),
      in_block_loop (seg ++ rest) acc l = in_block_loop rest (acc ++ seg) l := by
  induction seg with
  | nil => intro rest acc l; simp
  | cons c seg ih =>
    intro rest acc l
    have hc : c ≠ '\n' := fun h => hseg (by simp [h])
    have hseg' : '\n' ∉ seg := fun h => hseg (List.mem_cons_of_mem _ h)
    rw [List.cons_append, in_block_loop_cons_ne _ _ _ _ hc, ih hseg']
    simp

/-- A block whose last physical line has no newline after it is read to the
end of the stream, and the empty string is returned. -/
theorem in_block_loop_block_lines :
    ∀ (more : List (Char × Str)) (first acc : Str) (l : Nat), '\n' ∉ first →
      (∀ p ∈ more, (p.1 = '\t' ∨ p.1 = '+') ∧ '\n' ∉ p.2) →
      in_block_loop (block_lines first more) acc l = ([], ⟨⟨[], true, true⟩, l + more.length⟩) := by
  intro more
  induction more with
  | nil =>
    intro first acc l hfirst _
    have := in_block_loop_segment first hfirst [] acc l
    rw [List.append_nil] at this
    rw [block_lines, this, in_block_loop_nil]
    rfl
  | cons p more ih =>
    intro first acc l hfirst hmore
    obtain ⟨marker, content⟩ := p
    have hp := hmore (marker, content) (List.mem_cons_self _ _)
    have hrest : ∀ q ∈ more, (q.1 = '\t' ∨ q.1 = '+') ∧ '\n' ∉ q.2 :=
      fun q hq => hmore q (List.mem_cons_of_mem _ hq)
    rw [block_lines, in_block_loop_segment first hfirst]
    rcases hp.1 with hm | hm
    · simp only at hm
      subst hm
      rw [in_block_loop_nl_tab, ih content _ _ hp.2 hrest]
      simp only [List.length_cons, Prod.mk.injEq, ConfigFile.mk.injEq, true_and]
      omega
    · simp only at hm
      subst hm
      rw [in_block_loop_nl_plus, ih content _ _ hp.2 hrest]
      simp only [List.length_cons, Prod.mk.injEq, ConfigFile.mk.injEq, true_and]
      omega

/-! ## The `+` continuation -/

/-- C6, as the code behaves: for all newline-free `a` and `b`, `in_block_parse`
on a tab, `a`, a newline, `+`, `b` and a newline returns `a` followed directly
by `b`: at a newline followed by `+` nothing is appended to the value, and both
the newline and the `+` are discarded. -/
theorem plus_continuation_joins_lines (a b : Str) (line : Nat)
    (ha : '\n' ∉ a) (hb : '\n' ∉ b) :
    in_block_parse ⟨⟨'\t' :: (a ++ '\n' :: '+' :: (b ++ ['\n'])), false, false⟩, line⟩ =
      (a ++ b, ⟨⟨[], true, false⟩, line + 1⟩) := by
  unfold in_block_parse
  simp only [get_good_cons, IFStream.good, Bool.not_false, Bool.and_self, if_true]
  rw [in_block_loop_segment a ha, in_block_loop_nl_plus, in_block_loop_segment b hb,
    in_block_loop_nl_nil]
  simp

theorem plus_continuation_joins_lines_witness :
    '\n' ∉ "first".toList ∧ '\n' ∉ "second".toList ∧
      in_block_parse ⟨⟨"\tfirst\n+second\n".toList, false, false⟩, 1⟩ =
        ("firstsecond".toList, ⟨⟨[], true, false⟩, 2⟩) :=
  ⟨by decide, by decide,
    plus_continuation_joins_lines "first".toList "second".toList 1 (by decide) (by decide)⟩

/-- C6 as stated fails: on the document `"A =\n\tfirst\n+second\n"` the value
of `A` is `"firstsecond"`, not `"first\nsecond"`. -/
theorem plus_continuation_keeps_newline_counterexample :
    (in_block_parse ⟨⟨"\tfirst\n+second\n".toList, false, false⟩, 1⟩).1 ≠
        "first".toList ++ "\n".toList ++ "second".toList ∧
      get_value_for_key "A".toList "A =\n\tfirst\n+second\n".toList =
        some (.ok "firstsecond".toList, ⟨⟨[], true, false⟩, 2⟩) ∧
      import_to_map "A =\n\tfirst\n+second\n".toList =
        some (.ok [("A".toList, "firstsecond".toList)], ⟨⟨[], true, true⟩, 2⟩) :=
  ⟨by decide, rfl, rfl⟩

/-! ## Unterminated final value -/

/-- C8: whenever the stream ends while `in_block_parse` is still accumulating,
that is, after the character the scanner discards first the value block is a
first line and any number of continuation lines (each started by a tab or a
`+`) and no newline follows the last of them, the scanner returns the empty
string, without error, having read to the end of the stream. -/
theorem unterminated_value_lost (c0 : Char) (first : Str) (more : List (Char × Str))
    (line : Nat) (hfirst : '\n' ∉ first)
    (hmore : ∀ p ∈ more, (p.1 = '\t' ∨ p.1 = '+') ∧ '\n' ∉ p.2) :
    in_block_parse ⟨⟨c0 :: block_lines first more, false, false⟩, line⟩ =
      ([], ⟨⟨[], true, true⟩, line + more.length⟩) := by
  unfold in_block_parse
  simp only [get_good_cons, IFStream.good, Bool.not_false, Bool.and_self, if_true]
  exact in_block_loop_block_lines more first [] line hfirst hmore

theorem unterminated_value_lost_witness :
    ('\n' ∉ "x".toList ∧
        (∀ p ∈ [('\t', "y".toList), ('+', "z".toList)],
          (p.1 = '\t' ∨ p.1 = '+') ∧ '\n' ∉ p.2) ∧
        in_block_parse ⟨⟨"\tx\n\ty\n+z".toList, false, false⟩, 1⟩ =
          ([], ⟨⟨[], true, true⟩, 3⟩)) ∧
      import_to_map "A =\n\tx".toList = some (.ok [("A".toList, [])], ⟨⟨[], true, true⟩, 1⟩) ∧
      import_to_map "A =\n\tx\n\ty".toList =
        some (.ok [("A".toList, [])], ⟨⟨[], true, true⟩, 2⟩) :=
  ⟨⟨by decide, by decide,
      unterminated_value_lost '\t' "x".toList [('\t', "y".toList), ('+', "z".toList)] 1
        (by decide) (by decide)⟩,
    rfl, rfl⟩

/-! ## Lookup does not read past the matched entry -/

theorem getLast_tail_of_ne (c : Char) (cs : Str) (hc : c ≠ '\n')
    (h : (c :: cs).getLast? = some '\n') : cs.getLast? = some '\n' := by
  cases cs with
  | nil =>
    simp only [List.getLast?_singleton, Option.some.injEq] at h
    exact absurd h hc
  | cons d cs => rwa [List.getLast?_cons_cons] at h

/-- On unread text that ends with a newline, the value block scanner stops at
a newline inside the text; appending `x`, which does not continue a block,
changes neither the value nor the place where the scanner stops. -/
theorem in_block_loop_append (x : Str) (hx : ends_block x = true) :
    ∀ (cs acc : Str) (l : Nat), cs.getLast? = some '\n' →
      (∃ c r l2 v, in_block_loop cs acc l = (v, ⟨⟨c :: r, false, false⟩, l2⟩) ∧
          (c :: r).getLast? = some '\n' ∧
          in_block_loop (cs ++ x) acc l = (v, ⟨⟨c :: r ++ x, false, false⟩, l2⟩)) ∨
        (∃ v l2, in_block_loop cs acc l = (v, ⟨⟨[], true, false⟩, l2⟩) ∧
          in_block_loop (cs ++ x) acc l = (v, ⟨⟨x, x.isEmpty, false⟩, l2⟩)) := by
  intro cs acc l
  induction cs, acc, l using in_block_loop.induct with
  | case1 value line => intro h; simp at h
  | case2 value line =>
    intro _
    right
    refine ⟨value, line, in_block_loop_nl_nil _ _, ?_⟩
    cases x with
    | nil => exact in_block_loop_nl_nil _ _
    | cons c xs =>
      simp only [ends_block, List.head?_cons, Bool.and_eq_true, bne_iff_ne, ne_eq,
        Option.some.injEq] at hx
      exact in_block_loop_nl_other c xs value line hx.1 hx.2
  | case3 value line cs' ih =>
    intro h
    have h' : cs'.getLast? = some '\n' :=
      getLast_tail_of_ne '\t' cs' (by decide) (by rwa [List.getLast?_cons_cons] at h)
    rcases ih h' with ⟨c, r, l2, v, h1, h2, h3⟩ | ⟨v, l2, h1, h3⟩
    · left
      exact ⟨c, r, l2, v, by rw [in_block_loop_nl_tab]; exact h1, h2, by
        rw [List.cons_append, List.cons_append, in_block_loop_nl_tab]; exact h3⟩
    · right
      exact ⟨v, l2, by rw [in_block_loop_nl_tab]; exact h1, by
        rw [List.cons_append, List.cons_append, in_block_loop_nl_tab]; exact h3⟩
  | case4 value line next cs' hn1 hn2 =>
    intro h
    left
    refine ⟨next, cs', line, value, in_block_loop_nl_other _ _ _ _ hn1 hn2, ?_, ?_⟩
    · rwa [List.getLast?_cons_cons] at h
    · rw [List.cons_append, List.cons_append, in_block_loop_nl_other _ _ _ _ hn1 hn2]
  | case5 value line next cs' hn1 hn2 ih =>
    intro h
    have hplus : next = '+' := by simpa using hn2
    subst hplus
    have h' : cs'.getLast? = some '\n' :=
      getLast_tail_of_ne '+' cs' (by decide) (by rwa [List.getLast?_cons_cons] at h)
    rcases ih h' with ⟨c, r, l2, v, h1, h2, h3⟩ | ⟨v, l2, h1, h3⟩
    · left
      exact ⟨c, r, l2, v, by rw [in_block_loop_nl_plus]; exact h1, h2, by
        rw [List.cons_append, List.cons_append, in_block_loop_nl_plus]; exact h3⟩
    · right
      exact ⟨v, l2, by rw [in_block_loop_nl_plus]; exact h1, by
        rw [List.cons_append, List.cons_append, in_block_loop_nl_plus]; exact h3⟩
  | case6 ch cs value line hch ih =>
    intro h
    have h' : cs.getLast? = some '\n' := getLast_tail_of_ne ch cs hch h
    rcases ih h' with ⟨c, r, l2, v, h1, h2, h3⟩ | ⟨v, l2, h1, h3⟩
    · left
      exact ⟨c, r, l2, v, by rw [in_block_loop_cons_ne _ _ _ _ hch]; exact h1, h2, by
        rw [List.cons_append, in_block_loop_cons_ne _ _ _ _ hch]; exact h3⟩
    · right
      exact ⟨v, l2, by rw [in_block_loop_cons_ne _ _ _ _ hch]; exact h1, by
        rw [List.cons_append, in_block_loop_cons_ne _ _ _ _ hch]; exact h3⟩

theorem find_loop_not_good (fuel : Nat) (key : Str) (l : Nat) (value : Str) (cf : ConfigFile) :
    find_loop fuel key ⟨⟨[], true, false⟩, l⟩ ≠ some (.ok value, cf) := by
  cases fuel with
  | zero => simp [find_loop]
  | succ fuel =>
    rw [find_loop]
    have : (IFStream.peek ⟨[], true, false⟩).1 = none := rfl
    rw [if_pos this]
    simp

/-- A successful lookup on unread text that ends with a newline succeeds with
the same value when `x`, which does not continue a block, is appended. -/
theorem find_loop_append (key x : Str) (hx : ends_block x = true) :
    ∀ (fuel : Nat) (cs : Str) (l : Nat) (value : Str) (cf : ConfigFile),
      cs.getLast? = some '\n' →
      find_loop fuel key ⟨⟨cs, false, false⟩, l⟩ = some (.ok value, cf) →
      ∃ cf', find_loop fuel key ⟨⟨cs ++ x, false, false⟩, l⟩ = some (.ok value, cf') := by
  intro fuel
  induction fuel with
  | zero => intro cs l value cf _ h; simp [find_loop] at h
  | succ fuel ih =>
    intro cs l value cf hlast h
    cases cs with
    | nil => simp at hlast
    | cons c cs =>
      rw [find_loop] at h
      rw [find_loop]
      have hp1 : (IFStream.peek ⟨c :: cs, false, false⟩) = (some c, ⟨c :: cs, false, false⟩) := rfl
      have hp2 : (IFStream.peek ⟨(c :: cs) ++ x, false, false⟩) =
          (some c, ⟨(c :: cs) ++ x, false, false⟩) := rfl
      simp only [hp1, hp2, reduceCtorEq, if_false] at h ⊢
      have ho1 : out_block_parse ⟨⟨c :: cs, false, false⟩, l⟩ =
          out_block_loop (c :: cs) false false [] l := rfl
      have ho2 : out_block_parse ⟨⟨(c :: cs) ++ x, false, false⟩, l⟩ =
          out_block_loop ((c :: cs) ++ x) false false [] l := rfl
      rw [ho1] at h
      rw [ho2]
      generalize hres : out_block_loop (c :: cs) false false [] l = res at h
      obtain ⟨ekey, cf1⟩ := res
      cases ekey with
      | error e => simp at h
      | ok cur_key =>
        simp only at h
        by_cases hemp : cur_key.isEmpty = true
        · simp [hemp] at h
        · rcases out_block_loop_append x _ _ _ _ _ _ _ hres with h0 | ⟨r, l', hcf, ⟨p, hp⟩, happ⟩
          · exact absurd h0 hemp
          · subst hcf
            rw [happ]
            simp only [hemp, if_false, Bool.false_eq_true] at h ⊢
            have hr : r.getLast? = some '\n' := by
              rw [hp, List.getLast?_append_of_ne_nil _ (by simp)] at hlast
              exact getLast_tail_of_ne '\t' r (by decide) hlast
            have hi1 : in_block_parse ⟨⟨'\t' :: r, false, false⟩, l'⟩ = in_block_loop r [] l' := rfl
            have hi2 : in_block_parse ⟨⟨'\t' :: (r ++ x), false, false⟩, l'⟩ =
                in_block_loop (r ++ x) [] l' := rfl
            rw [hi1] at h
            rw [hi2]
            rcases in_block_loop_append x hx r [] l' hr with
              ⟨c2, r2, l2, v, h1, h2, h3⟩ | ⟨v, l2, h1, h3⟩
            · rw [h1] at h
              rw [h3]
              by_cases hk : key = cur_key
              · simp only [hk, if_true, Option.some.injEq, Prod.mk.injEq, Except.ok.injEq] at h ⊢
                simpa using h.1
              · simp only [hk, if_false] at h ⊢
                exact ih _ _ _ _ h2 h
            · rw [h1] at h
              rw [h3]
              by_cases hk : key = cur_key
              · simp only [hk, if_true, Option.some.injEq, Prod.mk.injEq, Except.ok.injEq] at h ⊢
                simpa using h.1
              · simp only [hk, if_false] at h
                exact absurd h (find_loop_not_good _ _ _ _ _)

/-- C10: for every document that ends with a newline and every key for which
`get_value_for_key` returns a value, and for every suffix that is empty or
starts with a character other than tab and `+`, `get_value_for_key` returns
the same value on the document followed by the suffix, whatever the suffix
holds. -/
theorem find_short_circuits (doc x key value : Str) (cf : ConfigFile)
    (hdoc : doc.getLast? = some '\n')
    (hfind : get_value_for_key key doc = some (.ok value, cf))
    (hx : ends_block x = true) :
    ∃ cf', get_value_for_key key (doc ++ x) = some (.ok value, cf') := by
  obtain ⟨cf', h⟩ := find_loop_append key x hx _ doc 1 value cf hdoc hfind
  exact ⟨cf', find_loop_canon key _ ⟨⟨doc ++ x, false, false⟩, 1⟩ _ h⟩

theorem find_short_circuits_witness :
    "A =\n\tx\n".toList.getLast? = some '\n' ∧
      get_value_for_key "A".toList "A =\n\tx\n".toList =
        some (.ok "x".toList, ⟨⟨[], true, false⟩, 1⟩) ∧
      ends_block "B = y\n".toList = true ∧
      import_to_map ("A =\n\tx\n".toList ++ "B = y\n".toList) =
        some (.error .TrailingCharsAfterEqualTo, ⟨⟨"\n".toList, false, false⟩, 1⟩) ∧
      ∃ cf', get_value_for_key "A".toList ("A =\n\tx\n".toList ++ "B = y\n".toList) =
        some (.ok "x".toList, cf') :=
  ⟨rfl, rfl, rfl, rfl, find_short_circuits _ _ _ _ _ rfl rfl rfl⟩

/-! ## The parts of a key line -/

theorem tab_or_space_cases (c : Char) (h : tab_or_space c = true) : c = '\t' ∨ c = ' ' := by
  simpa [tab_or_space] using h

theorem tab_or_space_isspace (c : Char) (h : tab_or_space c = true) : isspace c = true := by
  rcases tab_or_space_cases c h with rfl | rfl <;> rfl

/-- Before any key character, white space of every kind is skipped; only
newlines are counted. -/
theorem out_block_loop_skip_space (ws : Str) (hws : ws.all isspace = true) :
    ∀ (cs : Str) (l : Nat), out_block_loop (ws ++ cs) false false [] l =
      out_block_loop cs false false [] (l + ws.count '\n') := by
  induction ws with
  | nil => intro cs l; rfl
  | cons c ws ih =>
    intro cs l
    simp only [List.all_cons, Bool.and_eq_true] at hws
    by_cases hc : c = '\n'
    · subst hc
      rw [List.cons_append, out_block_loop_newline, ih hws.2, List.count_cons_self]
      congr 1
      omega
    · have hne : c ≠ '=' := by
        rintro rfl
        exact absurd hws.1 (by decide)
      have hcount : List.count '\n' (c :: ws) = List.count '\n' ws :=
        List.count_cons_of_ne (fun h => hc h.symm) _
      rw [List.cons_append, out_block_loop, hcount, ← ih hws.2]
      simp [hc, hne, hws.1]

/-- The characters of a key are appended to the local `key`. -/
theorem out_block_loop_key_chars (k : Str) (hk : k.all key_char = true) :
    ∀ (cs acc : Str) (l : Nat), out_block_loop (k ++ cs) false false acc l =
      out_block_loop cs false false (acc ++ k) l := by
  induction k with
  | nil => intro cs acc l; simp
  | cons c k ih =>
    intro cs acc l
    simp only [List.all_cons, Bool.and_eq_true] at hk
    rw [List.cons_append, out_block_loop_key_step c hk.1, ih hk.2]
    simp

/-- Tabs and spaces after a key set `next_is_equal_to`. -/
theorem out_block_loop_after_key (w : Str) (hw : w.all tab_or_space = true) (key : Str)
    (hkey : key ≠ []) :
    ∀ (cs : Str) (b : Bool) (l : Nat), out_block_loop (w ++ cs) false b key l =
      out_block_loop cs false (b || !w.isEmpty) key l := by
  have he : key.isEmpty = false := by
    cases key with
    | nil => exact absurd rfl hkey
    | cons a as => rfl
  induction w with
  | nil => intro cs b l; simp
  | cons c w ih =>
    intro cs b l
    simp only [List.all_cons, Bool.and_eq_true] at hw
    have h1 : c ≠ '\n' := by rintro rfl; exact absurd hw.1 (by decide)
    have h2 : c ≠ '=' := by rintro rfl; exact absurd hw.1 (by decide)
    rw [List.cons_append, out_block_loop]
    simp only [h1, h2, hw.1, he, if_false, Bool.not_true, Bool.and_false, Bool.false_eq_true,
      Bool.not_false, Bool.and_self, if_true]
    rw [ih hw.2]
    simp

/-- An `=` after a non-empty key sets `next_is_value_start`. -/
theorem out_block_loop_equal_to (key : Str) (hkey : key ≠ []) (cs : Str) (a b : Bool) (l : Nat) :
    out_block_loop ('=' :: cs) a b key l = out_block_loop cs true false key l := by
  have he : key.isEmpty = false := by
    cases key with
    | nil => exact absurd rfl hkey
    | cons a as => rfl
  rw [out_block_loop]
  simp [he]

/-- Tabs and spaces after the `=` are skipped. -/
theorem out_block_loop_after_equal_to (w : Str) (hw : w.all tab_or_space = true) (key : Str) :
    ∀ (cs : Str) (l : Nat), out_block_loop (w ++ cs) true false key l =
      out_block_loop cs true false key l := by
  induction w with
  | nil => intro cs l; rfl
  | cons c w ih =>
    intro cs l
    simp only [List.all_cons, Bool.and_eq_true] at hw
    have h1 : c ≠ '\n' := by rintro rfl; exact absurd hw.1 (by decide)
    have h2 : c ≠ '=' := by rintro rfl; exact absurd hw.1 (by decide)
    rw [List.cons_append, out_block_loop]
    simp only [h1, h2, hw.1, tab_or_space_isspace c hw.1, if_false, Bool.not_true,
      Bool.and_false, Bool.false_eq_true, Bool.and_true, Bool.false_and, if_true]
    exact ih hw.2 cs l

/-- White space, a valid key, tabs and spaces: the scanner holds the key and
has not seen `=`. -/
theorem out_block_loop_key_read (ws k w1 : Str) (hws : ws.all isspace = true)
    (hk : valid_key k = true) (hw1 : w1.all tab_or_space = true) (cs : Str) (l : Nat) :
    out_block_loop (ws ++ (k ++ (w1 ++ cs))) false false [] l =
      out_block_loop cs false (!w1.isEmpty) k (l + ws.count '\n') := by
  rw [out_block_loop_skip_space ws hws, out_block_loop_key_chars k (valid_key_all k hk),
    List.nil_append, out_block_loop_after_key w1 hw1 k (valid_key_ne_nil k hk)]
  simp

/-- A whole key line up to, not including, its newline: the scanner holds the
key and has seen `=`. -/
theorem out_block_loop_key_line_read (ws k w1 w2 : Str) (hws : ws.all isspace = true)
    (hk : valid_key k = true) (hw1 : w1.all tab_or_space = true)
    (hw2 : w2.all tab_or_space = true) (cs : Str) (l : Nat) :
    out_block_loop (ws ++ (k ++ (w1 ++ '=' :: (w2 ++ cs)))) false false [] l =
      out_block_loop cs true false k (l + ws.count '\n') := by
  rw [out_block_loop_key_read ws k w1 hws hk hw1,
    out_block_loop_equal_to k (valid_key_ne_nil k hk), out_block_loop_after_equal_to w2 hw2]

/-! ## What one step of the key line scanner preserves -/

/-- The step of `out_block_loop_step`, with what it keeps: a thrown exception
is one of the scanner's own, `EqualToWithoutAKey` only with an empty key; a
step that continues never lowers the line counter or empties the key, keeps
the key inside the key alphabet, and sets `next_is_value_start` only with a
non-empty key. -/
theorem out_block_loop_step_inv (ch : Char) (a b : Bool) (k : Str) (l : Nat) :
    (ch = '\n' ∧ a = true ∧ ∀ cs, out_block_loop (ch :: cs) a b k l =
        if cs.head? ≠ some '\t' then
          (.error (.NoValueFoundForKey k), ⟨⟨cs, cs.isEmpty, false⟩, l⟩)
        else (.ok k, ⟨⟨cs, cs.isEmpty, false⟩, l⟩)) ∨
    (∃ e, is_syntax_error e = true ∧ (e = .EqualToWithoutAKey → k = []) ∧
      ∀ cs, out_block_loop (ch :: cs) a b k l = (.error e, ⟨⟨cs, false, false⟩, l⟩)) ∨
    (∃ a' b' k' l', l ≤ l' ∧ (k ≠ [] → k' ≠ []) ∧ ((a = true → k ≠ []) → a' = true → k' ≠ []) ∧
      (k.all key_char = true → k'.all key_char = true) ∧ (k' = [] → isspace ch = true) ∧
      ∀ cs, out_block_loop (ch :: cs) a b k l = out_block_loop cs a' b' k' l') := by
  by_cases h1 : ch = '\n'
  · by_cases h2 : a = true
    · exact Or.inl ⟨h1, h2, fun cs => by rw [out_block_loop]; simp [h1, h2]⟩
    · by_cases h3 : k.isEmpty = true
      · exact Or.inr (Or.inr ⟨a, b, k, l + 1, Nat.le_succ l, id, id, id,
          fun _ => by rw [h1]; rfl, fun cs => by
            rw [out_block_loop]; simp [h1, h2, h3]⟩)
      · exact Or.inr (Or.inl ⟨.MissingEqualTo, rfl, by simp, fun cs => by
          rw [out_block_loop]; simp [h1, h2, h3]⟩)
  · by_cases h2 : ch = '='
    · by_cases h3 : k.isEmpty = true
      · exact Or.inr (Or.inl ⟨.EqualToWithoutAKey, rfl, fun _ => by simpa using h3, fun cs => by
          rw [out_block_loop]; simp [h2, h3]⟩)
      · exact Or.inr (Or.inr ⟨true, false, k, l, le_refl l, id,
          fun _ _ => by simpa using h3, id, fun hk => absurd (by rw [hk]; rfl) h3, fun cs => by
            rw [out_block_loop]; simp [h2, h3]⟩)
    · by_cases h3 : (b && !tab_or_space ch) = true
      · exact Or.inr (Or.inl ⟨.MissingEqualTo, rfl, by simp, fun cs => by
          rw [out_block_loop]; simp only [h1, h2, h3, if_true, if_false, Bool.false_eq_true]⟩)
      · by_cases h4 : (a && !tab_or_space ch) = true
        · exact Or.inr (Or.inl ⟨.TrailingCharsAfterEqualTo, rfl, by simp, fun cs => by
            rw [out_block_loop]
            simp only [h1, h2, h3, h4, if_true, if_false, Bool.false_eq_true]⟩)
        · by_cases h5 : (!k.isEmpty && tab_or_space ch && !a) = true
          · exact Or.inr (Or.inr ⟨a, true, k, l, le_refl l, id, id, id,
              fun hk => by rw [hk] at h5; simp at h5, fun cs => by
                rw [out_block_loop]
                simp only [h1, h2, h3, h4, h5, if_true, if_false, Bool.false_eq_true]⟩)
          · by_cases h6 : isspace ch = true
            · exact Or.inr (Or.inr ⟨a, b, k, l, le_refl l, id, id, id, fun _ => h6, fun cs => by
                rw [out_block_loop]
                simp only [h1, h2, h3, h4, h5, h6, if_true, if_false, Bool.false_eq_true]⟩)
            · by_cases h7 : is_char_invalid ch = true
              · exact Or.inr (Or.inl ⟨.InvalidCharacter ch, rfl, by simp, fun cs => by
                  rw [out_block_loop]
                  simp only [h1, h2, h3, h4, h5, h6, h7, if_true, if_false, Bool.false_eq_true]⟩)
              · exact Or.inr (Or.inr ⟨a, b, k ++ [ch], l, le_refl l, fun _ => by simp,
                  fun _ _ => by simp, fun hk => by
                    rw [List.all_append, hk]
                    simp only [List.all_cons, List.all_nil, Bool.and_true, Bool.true_and]
                    exact key_char_of_not_invalid ch h7,
                  fun hk => by simp at hk,
                  fun cs => by
                    rw [out_block_loop]
                    simp only [h1, h2, h3, h4, h5, h6, h7, if_true, if_false,
                      Bool.false_eq_true]⟩)

/-- Every exception of the key line scanner is one of its own, is raised with
the line counter at or above its starting value, and is `EqualToWithoutAKey`
only if no key character had been read. -/
theorem out_block_loop_error :
    ∀ (cs : Str) (a b : Bool) (k : Str) (l : Nat) (e : CkvError) (cf1 : ConfigFile),
      out_block_loop cs a b k l = (.error e, cf1) →
      is_syntax_error e = true ∧ l ≤ cf1.err_line_no ∧ (e = .EqualToWithoutAKey → k = []) := by
  intro cs
  induction cs with
  | nil =>
    intro a b k l e cf1 h
    rw [out_block_loop] at h
    split_ifs at h with h1 h2
    · simp only [Prod.mk.injEq, Except.error.injEq] at h
      rw [← h.1, ← h.2]
      exact ⟨rfl, le_refl l, by simp⟩
    · simp only [Prod.mk.injEq, Except.error.injEq] at h
      rw [← h.1, ← h.2]
      exact ⟨rfl, le_refl l, by simp⟩
    · simp at h
  | cons ch cs ih =>
    intro a b k l e cf1 h
    rcases out_block_loop_step_inv ch a b k l with
      ⟨_, _, hs⟩ | ⟨e', he1, he2, hs⟩ | ⟨a', b', k', l', hl, hk, _, _, _, hs⟩
    · rw [hs] at h
      split_ifs at h with hpeek
      · simp only [Prod.mk.injEq, Except.error.injEq] at h
        rw [← h.1, ← h.2]
        exact ⟨rfl, le_refl l, by simp⟩
      · simp at h
    · rw [hs] at h
      simp only [Prod.mk.injEq, Except.error.injEq] at h
      rw [← h.1, ← h.2]
      exact ⟨he1, le_refl l, he2⟩
    · rw [hs] at h
      obtain ⟨i1, i2, i3⟩ := ih _ _ _ _ _ _ h
      refine ⟨i1, le_trans hl i2, fun he => ?_⟩
      by_contra hne
      exact hk hne (i3 he)

/-- A key returned by the key line scanner is either the empty string, at the
end of the stream with nothing read but white space, or a valid key returned
at a newline followed by a tab, which is left unread. -/
theorem out_block_loop_ok :
    ∀ (cs : Str) (a b : Bool) (k : Str) (l : Nat) (key : Str) (cf1 : ConfigFile),
      out_block_loop cs a b k l = (.ok key, cf1) → (a = true → k ≠ []) →
      k.all key_char = true →
      l ≤ cf1.err_line_no ∧
        ((key = [] ∧ k = [] ∧ cs.all isspace = true ∧ cf1.file_reader = ⟨[], true, true⟩) ∨
          (valid_key key = true ∧
            ∃ p r, cs = p ++ '\n' :: '\t' :: r ∧ cf1.file_reader = ⟨'\t' :: r, false, false⟩)) := by
  intro cs
  induction cs with
  | nil =>
    intro a b k l key cf1 h _ _
    rw [out_block_loop] at h
    split_ifs at h with h1 h2
    · simp at h
    · simp at h
    · simp only [Prod.mk.injEq, Except.ok.injEq] at h
      simp only [Bool.or_eq_true, Bool.not_eq_true', not_or, Bool.not_eq_true,
        Bool.not_eq_false] at h2
      have hk : k = [] := by simpa using h2.2
      rw [← h.1, ← h.2]
      exact ⟨le_refl l, Or.inl ⟨hk, hk, rfl, rfl⟩⟩
  | cons ch cs ih =>
    intro a b k l key cf1 h hinv hkc
    rcases out_block_loop_step_inv ch a b k l with
      ⟨hch, ha, hs⟩ | ⟨e', _, _, hs⟩ | ⟨a', b', k', l', hl, hne, hinv', hkc', hsp, hs⟩
    · rw [hs] at h
      split_ifs at h with hpeek
      · simp at h
      · simp only [Prod.mk.injEq, Except.ok.injEq] at h
        cases cs with
        | nil => simp at hpeek
        | cons c r =>
          simp only [List.head?_cons, ne_eq, Option.some.injEq, not_not] at hpeek
          subst hpeek
          subst hch
          rw [← h.1, ← h.2]
          refine ⟨le_refl l, Or.inr ⟨?_, [], r, rfl, rfl⟩⟩
          simp only [valid_key, hkc, Bool.and_true, Bool.not_eq_true', List.isEmpty_eq_false]
          exact hinv ha
    · rw [hs] at h
      simp at h
    · rw [hs] at h
      obtain ⟨i1, i2⟩ := ih _ _ _ _ _ _ h (hinv' hinv) (hkc' hkc)
      refine ⟨le_trans hl i1, ?_⟩
      rcases i2 with ⟨j1, j2, j3, j4⟩ | ⟨j1, p, r, j2, j3⟩
      · have hk : k = [] := by
          by_contra hk
          exact hne hk j2
        exact Or.inl ⟨j1, hk, by simp [hsp j2, j3], j4⟩
      · exact Or.inr ⟨j1, ch :: p, r, by rw [j2]; rfl, j3⟩

/-! ## Key lines -/

/-- C11: for every valid key `k`, all strings `w1`, `w2` of tabs and spaces,
every white-space prefix `ws` (any number of blank or whitespace-only lines)
and every remainder `r`, `out_block_parse` on `ws`, `k`, `w1`, `=`, `w2`, a
newline, a tab and `r` returns exactly `k` and leaves the stream on the tab,
which is peeked and not extracted. -/
theorem key_line_accepted (ws k w1 w2 r : Str) (line : Nat) (hws : ws.all isspace = true)
    (hk : valid_key k = true) (hw1 : w1.all tab_or_space = true)
    (hw2 : w2.all tab_or_space = true) :
    out_block_parse
        ⟨⟨ws ++ (k ++ (w1 ++ '=' :: (w2 ++ '\n' :: '\t' :: r))), false, false⟩, line⟩ =
      (.ok k, ⟨⟨'\t' :: r, false, false⟩, line + ws.count '\n'⟩) := by
  unfold out_block_parse
  simp only [IFStream.good, Bool.not_false, Bool.and_self, if_true]
  rw [out_block_loop_key_line_read ws k w1 w2 hws hk hw1 hw2, out_block_loop]
  simp

theorem key_line_accepted_witness :
    ("\n \t\n".toList.all isspace = true ∧ valid_key "KEY_1-a".toList = true ∧
        " \t".toList.all tab_or_space = true ∧ "  ".toList.all tab_or_space = true ∧
        out_block_parse ⟨⟨"\n \t\nKEY_1-a \t=  \n\tv\n".toList, false, false⟩, 1⟩ =
          (.ok "KEY_1-a".toList, ⟨⟨"\tv\n".toList, false, false⟩, 3⟩)) ∧
      out_block_parse ⟨⟨"A=\n\tx\n".toList, false, false⟩, 1⟩ =
        (.ok "A".toList, ⟨⟨"\tx\n".toList, false, false⟩, 1⟩) ∧
      import_to_map "A=\n\tx\n".toList =
        some (.ok [("A".toList, "x".toList)], ⟨⟨[], true, true⟩, 1⟩) :=
  ⟨⟨rfl, rfl, rfl, rfl,
      key_line_accepted "\n \t\n".toList "KEY_1-a".toList " \t".toList "  ".toList "v\n".toList 1
        rfl rfl rfl rfl⟩,
    key_line_accepted [] "A".toList [] [] "x\n".toList 1 rfl rfl rfl rfl, rfl⟩

/-- C12: for every key line `k`, `w1`, `=`, `w2` with a valid key `k` and
strings `w1`, `w2` of tabs and spaces, after any white-space prefix:
`out_block_parse` fails with `NoValueFoundForKey` carrying `k` when the newline
that ends the line is followed by a character other than a tab or by the end
of the stream, and when the stream ends before that newline. -/
theorem no_value_found_for_key (ws k w1 w2 : Str) (line : Nat) (hws : ws.all isspace = true)
    (hk : valid_key k = true) (hw1 : w1.all tab_or_space = true)
    (hw2 : w2.all tab_or_space = true) :
    (∀ r : Str, r.head? ≠ some '\t' →
      out_block_parse ⟨⟨ws ++ (k ++ (w1 ++ '=' :: (w2 ++ '\n' :: r))), false, false⟩, line⟩ =
        (.error (.NoValueFoundForKey k), ⟨⟨r, r.isEmpty, false⟩, line + ws.count '\n'⟩)) ∧
      out_block_parse ⟨⟨ws ++ (k ++ (w1 ++ '=' :: w2)), false, false⟩, line⟩ =
        (.error (.NoValueFoundForKey k), ⟨⟨[], true, true⟩, line + ws.count '\n'⟩) := by
  constructor
  · intro r hr
    unfold out_block_parse
    simp only [IFStream.good, Bool.not_false, Bool.and_self, if_true]
    rw [out_block_loop_key_line_read ws k w1 w2 hws hk hw1 hw2, out_block_loop]
    simp [hr]
  · unfold out_block_parse
    simp only [IFStream.good, Bool.not_false, Bool.and_self, if_true]
    have := out_block_loop_key_line_read ws k w1 w2 hws hk hw1 hw2 [] line
    rw [List.append_nil] at this
    rw [this, out_block_loop]
    simp

theorem no_value_found_for_key_witness :
    ([].all isspace = true ∧ valid_key "A".toList = true ∧
        " ".toList.all tab_or_space = true ∧ [].all tab_or_space = true ∧
        "B =\n\ty\n".toList.head? ≠ some '\t' ∧
        out_block_parse ⟨⟨"A =\nB =\n\ty\n".toList, false, false⟩, 1⟩ =
          (.error (.NoValueFoundForKey "A".toList), ⟨⟨"B =\n\ty\n".toList, false, false⟩, 1⟩) ∧
        out_block_parse ⟨⟨"A =\n".toList, false, false⟩, 1⟩ =
          (.error (.NoValueFoundForKey "A".toList), ⟨⟨[], true, false⟩, 1⟩) ∧
        out_block_parse ⟨⟨"A =".toList, false, false⟩, 1⟩ =
          (.error (.NoValueFoundForKey "A".toList), ⟨⟨[], true, true⟩, 1⟩)) ∧
      import_to_map "A =\nB =\n\ty\n".toList =
        some (.error (.NoValueFoundForKey "A".toList),
          ⟨⟨"B =\n\ty\n".toList, false, false⟩, 1⟩) ∧
      get_value_for_key "B".toList "A =\nB =\n\ty\n".toList =
        some (.error (.NoValueFoundForKey "A".toList),
          ⟨⟨"B =\n\ty\n".toList, false, false⟩, 1⟩) :=
  ⟨⟨rfl, rfl, rfl, rfl, by decide,
      (no_value_found_for_key [] "A".toList " ".toList [] 1 rfl rfl rfl rfl).1
        "B =\n\ty\n".toList (by decide),
      (no_value_found_for_key [] "A".toList " ".toList [] 1 rfl rfl rfl rfl).1 [] (by decide),
      (no_value_found_for_key [] "A".toList " ".toList [] 1 rfl rfl rfl rfl).2⟩,
    rfl, rfl⟩

/-- Key lines without `=`: for every input in which, after any white-space
prefix, a valid key `k` has been read, followed by a string `w1` of tabs and spaces, and no `=` has
been seen, `out_block_parse` fails with `MissingEqualTo` when a newline
arrives, when `w1` is not empty and a character other than tab, space and `=`
arrives, and when the stream ends. -/
theorem missing_equal_to (ws k w1 : Str) (line : Nat) (hws : ws.all isspace = true)
    (hk : valid_key k = true) (hw1 : w1.all tab_or_space = true) :
    (∀ r : Str,
      out_block_parse ⟨⟨ws ++ (k ++ (w1 ++ '\n' :: r)), false, false⟩, line⟩ =
        (.error .MissingEqualTo, ⟨⟨r, false, false⟩, line + ws.count '\n'⟩)) ∧
      (∀ (c : Char) (r : Str), w1 ≠ [] → tab_or_space c = false → c ≠ '=' →
        out_block_parse ⟨⟨ws ++ (k ++ (w1 ++ c :: r)), false, false⟩, line⟩ =
          (.error .MissingEqualTo, ⟨⟨r, false, false⟩, line + ws.count '\n'⟩)) ∧
      out_block_parse ⟨⟨ws ++ (k ++ w1), false, false⟩, line⟩ =
        (.error .MissingEqualTo, ⟨⟨[], true, true⟩, line + ws.count '\n'⟩) := by
  have he : k.isEmpty = false := valid_key_isEmpty k hk
  have hnl : ∀ r : Str,
      out_block_parse ⟨⟨ws ++ (k ++ (w1 ++ '\n' :: r)), false, false⟩, line⟩ =
        (.error .MissingEqualTo, ⟨⟨r, false, false⟩, line + ws.count '\n'⟩) := by
    intro r
    unfold out_block_parse
    simp only [IFStream.good, Bool.not_false, Bool.and_self, if_true]
    rw [out_block_loop_key_read ws k w1 hws hk hw1, out_block_loop]
    simp [he]
  refine ⟨hnl, ?_, ?_⟩
  · intro c r hw hc1 hc2
    by_cases hc : c = '\n'
    · subst hc
      exact hnl r
    · have hwe : w1.isEmpty = false := by
        cases w1 with
        | nil => exact absurd rfl hw
        | cons x xs => rfl
      unfold out_block_parse
      simp only [IFStream.good, Bool.not_false, Bool.and_self, if_true]
      rw [out_block_loop_key_read ws k w1 hws hk hw1, out_block_loop]
      simp [hc, hc1, hc2, hwe]
  · unfold out_block_parse
    simp only [IFStream.good, Bool.not_false, Bool.and_self, if_true]
    have := out_block_loop_key_read ws k w1 hws hk hw1 [] line
    rw [List.append_nil] at this
    rw [this, out_block_loop]
    simp [he]

theorem missing_equal_to_witness :
    "\n".toList.all isspace = true ∧ valid_key "B".toList = true ∧
      " ".toList.all tab_or_space = true ∧
      out_block_parse ⟨⟨"\nB \nC".toList, false, false⟩, 1⟩ =
        (.error .MissingEqualTo, ⟨⟨"C".toList, false, false⟩, 2⟩) ∧
      (" ".toList ≠ [] ∧ tab_or_space 'x' = false ∧ 'x' ≠ '=' ∧
        out_block_parse ⟨⟨"\nB x=\n".toList, false, false⟩, 1⟩ =
          (.error .MissingEqualTo, ⟨⟨"=\n".toList, false, false⟩, 2⟩)) ∧
      out_block_parse ⟨⟨"\nB ".toList, false, false⟩, 1⟩ =
        (.error .MissingEqualTo, ⟨⟨[], true, true⟩, 2⟩) ∧
      out_block_parse ⟨⟨"B\n".toList, false, false⟩, 1⟩ =
        (.error .MissingEqualTo, ⟨⟨[], false, false⟩, 1⟩) :=
  ⟨rfl, rfl, rfl,
    (missing_equal_to "\n".toList "B".toList " ".toList 1 rfl rfl rfl).1 "C".toList,
    ⟨by decide, rfl, by decide,
      (missing_equal_to "\n".toList "B".toList " ".toList 1 rfl rfl rfl).2.1 'x' "=\n".toList
        (by decide) rfl (by decide)⟩,
    (missing_equal_to "\n".toList "B".toList " ".toList 1 rfl rfl rfl).2.2,
    (missing_equal_to [] "B".toList [] 1 rfl rfl rfl).1 []⟩

/-- C16: for every input in which, after white space only (any number of
blank or whitespace-only lines and leading tabs and spaces), an `=` is read
before any key character, `out_block_parse` fails with `EqualToWithoutAKey`;
and once a key character has been read, whatever follows, the scanner never
fails with `EqualToWithoutAKey`. -/
theorem equal_to_without_a_key (ws r : Str) (line : Nat) (hws : ws.all isspace = true) :
    out_block_parse ⟨⟨ws ++ '=' :: r, false, false⟩, line⟩ =
        (.error .EqualToWithoutAKey, ⟨⟨r, false, false⟩, line + ws.count '\n'⟩) ∧
      ∀ c : Char, key_char c = true →
        (out_block_parse ⟨⟨ws ++ c :: r, false, false⟩, line⟩).1 ≠ .error .EqualToWithoutAKey := by
  constructor
  · unfold out_block_parse
    simp only [IFStream.good, Bool.not_false, Bool.and_self, if_true]
    rw [out_block_loop_skip_space ws hws, out_block_loop]
    simp
  · intro c hc hres
    unfold out_block_parse at hres
    simp only [IFStream.good, Bool.not_false, Bool.and_self, if_true] at hres
    rw [out_block_loop_skip_space ws hws, out_block_loop_key_step c hc] at hres
    have h := out_block_loop_error r false false ([] ++ [c]) (line + ws.count '\n')
      .EqualToWithoutAKey _ (Prod.ext hres rfl)
    simpa using h.2.2 rfl

theorem equal_to_without_a_key_witness :
    "\n \t\n  ".toList.all isspace = true ∧
      out_block_parse ⟨⟨"\n \t\n  = x\n".toList, false, false⟩, 1⟩ =
        (.error .EqualToWithoutAKey, ⟨⟨" x\n".toList, false, false⟩, 3⟩) ∧
      (key_char 'A' = true ∧
        (out_block_parse ⟨⟨"\n \t\n  A= x\n".toList, false, false⟩, 1⟩).1 ≠
          .error .EqualToWithoutAKey) :=
  ⟨rfl, (equal_to_without_a_key "\n \t\n  ".toList " x\n".toList 1 rfl).1,
    ⟨rfl, (equal_to_without_a_key "\n \t\n  ".toList "= x\n".toList 1 rfl).2 'A' rfl⟩⟩

/-! ## The keys the scanner returns -/

/-- C19: for every input, when `out_block_parse` returns a key, either the key
is a valid key (non-empty, every character in `[A-Za-z0-9_-]`), returned at a
newline followed by a tab that is left unread, or it is the empty string, the
input held nothing but white space and the stream is at its end. Hence every
key of a table returned by `import_to_map` is a valid key. -/
theorem returned_key_invariant :
    (∀ (cs : Str) (line : Nat) (key : Str) (cf1 : ConfigFile),
      out_block_parse ⟨⟨cs, false, false⟩, line⟩ = (.ok key, cf1) →
        (valid_key key = true ∧
            ∃ p r, cs = p ++ '\n' :: '\t' :: r ∧ cf1.file_reader = ⟨'\t' :: r, false, false⟩) ∨
          (key = [] ∧ cs.all isspace = true ∧ cf1.file_reader = ⟨[], true, true⟩)) ∧
      ∀ (doc : Str) (M : Table) (cf : ConfigFile), import_to_map doc = some (.ok M, cf) →
        ∀ e ∈ M, valid_key e.1 = true := by
  constructor
  · intro cs line key cf1 h
    unfold out_block_parse at h
    simp only [IFStream.good, Bool.not_false, Bool.and_self, if_true] at h
    rcases (out_block_loop_ok cs false false [] line key cf1 h (by simp) rfl).2 with
      ⟨h1, _, h3, h4⟩ | h2
    · exact Or.inr ⟨h1, h3, h4⟩
    · exact Or.inl h2
  · intro doc M cf h
    exact (import_to_map_wf doc M cf h).2

theorem returned_key_invariant_witness :
    (out_block_parse ⟨⟨"\nK-1 =\n\tv\n".toList, false, false⟩, 1⟩ =
        (.ok "K-1".toList, ⟨⟨"\tv\n".toList, false, false⟩, 2⟩) ∧
      ((valid_key "K-1".toList = true ∧
          ∃ p r, "\nK-1 =\n\tv\n".toList = p ++ '\n' :: '\t' :: r ∧
            (⟨"\tv\n".toList, false, false⟩ : IFStream) = ⟨'\t' :: r, false, false⟩) ∨
        ("K-1".toList = [] ∧ "\nK-1 =\n\tv\n".toList.all isspace = true ∧
          (⟨"\tv\n".toList, false, false⟩ : IFStream) = ⟨[], true, true⟩))) ∧
      (import_to_map "\nK-1 =\n\tv\n".toList =
          some (.ok [("K-1".toList, "v".toList)], ⟨⟨[], true, true⟩, 2⟩) ∧
        ∀ e ∈ [("K-1".toList, "v".toList)], valid_key e.1 = true) :=
  ⟨⟨rfl, returned_key_invariant.1 "\nK-1 =\n\tv\n".toList 1 "K-1".toList
      ⟨⟨"\tv\n".toList, false, false⟩, 2⟩ rfl⟩,
    ⟨rfl, returned_key_invariant.2 "\nK-1 =\n\tv\n".toList [("K-1".toList, "v".toList)]
      ⟨⟨[], true, true⟩, 2⟩ rfl⟩⟩

/-! ## Characters the key line scanner lets through -/

/-- C13, at the failing input: in `"A ==\n\tx\n"` the second `=` comes after
`=` was seen for the key `A` and is not white space, yet `out_block_parse`
accepts the line, and the document imports as `A` with value `x`; any other
visible character in that place, as in `"A =x\n\tx\n"`, raises
`TrailingCharsAfterEqualTo`. -/
theorem second_equal_to_accepted :
    out_block_parse ⟨⟨"A ==\n\tx\n".toList, false, false⟩, 1⟩ =
        (.ok "A".toList, ⟨⟨"\tx\n".toList, false, false⟩, 1⟩) ∧
      import_to_map "A ==\n\tx\n".toList =
        some (.ok [("A".toList, "x".toList)], ⟨⟨[], true, true⟩, 1⟩) ∧
      out_block_parse ⟨⟨"A =x\n\tx\n".toList, false, false⟩, 1⟩ =
        (.error .TrailingCharsAfterEqualTo, ⟨⟨"\n\tx\n".toList, false, false⟩, 1⟩) ∧
      out_block_parse ⟨⟨"A = x\n".toList, false, false⟩, 1⟩ =
        (.error .TrailingCharsAfterEqualTo, ⟨⟨"\n".toList, false, false⟩, 1⟩) :=
  ⟨rfl, rfl, rfl, rfl⟩

/-- C15, at the failing input: in `"A\rB =\n\tx\n"` the carriage return is
read while the key is being accumulated and is outside the key alphabet, yet
`out_block_parse` raises no `InvalidCharacter`: it drops the character and
returns the key `AB`; the same holds for vertical tab and form feed, while
another character outside the alphabet, as in `"A#B =\n\tx\n"`, raises
`InvalidCharacter` carrying it. -/
theorem carriage_return_in_key_dropped :
    out_block_parse ⟨⟨"A\rB =\n\tx\n".toList, false, false⟩, 1⟩ =
        (.ok "AB".toList, ⟨⟨"\tx\n".toList, false, false⟩, 1⟩) ∧
      import_to_map "A\rB =\n\tx\n".toList =
        some (.ok [("AB".toList, "x".toList)], ⟨⟨[], true, true⟩, 1⟩) ∧
      out_block_parse ⟨⟨"A\x0bB =\n\tx\n".toList, false, false⟩, 1⟩ =
        (.ok "AB".toList, ⟨⟨"\tx\n".toList, false, false⟩, 1⟩) ∧
      out_block_parse ⟨⟨"A\x0cB =\n\tx\n".toList, false, false⟩, 1⟩ =
        (.ok "AB".toList, ⟨⟨"\tx\n".toList, false, false⟩, 1⟩) ∧
      out_block_parse ⟨⟨"A#B =\n\tx\n".toList, false, false⟩, 1⟩ =
        (.error (.InvalidCharacter '#'), ⟨⟨"B =\n\tx\n".toList, false, false⟩, 1⟩) :=
  ⟨rfl, rfl, rfl, rfl, rfl⟩

/-! ## Write-back -/

/-- Write-back on an object that has not been opened before: for every document
on which `import_to_map` fails with an error, and every key and value, the stream flavours of `set_value_for_key` and
`remove_key` fail and leave the sink exactly as it was; when the sink is
usable they fail with that same error. -/
theorem write_back_all_or_nothing (iter : Table → List (Str × Str)) (doc : Str) (e : CkvError)
    (cf : ConfigFile) (key value : Str) (out : OStream)
    (himport : import_to_map doc = some (.error e, cf)) :
    (out.fail = false →
        set_value_for_key iter key value doc out = some (.error e, cf, out) ∧
          remove_key iter key doc out = some (.error e, cf, out)) ∧
      (∃ e' cf', set_value_for_key iter key value doc out = some (.error e', cf', out)) ∧
      ∃ e' cf', remove_key iter key doc out = some (.error e', cf', out) := by
  cases hout : out.fail with
  | false =>
    have h1 : set_value_for_key iter key value doc out = some (.error e, cf, out) := by
      simp [set_value_for_key, hout, himport]
    have h2 : remove_key iter key doc out = some (.error e, cf, out) := by
      simp [remove_key, hout, himport]
    exact ⟨fun _ => ⟨h1, h2⟩, ⟨e, cf, h1⟩, ⟨e, cf, h2⟩⟩
  | true =>
    refine ⟨fun h => absurd h (by simp), ⟨.InvalidOutputStream, ⟨⟨doc, false, false⟩, 0⟩, ?_⟩,
      ⟨.InvalidOutputStream, ⟨⟨doc, false, false⟩, 0⟩, ?_⟩⟩
    · simp [set_value_for_key, hout]
    · simp [remove_key, hout]

theorem write_back_all_or_nothing_witness :
    import_to_map "A =\n\tx\nB = y\n".toList =
        some (.error .TrailingCharsAfterEqualTo, ⟨⟨"\n".toList, false, false⟩, 1⟩) ∧
      ((⟨"kept".toList, false⟩ : OStream).fail = false →
        set_value_for_key id "A".toList "v".toList "A =\n\tx\nB = y\n".toList
            ⟨"kept".toList, false⟩ =
          some (.error .TrailingCharsAfterEqualTo, ⟨⟨"\n".toList, false, false⟩, 1⟩,
            ⟨"kept".toList, false⟩) ∧
        remove_key id "A".toList "A =\n\tx\nB = y\n".toList ⟨"kept".toList, false⟩ =
          some (.error .TrailingCharsAfterEqualTo, ⟨⟨"\n".toList, false, false⟩, 1⟩,
            ⟨"kept".toList, false⟩)) :=
  ⟨rfl, (write_back_all_or_nothing id "A =\n\tx\nB = y\n".toList .TrailingCharsAfterEqualTo
    ⟨⟨"\n".toList, false, false⟩, 1⟩ "A".toList "v".toList ⟨"kept".toList, false⟩ rfl).1⟩

/-! ## Lookup in well-formed tables -/

theorem lookup_eq_some_iff_mem (k v : Str) :
    ∀ (m : Table), (m.map Prod.fst).Nodup → (List.lookup k m = some v ↔ (k, v) ∈ m) := by
  intro m
  induction m with
  | nil => intro _; simp
  | cons e m ih =>
    intro hnd
    obtain ⟨a, b⟩ := e
    simp only [List.map_cons, List.nodup_cons] at hnd
    by_cases hk : k = a
    · subst hk
      simp only [List.lookup, beq_self_eq_true, Option.some.injEq, List.mem_cons, Prod.mk.injEq,
        true_and]
      constructor
      · intro h; exact Or.inl h.symm
      · rintro (h | h)
        · exact h.symm
        · exact absurd (List.mem_map_of_mem Prod.fst h) hnd.1
    · have hb : (k == a) = false := by simpa using hk
      simp only [List.lookup, hb, List.mem_cons, Prod.mk.injEq, hk, false_and, false_or]
      exact ih hnd.2

theorem lookup_perm (k : Str) (m1 m2 : Table) (hp : m1.Perm m2)
    (hnd : (m2.map Prod.fst).Nodup) : List.lookup k m1 = List.lookup k m2 := by
  have hnd1 : (m1.map Prod.fst).Nodup := ((hp.map Prod.fst).nodup_iff).mpr hnd
  cases h2 : List.lookup k m2 with
  | some v =>
    rw [lookup_eq_some_iff_mem k v m1 hnd1, hp.mem_iff, ← lookup_eq_some_iff_mem k v m2 hnd]
    exact h2
  | none =>
    cases h1 : List.lookup k m1 with
    | none => rfl
    | some v =>
      rw [lookup_eq_some_iff_mem k v m1 hnd1, hp.mem_iff,
        ← lookup_eq_some_iff_mem k v m2 hnd, h2] at h1
      simp at h1

theorem map_replace_keys (key value : Str) (es : List (Str × Str)) :
    (es.map (fun e => if e.1 = key then (key, value) else e)).map Prod.fst = es.map Prod.fst := by
  induction es with
  | nil => rfl
  | cons e es ih =>
    simp only [List.map_cons, ih, List.cons.injEq, and_true]
    split
    · rename_i h; exact h.symm
    · rfl

theorem Table.WF.map_replace {es : Table} (hes : es.WF) (key value : Str)
    (hkey : valid_key key = true) :
    Table.WF (es.map (fun e => if e.1 = key then (key, value) else e)) := by
  constructor
  · rw [map_replace_keys]; exact hes.1
  · intro e he
    obtain ⟨e0, he0, rfl⟩ := List.mem_map.mp he
    split
    · exact hkey
    · exact hes.2 e0 he0

theorem lookup_cons_self (k b : Str) (es : List (Str × Str)) :
    List.lookup k ((k, b) :: es) = some b := by
  simp [List.lookup]

theorem lookup_cons_of_ne (k a b : Str) (es : List (Str × Str)) (h : k ≠ a) :
    List.lookup k ((a, b) :: es) = List.lookup k es := by
  have hb : (k == a) = false := by simpa using h
  simp [List.lookup, hb]

theorem lookup_map_replace (k key value : Str) (es : List (Str × Str)) :
    List.lookup k (es.map (fun e => if e.1 = key then (key, value) else e)) =
      if k = key then (if es.any (fun e => e.1 == key) = true then some value else none)
      else List.lookup k es := by
  induction es with
  | nil => simp
  | cons e es ih =>
    obtain ⟨a, b⟩ := e
    by_cases ha : a = key
    · have hhead : (if (a, b).1 = key then (key, value) else (a, b)) = (key, value) := by
        simp [ha]
      rw [List.map_cons, hhead]
      by_cases hk : k = key
      · subst hk
        simp [lookup_cons_self, ha]
      · rw [lookup_cons_of_ne k key value _ hk, ih, if_neg hk, if_neg hk, ha,
          lookup_cons_of_ne k key b _ hk]
    · have hhead : (if (a, b).1 = key then (key, value) else (a, b)) = (a, b) := by
        simp [ha]
      have hab : (a == key) = false := by simpa using ha
      rw [List.map_cons, hhead]
      by_cases hka : k = a
      · subst hka
        rw [lookup_cons_self, lookup_cons_self, if_neg ha]
      · rw [lookup_cons_of_ne k a b _ hka, ih, lookup_cons_of_ne k a b _ hka]
        simp only [List.any_cons, hab, Bool.false_or]

/-- Importing the text of entries followed by one more entry without the
closing `std::endl`, as `set_value_for_key` writes it for a new key. -/
theorem import_to_map_entries_text_append (es : Table) (key value : Str)
    (hwf : Table.WF (es ++ [(key, value)])) :
    ∃ cf, import_to_map (entries_text es ++ entry_text (key, value)) =
      some (.ok (es ++ [(key, value)]), cf) := by
  have hes : ∀ e ∈ es, valid_key e.1 = true :=
    fun e he => hwf.2 e (List.mem_append_left _ he)
  have hkey : valid_key key = true := hwf.2 (key, value) (by simp)
  obtain ⟨n', l', h⟩ := import_loop_entries (entry_text (key, value)) es hes 0 1 2 []
  have hlast := import_loop_entry key hkey value [] ends_block_nil n' l' 1
    (es.foldl (fun m e => m.insert e.1 e.2) [])
  rw [List.append_nil] at hlast
  rw [hlast] at h
  have hfold : (es ++ [(key, value)]).foldl
      (fun (m : Table) (e : Str × Str) => m.insert e.1 e.2) ([] : Table) =
      es ++ [(key, value)] := by
    have := foldl_insert_fresh (es ++ [(key, value)]) [] (by simpa using hwf.1)
    simpa using this
  rw [List.foldl_append] at hfold
  simp only [List.foldl_cons, List.foldl_nil] at hfold
  rw [hfold] at h
  have hone : import_loop 1 ⟨⟨[], ([] : Str).isEmpty, false⟩, l' + n' + value.count '\n'⟩
      (es ++ [(key, value)]) =
      some (.ok (es ++ [(key, value)]), ⟨⟨[], true, true⟩, l' + n' + value.count '\n'⟩) := rfl
  rw [hone] at h
  refine ⟨⟨⟨[], true, true⟩, l' + n' + value.count '\n'⟩, ?_⟩
  have := import_loop_canon _ _ _ _ h
  simpa [at_lines, import_to_map, start_scan] using this

/-- Upsert on an object that has not been opened before: for every document on
which `import_to_map` succeeds with table `M`, every valid key and every value, importing the text `set_value_for_key` wrote
yields exactly `M` with the key mapped to the value: the key has the new
value, every other key has the value `M` holds for it, and a key that is
neither in `M` nor the given one is absent. -/
theorem upsert_keeps_other_entries (iter : Table → List (Str × Str))
    (hiter : ∀ m, (iter m).Perm m) (doc : Str) (M : Table) (cf : ConfigFile) (key value : Str)
    (himport : import_to_map doc = some (.ok M, cf)) (hkey : valid_key key = true) :
    ∃ out, set_value_for_key iter key value doc ⟨[], false⟩ = some (.ok (), cf, out) ∧
      ∃ M' cf', import_to_map out.text = some (.ok M', cf') ∧
        ∀ k, List.lookup k M' = if k = key then some value else List.lookup k M := by
  have hM : M.WF := import_to_map_wf doc M cf himport
  have hwf : Table.WF (iter M) := hM.perm (hiter M)
  have hwf' := hwf.map_replace key value hkey
  have hlook : ∀ k, List.lookup k (iter M) = List.lookup k M :=
    fun k => lookup_perm k _ _ (hiter M) hM.1
  have hentries := set_value_entries_text key value (iter M) ⟨[], false⟩ false rfl
  simp only [List.nil_append, Bool.false_or] at hentries
  by_cases hex : (iter M).any (fun e => e.1 == key) = true
  · refine ⟨⟨entries_text ((iter M).map (fun e => if e.1 = key then (key, value) else e)), false⟩,
      ?_, ?_⟩
    · simp [set_value_for_key, himport, hentries, hex]
    · obtain ⟨cf', h⟩ := import_to_map_entries_text _ hwf'
      refine ⟨_, cf', h, fun k => ?_⟩
      rw [lookup_map_replace, hex, hlook]
      simp
  · refine ⟨⟨entries_text ((iter M).map (fun e => if e.1 = key then (key, value) else e)) ++
        entry_text (key, value), false⟩, ?_, ?_⟩
    · simp [set_value_for_key, himport, hentries, hex, print_key_val_text]
    · have hnot : key ∉ (iter M).map Prod.fst := by
        intro hmem
        obtain ⟨e, he, hek⟩ := List.mem_map.mp hmem
        exact hex (List.any_eq_true.mpr ⟨e, he, by simpa using hek⟩)
      have hwf2 : Table.WF ((iter M).map (fun e => if e.1 = key then (key, value) else e) ++
          [(key, value)]) := by
        constructor
        · rw [List.map_append, List.nodup_append]
          refine ⟨hwf'.1, by simp, ?_⟩
          intro a ha hb
          simp only [List.map_cons, List.map_nil, List.mem_singleton] at hb
          subst hb
          rw [map_replace_keys] at ha
          exact hnot ha
        · intro e he
          rcases List.mem_append.mp he with h | h
          · exact hwf'.2 e h
          · simp only [List.mem_singleton] at h
            subst h; exact hkey
      obtain ⟨cf', h⟩ := import_to_map_entries_text_append _ key value hwf2
      refine ⟨_, cf', h, fun k => ?_⟩
      rw [Table.lookup_append_single, lookup_map_replace, hlook]
      by_cases hk : k = key
      · simp [hk, hex]
      · simp [hk]

theorem upsert_keeps_other_entries_witness :
    (∀ m : Table, (List.reverse m).Perm m) ∧
      import_to_map "A =\n\tx\n\nB =\n\ty\n".toList =
        some (.ok [("A".toList, "x".toList), ("B".toList, "y".toList)], ⟨⟨[], true, true⟩, 2⟩) ∧
      valid_key "C".toList = true ∧
      ∃ out, set_value_for_key List.reverse "C".toList "z\nw".toList
          "A =\n\tx\n\nB =\n\ty\n".toList ⟨[], false⟩ = some (.ok (), ⟨⟨[], true, true⟩, 2⟩, out) ∧
        ∃ M' cf', import_to_map out.text = some (.ok M', cf') ∧
          ∀ k, List.lookup k M' =
            if k = "C".toList then some "z\nw".toList
            else List.lookup k [("A".toList, "x".toList), ("B".toList, "y".toList)] :=
  ⟨fun m => List.reverse_perm m, rfl, rfl,
    upsert_keeps_other_entries List.reverse (fun m => List.reverse_perm m) _ _ _ _ _ rfl rfl⟩

/-! ## The line counter when an operation fails -/

theorem out_block_loop_line_le :
    ∀ (cs : Str) (a b : Bool) (k : Str) (l : Nat),
      l ≤ (out_block_loop cs a b k l).2.err_line_no := by
  intro cs
  induction cs with
  | nil =>
    intro a b k l
    rw [out_block_loop]
    split_ifs <;> exact le_refl l
  | cons ch cs ih =>
    intro a b k l
    rcases out_block_loop_step_inv ch a b k l with
      ⟨_, _, hs⟩ | ⟨e', _, _, hs⟩ | ⟨a', b', k', l', hl, _, _, _, _, hs⟩
    · rw [hs]
      split_ifs <;> exact le_refl l
    · rw [hs]
    · rw [hs]
      exact le_trans hl (ih _ _ _ _)

theorem out_block_parse_line_le (cf : ConfigFile) :
    cf.err_line_no ≤ (out_block_parse cf).2.err_line_no := by
  unfold out_block_parse
  split
  · exact out_block_loop_line_le _ _ _ _ _
  · exact le_refl _

theorem out_block_parse_error (cf cf1 : ConfigFile) (e : CkvError)
    (h : out_block_parse cf = (.error e, cf1)) : is_syntax_error e = true := by
  unfold out_block_parse at h
  split at h
  · exact (out_block_loop_error _ _ _ _ _ _ _ h).1
  · simp at h

theorem in_block_loop_line_le :
    ∀ (cs value : Str) (l : Nat), l ≤ (in_block_loop cs value l).2.err_line_no := by
  intro cs value l
  induction cs, value, l using in_block_loop.induct with
  | case1 value line => rw [in_block_loop_nil]
  | case2 value line => rw [in_block_loop_nl_nil]
  | case3 value line cs' ih =>
    rw [in_block_loop_nl_tab]
    omega
  | case4 value line next cs' h1 h2 => rw [in_block_loop_nl_other _ _ _ _ h1 h2]
  | case5 value line next cs' h1 h2 ih =>
    have : next = '+' := by simpa using h2
    subst this
    rw [in_block_loop_nl_plus]
    omega
  | case6 ch cs value line h ih =>
    rw [in_block_loop_cons_ne _ _ _ _ h]
    exact ih

theorem in_block_parse_line_le (cf : ConfigFile) :
    cf.err_line_no ≤ (in_block_parse cf).2.err_line_no := by
  unfold in_block_parse
  split
  · exact in_block_loop_line_le _ _ _
  · exact le_refl _

/-- A failed lookup either found no key, and the line counter is 0, or
stopped on an exception of the key line scanner, and the line counter is
where the scanner left it. -/
theorem find_loop_error (key : Str) :
    ∀ (fuel : Nat) (cf : ConfigFile) (e : CkvError) (cf' : ConfigFile),
      find_loop fuel key cf = some (.error e, cf') →
      (e = .KeyNotFound key ∧ cf'.err_line_no = 0) ∨
        (is_syntax_error e = true ∧ cf.err_line_no ≤ cf'.err_line_no) := by
  intro fuel
  induction fuel with
  | zero => intro cf e cf' h; simp [find_loop] at h
  | succ fuel ih =>
    intro cf e cf' h
    rw [find_loop] at h
    split at h
    · simp only [Option.some.injEq, Prod.mk.injEq, Except.error.injEq] at h
      rw [← h.1, ← h.2]
      exact Or.inl ⟨rfl, rfl⟩
    · have hle := out_block_parse_line_le ⟨cf.file_reader.peek.2, cf.err_line_no⟩
      split at h
      · rename_i e1 cf1 hout
        simp only [Option.some.injEq, Prod.mk.injEq, Except.error.injEq] at h
        rw [hout] at hle
        rw [← h.1, ← h.2]
        exact Or.inr ⟨out_block_parse_error _ _ _ hout, hle⟩
      · rename_i cur_key cf1 hout
        rw [hout] at hle
        split at h
        · simp only [Option.some.injEq, Prod.mk.injEq, Except.error.injEq] at h
          rw [← h.1, ← h.2]
          exact Or.inl ⟨rfl, rfl⟩
        · split at h
          · simp at h
          · rcases ih _ _ _ h with h1 | ⟨h1, h2⟩
            · exact Or.inl h1
            · exact Or.inr ⟨h1, le_trans hle (le_trans (in_block_parse_line_le cf1) h2)⟩

theorem import_loop_error :
    ∀ (fuel : Nat) (cf : ConfigFile) (m : Table) (e : CkvError) (cf' : ConfigFile),
      import_loop fuel cf m = some (.error e, cf') →
      is_syntax_error e = true ∧ cf.err_line_no ≤ cf'.err_line_no := by
  intro fuel
  induction fuel with
  | zero => intro cf m e cf' h; simp [import_loop] at h
  | succ fuel ih =>
    intro cf m e cf' h
    rw [import_loop] at h
    split at h
    · simp at h
    · have hle := out_block_parse_line_le ⟨cf.file_reader.peek.2, cf.err_line_no⟩
      split at h
      · rename_i e1 cf1 hout
        simp only [Option.some.injEq, Prod.mk.injEq, Except.error.injEq] at h
        rw [hout] at hle
        rw [← h.1, ← h.2]
        exact ⟨out_block_parse_error _ _ _ hout, hle⟩
      · rename_i cur_key cf1 hout
        rw [hout] at hle
        split at h
        · simp at h
        · obtain ⟨h1, h2⟩ := ih _ _ _ _ h
          exact ⟨h1, le_trans hle (le_trans (in_block_parse_line_le cf1) h2)⟩

/-- The line counter after a failure on a readable document: when
`get_value_for_key` fails with `KeyNotFound`, and when the stream flavour of `set_value_for_key` or
`remove_key` fails with `InvalidOutputStream`, `err_line_no` is 0 once the
failure has propagated; every other failure of `get_value_for_key`,
`import_to_map`, `set_value_for_key` and `remove_key` is a syntax error raised
by the key line scanner, and then `err_line_no` is not reset: it is the
counter the scanner left, at least 1. -/
theorem line_counter_on_failure (iter : Table → List (Str × Str)) (doc key value : Str)
    (e : CkvError) (cf : ConfigFile) :
    (get_value_for_key key doc = some (.error e, cf) →
        (e = .KeyNotFound key ∧ cf.err_line_no = 0) ∨
          (is_syntax_error e = true ∧ 1 ≤ cf.err_line_no)) ∧
      (import_to_map doc = some (.error e, cf) →
        is_syntax_error e = true ∧ 1 ≤ cf.err_line_no) ∧
      (∀ out out', set_value_for_key iter key value doc out = some (.error e, cf, out') →
        (e = .InvalidOutputStream ∧ cf.err_line_no = 0) ∨
          (is_syntax_error e = true ∧ 1 ≤ cf.err_line_no)) ∧
      ∀ out out', remove_key iter key doc out = some (.error e, cf, out') →
        (e = .InvalidOutputStream ∧ cf.err_line_no = 0) ∨
          (is_syntax_error e = true ∧ 1 ≤ cf.err_line_no) := by
  refine ⟨fun h => find_loop_error key _ _ _ _ h, fun h => import_loop_error _ _ _ _ _ h, ?_, ?_⟩
  · intro out out' h
    unfold set_value_for_key at h
    split at h
    · simp only [Option.some.injEq, Prod.mk.injEq, Except.error.injEq] at h
      rw [← h.1, ← h.2.1]
      exact Or.inl ⟨rfl, rfl⟩
    · split at h
      · simp at h
      · rename_i e1 cf1 himp
        simp only [Option.some.injEq, Prod.mk.injEq, Except.error.injEq] at h
        rw [← h.1, ← h.2.1]
        exact Or.inr (import_loop_error _ _ _ _ _ himp)
      · split at h <;> simp at h
  · intro out out' h
    unfold remove_key at h
    split at h
    · simp only [Option.some.injEq, Prod.mk.injEq, Except.error.injEq] at h
      rw [← h.1, ← h.2.1]
      exact Or.inl ⟨rfl, rfl⟩
    · split at h
      · simp at h
      · rename_i e1 cf1 himp
        simp only [Option.some.injEq, Prod.mk.injEq, Except.error.injEq] at h
        rw [← h.1, ← h.2.1]
        exact Or.inr (import_loop_error _ _ _ _ _ himp)
      · simp at h

theorem line_counter_on_failure_witness :
    (get_value_for_key "B".toList "\nA =\n\tx\n".toList =
        some (.error (.KeyNotFound "B".toList), ⟨⟨[], true, true⟩, 0⟩) ∧
      ((CkvError.KeyNotFound "B".toList = .KeyNotFound "B".toList ∧ (0 : Nat) = 0) ∨
        (is_syntax_error (.KeyNotFound "B".toList) = true ∧ 1 ≤ (0 : Nat)))) ∧
      (import_to_map "\nA =\n\tx\n\nB\n".toList =
          some (.error .MissingEqualTo, ⟨⟨[], false, false⟩, 3⟩) ∧
        is_syntax_error .MissingEqualTo = true ∧ 1 ≤ (3 : Nat)) ∧
      (set_value_for_key id "A".toList "v".toList "\nA =\n\tx\n".toList ⟨[], true⟩ =
          some (.error .InvalidOutputStream, ⟨⟨"\nA =\n\tx\n".toList, false, false⟩, 0⟩,
            ⟨[], true⟩) ∧
        ((CkvError.InvalidOutputStream = .InvalidOutputStream ∧ (0 : Nat) = 0) ∨
          (is_syntax_error .InvalidOutputStream = true ∧ 1 ≤ (0 : Nat)))) ∧
      (remove_key id "A".toList "\nA =\n\tx\n\nB\n".toList ⟨[], false⟩ =
          some (.error .MissingEqualTo, ⟨⟨[], false, false⟩, 3⟩, ⟨[], false⟩) ∧
        ((CkvError.MissingEqualTo = .InvalidOutputStream ∧ (3 : Nat) = 0) ∨
          (is_syntax_error .MissingEqualTo = true ∧ 1 ≤ (3 : Nat)))) :=
  ⟨⟨rfl, (line_counter_on_failure id "\nA =\n\tx\n".toList "B".toList [] _
      ⟨⟨[], true, true⟩, 0⟩).1 rfl⟩,
    ⟨rfl, (line_counter_on_failure id "\nA =\n\tx\n\nB\n".toList [] [] _
      ⟨⟨[], false, false⟩, 3⟩).2.1 rfl⟩,
    ⟨rfl, (line_counter_on_failure id "\nA =\n\tx\n".toList "A".toList "v".toList _
      ⟨⟨"\nA =\n\tx\n".toList, false, false⟩, 0⟩).2.2.1 ⟨[], true⟩ ⟨[], true⟩ rfl⟩,
    ⟨rfl, (line_counter_on_failure id "\nA =\n\tx\n\nB\n".toList "A".toList [] _
      ⟨⟨[], false, false⟩, 3⟩).2.2.2 ⟨[], false⟩ ⟨[], false⟩ rfl⟩⟩

/-- C20 as stated fails: on `"\nA = x\n"` every operation fails with the
syntax error `TrailingCharsAfterEqualTo`, and `err_line_no` is 2, not 0, once
the failure has propagated. -/
theorem line_counter_zeroed_counterexample :
    get_value_for_key "A".toList "\nA = x\n".toList =
        some (.error .TrailingCharsAfterEqualTo, ⟨⟨"\n".toList, false, false⟩, 2⟩) ∧
      import_to_map "\nA = x\n".toList =
        some (.error .TrailingCharsAfterEqualTo, ⟨⟨"\n".toList, false, false⟩, 2⟩) ∧
      set_value_for_key id "A".toList "v".toList "\nA = x\n".toList ⟨[], false⟩ =
        some (.error .TrailingCharsAfterEqualTo, ⟨⟨"\n".toList, false, false⟩, 2⟩,
          ⟨[], false⟩) ∧
      remove_key id "A".toList "\nA = x\n".toList ⟨[], false⟩ =
        some (.error .TrailingCharsAfterEqualTo, ⟨⟨"\n".toList, false, false⟩, 2⟩,
          ⟨[], false⟩) ∧
      (⟨⟨"\n".toList, false, false⟩, 2⟩ : ConfigFile).err_line_no ≠ 0 :=
  ⟨rfl, rfl, rfl, rfl, by decide⟩

/-! ## The line counter and the physical line -/

/-- C21, at the failing input: on `"A =\n\tx\nB\n"` the `MissingEqualTo` for
line 3 is raised with `err_line_no` equal to 1, although all three newlines of
the document have been extracted: the newline that ends the key line `A =` and
the newline that ends the value block are extracted on paths that return
before `err_line_no++`. Where only blank lines come first, as in `"\n\nB\n"`,
the counter is the physical line, 3. -/
theorem line_counter_misses_newlines :
    import_to_map "A =\n\tx\nB\n".toList =
        some (.error .MissingEqualTo, ⟨⟨[], false, false⟩, 1⟩) ∧
      get_value_for_key "B".toList "A =\n\tx\nB\n".toList =
        some (.error .MissingEqualTo, ⟨⟨[], false, false⟩, 1⟩) ∧
      "A =\n\tx\nB\n".toList.count '\n' = 3 ∧
      out_block_parse (start_scan "A =\n\tx\nB\n".toList) =
        (.ok "A".toList, ⟨⟨"\tx\nB\n".toList, false, false⟩, 1⟩) ∧
      in_block_parse ⟨⟨"\tx\nB\n".toList, false, false⟩, 1⟩ =
        ("x".toList, ⟨⟨"B\n".toList, false, false⟩, 1⟩) ∧
      import_to_map "\n\nB\n".toList =
        some (.error .MissingEqualTo, ⟨⟨[], false, false⟩, 3⟩) :=
  ⟨rfl, rfl, rfl, rfl, rfl, rfl⟩

/-! ## Lookup of a string that is not a key -/

/-- A lookup returns a value only for a valid key: the key it matched was
returned by the key line scanner. -/
theorem find_loop_ok_valid (key : Str) :
    ∀ (fuel : Nat) (cf : ConfigFile) (value : Str) (cf' : ConfigFile),
      find_loop fuel key cf = some (.ok value, cf') → valid_key key = true := by
  intro fuel
  induction fuel with
  | zero => intro cf value cf' h; simp [find_loop] at h
  | succ fuel ih =>
    intro cf value cf' h
    rw [find_loop] at h
    split at h
    · simp at h
    · split at h
      · simp at h
      · rename_i cur_key cf1 hout
        split at h
        · simp at h
        · rename_i hne
          split at h
          · rename_i hk
            rw [hk]
            exact out_block_parse_ok_valid _ _ _ hout hne
          · exact ih _ _ _ h

/-- C22: for every input and every string that is not a valid key (empty, or
with a character outside `[A-Za-z0-9_-]`), `get_value_for_key` returns no
value: it fails, with `KeyNotFound` carrying the string or with a syntax error
of the key line scanner. `set_value_for_key` does not validate its key, so on
every document that imports it writes an entry for such a string, and
`get_value_for_key` fails on the text it wrote. -/
theorem find_non_key_fails (key : Str) (hkey : valid_key key = false) :
    (∀ doc : Str, ∃ e cf, get_value_for_key key doc = some (.error e, cf) ∧
        (e = .KeyNotFound key ∨ is_syntax_error e = true)) ∧
      ∀ (iter : Table → List (Str × Str)) (doc value : Str) (M : Table) (cf : ConfigFile),
        import_to_map doc = some (.ok M, cf) →
        ∃ out, set_value_for_key iter key value doc ⟨[], false⟩ = some (.ok (), cf, out) ∧
          ∃ e cf', get_value_for_key key out.text = some (.error e, cf') ∧
            (e = .KeyNotFound key ∨ is_syntax_error e = true) := by
  have hfind : ∀ doc : Str, ∃ e cf, get_value_for_key key doc = some (.error e, cf) ∧
      (e = .KeyNotFound key ∨ is_syntax_error e = true) := by
    intro doc
    obtain ⟨r, hr⟩ := get_value_for_key_total key doc
    obtain ⟨res, cf⟩ := r
    cases res with
    | ok value =>
      have := find_loop_ok_valid key _ _ _ _ hr
      rw [hkey] at this
      exact absurd this (by simp)
    | error e =>
      refine ⟨e, cf, hr, ?_⟩
      rcases find_loop_error key _ _ _ _ hr with h | h
      · exact Or.inl h.1
      · exact Or.inr h.1
  refine ⟨hfind, ?_⟩
  intro iter doc value M cf himport
  by_cases hex : (set_value_entries key value (iter M) ⟨[], false⟩ false).2 = true
  · exact ⟨(set_value_entries key value (iter M) ⟨[], false⟩ false).1,
      by simp [set_value_for_key, himport, hex], hfind _⟩
  · exact ⟨print_key_val (set_value_entries key value (iter M) ⟨[], false⟩ false).1 key value,
      by simp [set_value_for_key, himport, hex], hfind _⟩

theorem find_non_key_fails_witness :
    valid_key "a b".toList = false ∧
      (∃ e cf, get_value_for_key "a b".toList "a b =\n\tv\n".toList = some (.error e, cf) ∧
        (e = .KeyNotFound "a b".toList ∨ is_syntax_error e = true)) ∧
      get_value_for_key "a b".toList "a b =\n\tv\n".toList =
        some (.error .MissingEqualTo, ⟨⟨" =\n\tv\n".toList, false, false⟩, 1⟩) ∧
      (import_to_map "A =\n\tx\n".toList =
          some (.ok [("A".toList, "x".toList)], ⟨⟨[], true, true⟩, 1⟩) ∧
        ∃ out, set_value_for_key id "a b".toList "v".toList "A =\n\tx\n".toList ⟨[], false⟩ =
            some (.ok (), ⟨⟨[], true, true⟩, 1⟩, out) ∧
          ∃ e cf', get_value_for_key "a b".toList out.text = some (.error e, cf') ∧
            (e = .KeyNotFound "a b".toList ∨ is_syntax_error e = true)) ∧
      set_value_for_key id "a b".toList "v".toList "A =\n\tx\n".toList ⟨[], false⟩ =
        some (.ok (), ⟨⟨[], true, true⟩, 1⟩, ⟨"A =\n\tx\n\na b =\n\tv\n".toList, false⟩) ∧
      (valid_key [] = false ∧
        ∃ e cf, get_value_for_key [] "A =\n\tx\n".toList = some (.error e, cf) ∧
          (e = .KeyNotFound [] ∨ is_syntax_error e = true)) :=
  ⟨rfl, (find_non_key_fails "a b".toList rfl).1 "a b =\n\tv\n".toList, rfl,
    ⟨rfl, (find_non_key_fails "a b".toList rfl).2 id "A =\n\tx\n".toList "v".toList
      [("A".toList, "x".toList)] ⟨⟨[], true, true⟩, 1⟩ rfl⟩,
    rfl, ⟨rfl, (find_non_key_fails [] rfl).1 "A =\n\tx\n".toList⟩⟩

/-! ## Objects: what a scan starts from -/

/-- On an object whose stream is closed, or open and without `failbit`, and
whose file can be read, `open_file` succeeds and the scan starts from the
beginning of the file. -/
theorem object_begin_scan (o : ConfigFileObject) (doc : Str) (hfile : o.file = some doc)
    (h : o.is_open = false ∨ o.state.file_reader.failbit = false) :
    ∃ o1, o.open_file = (.ok (), o1) ∧ o1.begin_scan = start_scan doc ∧
      ∀ cf, ({ o1 with state := cf } : ConfigFileObject) =
        ⟨o.file_path, some doc, o.writable, true, cf⟩ := by
  obtain ⟨path, file, w, is_open, ⟨⟨rest, eofbit, failbit⟩, line⟩⟩ := o
  simp only at hfile h
  subst hfile
  cases is_open with
  | false =>
    exact ⟨_, rfl, rfl, fun _ => rfl⟩
  | true =>
    have hf : failbit = false := by simpa using h
    subst hf
    exact ⟨_, rfl, rfl, fun _ => rfl⟩

/-- The operation `get_value_for_key` of an object whose scan starts from the
beginning of the file is `get_value_for_key` on the content of the file. -/
theorem object_get_value_for_key_eq (o : ConfigFileObject) (doc key : Str)
    (hfile : o.file = some doc)
    (h : o.is_open = false ∨ o.state.file_reader.failbit = false) :
    o.get_value_for_key key =
      (get_value_for_key key doc).map
        (fun r => (r.1, ⟨o.file_path, some doc, o.writable, true, r.2⟩)) := by
  obtain ⟨o1, h1, h2, h3⟩ := object_begin_scan o doc hfile h
  unfold ConfigFileObject.get_value_for_key get_value_for_key
  rw [h1]
  simp only [h2]
  have : (start_scan doc).file_reader.rest.length = doc.length := rfl
  rw [this]
  cases find_loop (doc.length + 1) key (start_scan doc) with
  | none => rfl
  | some r => simp [h3]

/-- The operation `import_to_map` of an object whose scan starts from the
beginning of the file is `import_to_map` on the content of the file. -/
theorem object_import_to_map_eq (o : ConfigFileObject) (doc : Str) (hfile : o.file = some doc)
    (h : o.is_open = false ∨ o.state.file_reader.failbit = false) :
    o.import_to_map =
      (import_to_map doc).map (fun r => (r.1, ⟨o.file_path, some doc, o.writable, true, r.2⟩)) := by
  obtain ⟨o1, h1, h2, h3⟩ := object_begin_scan o doc hfile h
  unfold ConfigFileObject.import_to_map import_to_map
  rw [h1]
  simp only [h2]
  have : (start_scan doc).file_reader.rest.length = doc.length := rfl
  rw [this]
  cases import_loop (doc.length + 1) (start_scan doc) [] with
  | none => rfl
  | some r => simp [h3]

/-- The stream flavour of `set_value_for_key` on an object that has not been
opened is `set_value_for_key` on the content of the file. -/
theorem object_set_value_for_key_eq (path doc : Str) (line : Nat)
    (iter : Table → List (Str × Str)) (key value : Str) (out : OStream) :
    (ConfigFileObject.unopened path (some doc) line).set_value_for_key iter key value out =
      (set_value_for_key iter key value doc out).map
        (fun r => (r.1, ⟨path, some doc, true, true, r.2.1⟩, r.2.2)) := by
  have himp := object_import_to_map_eq
    ⟨path, some doc, true, true, ⟨⟨doc, false, false⟩, line⟩⟩ doc rfl (Or.inr rfl)
  unfold ConfigFileObject.set_value_for_key set_value_for_key
  simp only [ConfigFileObject.unopened, ConfigFileObject.open_file, Bool.false_eq_true, if_false]
  cases hout : out.fail with
  | true => rfl
  | false =>
    simp only [Bool.false_eq_true, if_false, himp]
    cases import_to_map doc with
    | none => rfl
    | some r =>
      obtain ⟨res, cf⟩ := r
      cases res with
      | error e => rfl
      | ok key_vals =>
        simp only [Option.map_some']
        split <;> rfl

/-- The stream flavour of `remove_key` on an object that has not been opened
is `remove_key` on the content of the file. -/
theorem object_remove_key_eq (path doc : Str) (line : Nat) (iter : Table → List (Str × Str))
    (key : Str) (out : OStream) :
    (ConfigFileObject.unopened path (some doc) line).remove_key iter key out =
      (remove_key iter key doc out).map
        (fun r => (r.1, ⟨path, some doc, true, true, r.2.1⟩, r.2.2)) := by
  have himp := object_import_to_map_eq
    ⟨path, some doc, true, true, ⟨⟨doc, false, false⟩, line⟩⟩ doc rfl (Or.inr rfl)
  unfold ConfigFileObject.remove_key remove_key
  simp only [ConfigFileObject.unopened, ConfigFileObject.open_file, Bool.false_eq_true, if_false]
  cases hout : out.fail with
  | true => rfl
  | false =>
    simp only [Bool.false_eq_true, if_false, himp]
    cases import_to_map doc with
    | none => rfl
    | some r =>
      obtain ⟨res, cf⟩ := r
      cases res with
      | error e => rfl
      | ok key_vals => rfl

/-! ## Objects: a stream left failed by an earlier scan -/

/-- On an open stream with `failbit` set, `seekg` does not rewind, the first
`peek` gives `EOF`, and the lookup fails with `KeyNotFound` for every key. -/
theorem stale_get_value_for_key (o : ConfigFileObject) (key : Str) (hopen : o.is_open = true)
    (hfail : o.state.file_reader.failbit = true) :
    o.get_value_for_key key =
      some (.error (.KeyNotFound key),
        { o with state := ⟨⟨o.state.file_reader.rest, false, true⟩, 0⟩ }) := by
  obtain ⟨path, file, w, is_open, ⟨⟨rest, eofbit, failbit⟩, line⟩⟩ := o
  simp only at hopen hfail
  subst hopen hfail
  simp [ConfigFileObject.get_value_for_key, ConfigFileObject.open_file,
    ConfigFileObject.begin_scan, IFStream.seekg_beg, find_loop, IFStream.peek, IFStream.good]

/-- On an open stream with `failbit` set, `import_to_map` returns the empty
table, whatever the file holds. -/
theorem stale_import_to_map (o : ConfigFileObject) (hopen : o.is_open = true)
    (hfail : o.state.file_reader.failbit = true) :
    o.import_to_map =
      some (.ok [], { o with state := ⟨⟨o.state.file_reader.rest, false, true⟩, 1⟩ }) := by
  obtain ⟨path, file, w, is_open, ⟨⟨rest, eofbit, failbit⟩, line⟩⟩ := o
  simp only at hopen hfail
  subst hopen hfail
  simp [ConfigFileObject.import_to_map, ConfigFileObject.open_file,
    ConfigFileObject.begin_scan, IFStream.seekg_beg, import_loop, IFStream.peek, IFStream.good]

/-- The value block scanner never leaves a good stream with nothing to read:
it stops before an unread character or at the end of the stream with `eofbit`
set. -/
theorem in_block_loop_stream :
    ∀ (cs value : Str) (l : Nat),
      (in_block_loop cs value l).2.file_reader.eofbit = true ∨
        (in_block_loop cs value l).2.file_reader.rest ≠ [] := by
  intro cs value l
  induction cs, value, l using in_block_loop.induct with
  | case1 value line => rw [in_block_loop_nil]; exact Or.inl rfl
  | case2 value line => rw [in_block_loop_nl_nil]; exact Or.inl rfl
  | case3 value line cs' ih => rw [in_block_loop_nl_tab]; exact ih
  | case4 value line next cs' h1 h2 =>
    rw [in_block_loop_nl_other _ _ _ _ h1 h2]
    exact Or.inr (by simp)
  | case5 value line next cs' h1 h2 ih =>
    have : next = '+' := by simpa using h2
    subst this
    rw [in_block_loop_nl_plus]
    exact ih
  | case6 ch cs value line h ih =>
    rw [in_block_loop_cons_ne _ _ _ _ h]
    exact ih

theorem in_block_parse_stream (cf : ConfigFile) :
    ¬ ((in_block_parse cf).2.file_reader.good = true ∧
      (in_block_parse cf).2.file_reader.rest = []) := by
  unfold in_block_parse
  split
  · rintro ⟨hg, hr⟩
    rcases in_block_loop_stream (cf.file_reader.get).2.rest [] cf.err_line_no with h | h
    · simp [IFStream.good, h] at hg
    · exact h hr
  · rintro ⟨hg, _⟩
    simp [IFStream.good] at hg

/-- A complete run of the import loop leaves `failbit` set, unless it started
on a good stream with nothing to read. -/
theorem import_loop_leaves_failbit :
    ∀ (fuel : Nat) (cf : ConfigFile) (m M : Table) (cf' : ConfigFile),
      import_loop fuel cf m = some (.ok M, cf') →
      cf'.file_reader.failbit = true ∨
        (cf.file_reader.good = true ∧ cf.file_reader.rest = []) := by
  intro fuel
  induction fuel with
  | zero => intro cf m M cf' h; simp [import_loop] at h
  | succ fuel ih =>
    intro cf m M cf' h
    rw [import_loop] at h
    split at h
    · rename_i hpeek
      simp only [Option.some.injEq, Prod.mk.injEq, Except.ok.injEq] at h
      rw [← h.2]
      obtain ⟨⟨rest, e, f⟩, line⟩ := cf
      cases e <;> cases f <;> cases rest <;>
        simp [IFStream.peek, IFStream.good] at hpeek ⊢
    · rename_i hpeek
      obtain ⟨c, cs, hs⟩ := peek_some_good _ hpeek
      split at h
      · simp at h
      · rename_i key cf1 hout
        left
        split at h
        · rename_i hemp
          simp only [Option.some.injEq, Prod.mk.injEq, Except.ok.injEq] at h
          rw [hs] at hout
          simp only [peek_good_snd, out_block_parse, IFStream.good, List.isEmpty_cons,
            Bool.not_false, Bool.and_self, if_true] at hout
          rcases (out_block_loop_ok _ _ _ _ _ _ _ hout (by simp) rfl).2 with
            ⟨_, _, _, h4⟩ | ⟨h1, _⟩
          · rw [← h.2, h4]
          · rw [valid_key_isEmpty key h1] at hemp
            exact absurd hemp (by simp)
        · rcases ih _ _ _ _ h with h1 | h1
          · exact h1
          · exact absurd h1 (in_block_parse_stream cf1)

/-- A successful `import_to_map` of a file that is not empty leaves `failbit`
set on the stream. -/
theorem import_to_map_leaves_failbit (doc : Str) (hdoc : doc ≠ []) (M : Table) (cf : ConfigFile)
    (h : import_to_map doc = some (.ok M, cf)) : cf.file_reader.failbit = true := by
  rcases import_loop_leaves_failbit _ _ _ _ _ h with h1 | ⟨_, h2⟩
  · exact h1
  · exact absurd h2 hdoc

/-- After a successful `import_to_map` of a file that is not empty, every
lookup on the same object fails with `KeyNotFound`, also for the keys of the
table that was just returned. -/
theorem find_after_import_fails (o o1 : ConfigFileObject) (doc : Str) (hdoc : doc ≠ [])
    (hfile : o.file = some doc)
    (h : o.is_open = false ∨ o.state.file_reader.failbit = false) (M : Table)
    (himport : o.import_to_map = some (.ok M, o1)) (key : Str) :
    o1.get_value_for_key key =
      some (.error (.KeyNotFound key),
        { o1 with state := ⟨⟨o1.state.file_reader.rest, false, true⟩, 0⟩ }) := by
  rw [object_import_to_map_eq o doc hfile h] at himport
  cases hd : import_to_map doc with
  | none => rw [hd] at himport; simp at himport
  | some r =>
    obtain ⟨res, cf⟩ := r
    rw [hd] at himport
    simp only [Option.map_some', Option.some.injEq, Prod.mk.injEq] at himport
    obtain ⟨h1, h2⟩ := himport
    subst h1
    have hf := import_to_map_leaves_failbit doc hdoc M cf hd
    rw [← h2]
    exact stale_get_value_for_key _ key rfl hf

/-! ## One object, two operations -/

/-- C1, at the failing input: an object imports the file `"A =\n\tx\n"` and
returns the table with `A` mapped to `x`; the stream is left at the end of the
file with `eofbit` and `failbit` set. `get_value_for_key("A")` on that object
then fails with `KeyNotFound`: `seekg(0)` clears `eofbit` only, and with
`failbit` still set the first `peek()` gives `EOF`. On an object that has not
scanned before, the same lookup returns `x`. -/
theorem find_after_import_key_not_found :
    (ConfigFileObject.unopened "f".toList (some "A =\n\tx\n".toList) 0).import_to_map =
        some (.ok [("A".toList, "x".toList)],
          ⟨"f".toList, some "A =\n\tx\n".toList, true, true, ⟨⟨[], true, true⟩, 1⟩⟩) ∧
      List.lookup "A".toList [("A".toList, "x".toList)] = some "x".toList ∧
      (⟨"f".toList, some "A =\n\tx\n".toList, true, true, ⟨⟨[], true, true⟩, 1⟩⟩ :
          ConfigFileObject).get_value_for_key "A".toList =
        some (.error (.KeyNotFound "A".toList),
          ⟨"f".toList, some "A =\n\tx\n".toList, true, true, ⟨⟨[], false, true⟩, 0⟩⟩) ∧
      (ConfigFileObject.unopened "f".toList (some "A =\n\tx\n".toList) 0).get_value_for_key
          "A".toList =
        some (.ok "x".toList,
          ⟨"f".toList, some "A =\n\tx\n".toList, true, true, ⟨⟨[], true, false⟩, 1⟩⟩) :=
  ⟨rfl, rfl, rfl, rfl⟩

/-- C4, at the failing input: an object imports the file
`"A =\n\tx\n\nB =\n\ty\n"` and returns the table with `A` and `B`;
`remove_key("A", out)` on that object then writes nothing at all, because its
own `import_to_map` starts on the stream the first scan left failed and
returns the empty table. The text written imports as the empty table, not as
the table with `B` alone. -/
theorem delete_after_import_writes_nothing :
    (ConfigFileObject.unopened "f".toList (some "A =\n\tx\n\nB =\n\ty\n".toList)
          0).import_to_map =
        some (.ok [("A".toList, "x".toList), ("B".toList, "y".toList)],
          ⟨"f".toList, some "A =\n\tx\n\nB =\n\ty\n".toList, true, true,
            ⟨⟨[], true, true⟩, 2⟩⟩) ∧
      (⟨"f".toList, some "A =\n\tx\n\nB =\n\ty\n".toList, true, true, ⟨⟨[], true, true⟩, 2⟩⟩ :
          ConfigFileObject).remove_key id "A".toList ⟨[], false⟩ =
        some (.ok (),
          ⟨"f".toList, some "A =\n\tx\n\nB =\n\ty\n".toList, true, true,
            ⟨⟨[], false, true⟩, 1⟩⟩,
          ⟨[], false⟩) ∧
      import_to_map [] = some (.ok [], ⟨⟨[], true, false⟩, 1⟩) ∧
      ¬ List.Perm ([] : Table)
        ([("A".toList, "x".toList), ("B".toList, "y".toList)].filter
          (fun e => e.1 != "A".toList)) :=
  ⟨rfl, rfl, rfl, by decide⟩

/-- C18, at the failing input: an object imports the file
`"A =\n\tx\n\nB =\n\ty\n"` and returns the table with `A` and `B`;
`set_value_for_key("C", "z", out)` on that object then writes the entry of `C`
and nothing else, because its own `import_to_map` starts on the stream the
first scan left failed and returns the empty table. The text written imports
as the table with `C` alone: `A` and `B` have lost their values. -/
theorem upsert_after_import_drops_entries :
    (ConfigFileObject.unopened "f".toList (some "A =\n\tx\n\nB =\n\ty\n".toList)
          0).import_to_map =
        some (.ok [("A".toList, "x".toList), ("B".toList, "y".toList)],
          ⟨"f".toList, some "A =\n\tx\n\nB =\n\ty\n".toList, true, true,
            ⟨⟨[], true, true⟩, 2⟩⟩) ∧
      (⟨"f".toList, some "A =\n\tx\n\nB =\n\ty\n".toList, true, true, ⟨⟨[], true, true⟩, 2⟩⟩ :
          ConfigFileObject).set_value_for_key id "C".toList "z".toList ⟨[], false⟩ =
        some (.ok (),
          ⟨"f".toList, some "A =\n\tx\n\nB =\n\ty\n".toList, true, true,
            ⟨⟨[], false, true⟩, 1⟩⟩,
          ⟨"C =\n\tz\n".toList, false⟩) ∧
      import_to_map "C =\n\tz\n".toList =
        some (.ok [("C".toList, "z".toList)], ⟨⟨[], true, true⟩, 1⟩) ∧
      List.lookup "A".toList [("C".toList, "z".toList)] = none ∧
      List.lookup "A".toList [("A".toList, "x".toList), ("B".toList, "y".toList)] =
        some "x".toList :=
  ⟨rfl, rfl, rfl, rfl, rfl⟩

/-! ## `MissingEqualTo`, from the state of the scanner -/

/-- C14: in every state of `out_block_parse` in which a non-empty key has been
accumulated and no `=` has been seen (`next_is_value_start` is false), whatever
was read to get there, the scanner fails with `MissingEqualTo` when a newline
arrives, directly after the key or after tabs and spaces; when the key was
followed by a tab or space (`next_is_equal_to` is true) and a character other
than tab, space and `=` arrives; and when the stream ends. -/
theorem missing_equal_to_from_state (key : Str) (hkey : key ≠ []) (next_is_equal_to : Bool)
    (line : Nat) :
    (∀ cs : Str, out_block_loop ('\n' :: cs) false next_is_equal_to key line =
        (.error .MissingEqualTo, ⟨⟨cs, false, false⟩, line⟩)) ∧
      (∀ (c : Char) (cs : Str), tab_or_space c = false → c ≠ '=' →
        out_block_loop (c :: cs) false true key line =
          (.error .MissingEqualTo, ⟨⟨cs, false, false⟩, line⟩)) ∧
      out_block_loop [] false next_is_equal_to key line =
        (.error .MissingEqualTo, ⟨⟨[], true, true⟩, line⟩) := by
  have he : key.isEmpty = false := by
    cases key with
    | nil => exact absurd rfl hkey
    | cons a as => rfl
  refine ⟨fun cs => ?_, fun c cs hc1 hc2 => ?_, ?_⟩
  · rw [out_block_loop]
    simp [he]
  · by_cases hc : c = '\n'
    · subst hc
      rw [out_block_loop]
      simp [he]
    · rw [out_block_loop]
      simp [hc, hc1, hc2]
  · rw [out_block_loop]
    simp [he]

theorem missing_equal_to_from_state_witness :
    "AB".toList ≠ [] ∧
      (∀ rest : Str, out_block_loop ("A\rB".toList ++ rest) false false [] 1 =
        out_block_loop rest false false "AB".toList 1) ∧
      out_block_parse ⟨⟨"A\rB\n".toList, false, false⟩, 1⟩ =
        (.error .MissingEqualTo, ⟨⟨[], false, false⟩, 1⟩) ∧
      out_block_parse ⟨⟨"A\r".toList, false, false⟩, 1⟩ =
        (.error .MissingEqualTo, ⟨⟨[], true, true⟩, 1⟩) ∧
      out_block_loop ('\n' :: "C".toList) false false "AB".toList 1 =
        (.error .MissingEqualTo, ⟨⟨"C".toList, false, false⟩, 1⟩) ∧
      (tab_or_space 'x' = false ∧ 'x' ≠ '=' ∧
        out_block_loop ('x' :: "=\n".toList) false true "AB".toList 1 =
          (.error .MissingEqualTo, ⟨⟨"=\n".toList, false, false⟩, 1⟩)) ∧
      out_block_loop [] false true "AB".toList 1 =
        (.error .MissingEqualTo, ⟨⟨[], true, true⟩, 1⟩) :=
  ⟨by decide, fun _ => rfl, rfl, rfl,
    (missing_equal_to_from_state "AB".toList (by decide) false 1).1 "C".toList,
    ⟨rfl, by decide,
      (missing_equal_to_from_state "AB".toList (by decide) true 1).2.1 'x' "=\n".toList rfl (by decide)⟩,
    (missing_equal_to_from_state "AB".toList (by decide) true 1).2.2⟩

/-! ## Write-back on a document that does not import -/

theorem open_file_idempotent (o o1 : ConfigFileObject) (h : o.open_file = (.ok (), o1)) :
    o1.open_file = (.ok (), o1) := by
  unfold ConfigFileObject.open_file at h
  split at h
  · rename_i hopen
    simp only [Prod.mk.injEq, true_and] at h
    subst h
    simp [ConfigFileObject.open_file, hopen]
  · split at h
    · simp only [Prod.mk.injEq, true_and] at h
      subst h
      simp [ConfigFileObject.open_file]
    · simp at h

theorem scan_point_shift (cf cf1 : ConfigFile) (key : Str)
    (hpeek : ¬ (cf.file_reader.peek).1 = none)
    (hout : out_block_parse ⟨(cf.file_reader.peek).2, cf.err_line_no⟩ = (.ok key, cf1))
    (hkey : ¬ key.isEmpty = true) (x : ConfigFile)
    (hx : ScanPoint (in_block_parse cf1).2 x) : ScanPoint cf x := by
  induction hx with
  | first hp => exact ScanPoint.next _ _ _ (ScanPoint.first hpeek) hout hkey hp
  | next cfa cfb k _ ho hk hp ih => exact ScanPoint.next _ _ _ ih ho hk hp

/-- A failed lookup either found no key, and the line counter is 0, or is in
the state in which `out_block_parse`, called at a point of the scan, raised a
syntax error. -/
theorem find_loop_error_point (key : Str) :
    ∀ (fuel : Nat) (cf : ConfigFile) (e : CkvError) (cf' : ConfigFile),
      find_loop fuel key cf = some (.error e, cf') →
      (e = .KeyNotFound key ∧ cf'.err_line_no = 0) ∨
        (is_syntax_error e = true ∧
          ∃ cf0, ScanPoint cf cf0 ∧ out_block_parse cf0 = (.error e, cf')) := by
  intro fuel
  induction fuel with
  | zero => intro cf e cf' h; simp [find_loop] at h
  | succ fuel ih =>
    intro cf e cf' h
    rw [find_loop] at h
    split at h
    · simp only [Option.some.injEq, Prod.mk.injEq, Except.error.injEq] at h
      rw [← h.1, ← h.2]
      exact Or.inl ⟨rfl, rfl⟩
    · rename_i hpeek
      split at h
      · rename_i e1 cf1 hout
        simp only [Option.some.injEq, Prod.mk.injEq, Except.error.injEq] at h
        rw [← h.1, ← h.2]
        exact Or.inr ⟨out_block_parse_error _ _ _ hout, _, ScanPoint.first hpeek, hout⟩
      · rename_i cur_key cf1 hout
        split at h
        · simp only [Option.some.injEq, Prod.mk.injEq, Except.error.injEq] at h
          rw [← h.1, ← h.2]
          exact Or.inl ⟨rfl, rfl⟩
        · rename_i hkey
          split at h
          · simp at h
          · rcases ih _ _ _ h with h1 | ⟨h1, cf0, h2, h3⟩
            · exact Or.inl h1
            · exact Or.inr ⟨h1, cf0, scan_point_shift cf cf1 cur_key hpeek hout hkey cf0 h2, h3⟩

/-- A failed import is in the state in which `out_block_parse`, called at a
point of the scan, raised a syntax error. -/
theorem import_loop_error_point :
    ∀ (fuel : Nat) (cf : ConfigFile) (m : Table) (e : CkvError) (cf' : ConfigFile),
      import_loop fuel cf m = some (.error e, cf') →
      is_syntax_error e = true ∧
        ∃ cf0, ScanPoint cf cf0 ∧ out_block_parse cf0 = (.error e, cf') := by
  intro fuel
  induction fuel with
  | zero => intro cf m e cf' h; simp [import_loop] at h
  | succ fuel ih =>
    intro cf m e cf' h
    rw [import_loop] at h
    split at h
    · simp at h
    · rename_i hpeek
      split at h
      · rename_i e1 cf1 hout
        simp only [Option.some.injEq, Prod.mk.injEq, Except.error.injEq] at h
        rw [← h.1, ← h.2]
        exact ⟨out_block_parse_error _ _ _ hout, _, ScanPoint.first hpeek, hout⟩
      · rename_i cur_key cf1 hout
        split at h
        · simp at h
        · rename_i hkey
          obtain ⟨h1, cf0, h2, h3⟩ := ih _ _ _ _ h
          exact ⟨h1, cf0, scan_point_shift cf cf1 cur_key hpeek hout hkey cf0 h2, h3⟩

theorem open_file_error (o o1 : ConfigFileObject) (e : CkvError)
    (h : o.open_file = (.error e, o1)) :
    e = .FileOpenFailed o.file_path ∧ o1.state.err_line_no = 0 := by
  unfold ConfigFileObject.open_file at h
  split at h
  · simp at h
  · split at h
    · simp at h
    · simp only [Prod.mk.injEq, Except.error.injEq] at h
      rw [← h.1, ← h.2]
      exact ⟨rfl, rfl⟩

theorem open_file_file_path (o : ConfigFileObject) : o.open_file.2.file_path = o.file_path := by
  unfold ConfigFileObject.open_file
  split
  · rfl
  · split <;> rfl

theorem import_to_map_file_path (o o' : ConfigFileObject) (r : Except CkvError Table)
    (h : o.import_to_map = some (r, o')) : o'.file_path = o.file_path := by
  unfold ConfigFileObject.import_to_map at h
  cases hopen : o.open_file with
  | mk res o1 =>
    have hpath : o1.file_path = o.file_path := by
      have := open_file_file_path o
      rw [hopen] at this
      exact this
    rw [hopen] at h
    cases res with
    | error e1 =>
      simp only [Option.some.injEq, Prod.mk.injEq] at h
      rw [← h.2]
      exact hpath
    | ok u =>
      simp only at h
      split at h
      · simp at h
      · simp only [Option.some.injEq, Prod.mk.injEq] at h
        rw [← h.2]
        exact hpath

theorem rewrite_error (o o' : ConfigFileObject) (body : OStream → OStream) (e : CkvError)
    (h : o.rewrite body = (.error e, o')) :
    e = .FileOpenFailed o.file_path ∧ o'.state.err_line_no = 0 := by
  unfold ConfigFileObject.rewrite at h
  split at h
  · simp at h
  · simp only [Prod.mk.injEq, Except.error.injEq] at h
    rw [← h.1, ← h.2]
    exact ⟨rfl, rfl⟩

theorem object_find_error (o o' : ConfigFileObject) (key : Str) (e : CkvError)
    (h : o.get_value_for_key key = some (.error e, o')) :
    ((e = .FileOpenFailed o.file_path ∨ e = .InvalidOutputStream ∨ e = .KeyNotFound key) ∧
        o'.state.err_line_no = 0) ∨
      (is_syntax_error e = true ∧ 1 ≤ o'.state.err_line_no ∧
        ∃ cf0, ScanPoint o.open_file.2.begin_scan cf0 ∧
          out_block_parse cf0 = (.error e, o'.state)) := by
  unfold ConfigFileObject.get_value_for_key at h
  cases hopen : o.open_file with
  | mk res o1 =>
    rw [hopen] at h
    cases res with
    | error e1 =>
      simp only [Option.some.injEq, Prod.mk.injEq, Except.error.injEq] at h
      obtain ⟨h1, h2⟩ := open_file_error o o1 e1 hopen
      rw [← h.1, ← h.2]
      exact Or.inl ⟨Or.inl h1, h2⟩
    | ok u =>
      simp only at h
      split at h
      · simp at h
      · rename_i r cf hfind
        simp only [Option.some.injEq, Prod.mk.injEq] at h
        obtain ⟨h1, h2⟩ := h
        subst h1 h2
        have hle := find_loop_error key _ _ _ _ hfind
        rcases find_loop_error_point key _ _ _ _ hfind with h1 | ⟨h1, h2⟩
        · exact Or.inl ⟨Or.inr (Or.inr h1.1), h1.2⟩
        · rcases hle with h3 | h3
          · rw [h3.1] at h1
            simp [is_syntax_error] at h1
          · exact Or.inr ⟨h1, h3.2, h2⟩

theorem object_import_error (o o' : ConfigFileObject) (key : Str) (e : CkvError)
    (h : o.import_to_map = some (.error e, o')) :
    ((e = .FileOpenFailed o.file_path ∨ e = .InvalidOutputStream ∨ e = .KeyNotFound key) ∧
        o'.state.err_line_no = 0) ∨
      (is_syntax_error e = true ∧ 1 ≤ o'.state.err_line_no ∧
        ∃ cf0, ScanPoint o.open_file.2.begin_scan cf0 ∧
          out_block_parse cf0 = (.error e, o'.state)) := by
  unfold ConfigFileObject.import_to_map at h
  cases hopen : o.open_file with
  | mk res o1 =>
    rw [hopen] at h
    cases res with
    | error e1 =>
      simp only [Option.some.injEq, Prod.mk.injEq, Except.error.injEq] at h
      obtain ⟨h1, h2⟩ := open_file_error o o1 e1 hopen
      rw [← h.1, ← h.2]
      exact Or.inl ⟨Or.inl h1, h2⟩
    | ok u =>
      simp only at h
      split at h
      · simp at h
      · rename_i r cf himp
        simp only [Option.some.injEq, Prod.mk.injEq] at h
        obtain ⟨h1, h2⟩ := h
        subst h1 h2
        obtain ⟨h3, h4⟩ := import_loop_error _ _ _ _ _ himp
        obtain ⟨h1, h2⟩ := import_loop_error_point _ _ _ _ _ himp
        exact Or.inr ⟨h1, h4, h2⟩

theorem line_counter_rule_after_open (o o1 o' : ConfigFileObject) (key : Str) (e : CkvError)
    (hopen : o.open_file = (.ok (), o1))
    (h : ((e = .FileOpenFailed o1.file_path ∨ e = .InvalidOutputStream ∨ e = .KeyNotFound key) ∧
            o'.state.err_line_no = 0) ∨
          (is_syntax_error e = true ∧ 1 ≤ o'.state.err_line_no ∧
            ∃ cf0, ScanPoint o1.open_file.2.begin_scan cf0 ∧
              out_block_parse cf0 = (.error e, o'.state))) :
    ((e = .FileOpenFailed o.file_path ∨ e = .InvalidOutputStream ∨ e = .KeyNotFound key) ∧
        o'.state.err_line_no = 0) ∨
      (is_syntax_error e = true ∧ 1 ≤ o'.state.err_line_no ∧
        ∃ cf0, ScanPoint o.open_file.2.begin_scan cf0 ∧
          out_block_parse cf0 = (.error e, o'.state)) := by
  have hpath : o1.file_path = o.file_path := by
    have := open_file_file_path o
    rw [hopen] at this
    exact this
  rw [open_file_idempotent o o1 hopen, hpath] at h
  rw [hopen]
  exact h

/-- C20, as the code behaves: once a failure of `get_value_for_key`,
`import_to_map`, `set_value_for_key` or `remove_key`, in the stream flavour or
in place, has propagated from an object in any state, `err_line_no` is 0
when the failure is `FileOpenFailed`, `InvalidOutputStream` or `KeyNotFound`;
every other failure is a syntax error raised by the key line scanner, and then
`err_line_no` is not reset: the stream and the counter are exactly as
`out_block_parse` left them when it raised the error at a point of the scan
that started at counter 1, and the counter is at least 1. -/
theorem line_counter_after_failure (o o' : ConfigFileObject) (iter : Table → List (Str × Str))
    (key value : Str) (e : CkvError)
    (hfail : o.get_value_for_key key = some (.error e, o') ∨
      o.import_to_map = some (.error e, o') ∨
      (∃ out out', o.set_value_for_key iter key value out = some (.error e, o', out')) ∨
      (∃ out out', o.remove_key iter key out = some (.error e, o', out')) ∨
      o.set_value_for_key_in_place iter key value = some (.error e, o') ∨
      o.remove_key_in_place iter key = some (.error e, o')) :
    ((e = .FileOpenFailed o.file_path ∨ e = .InvalidOutputStream ∨ e = .KeyNotFound key) ∧
        o'.state.err_line_no = 0) ∨
      (is_syntax_error e = true ∧ 1 ≤ o'.state.err_line_no ∧
        ∃ cf0, ScanPoint o.open_file.2.begin_scan cf0 ∧
          out_block_parse cf0 = (.error e, o'.state)) := by
  rcases hfail with h | h | ⟨out, out', h⟩ | ⟨out, out', h⟩ | h | h
  · exact object_find_error o o' key e h
  · exact object_import_error o o' key e h
  · unfold ConfigFileObject.set_value_for_key at h
    cases hopen : o.open_file with
    | mk res o1 =>
      rw [hopen] at h
      cases res with
      | error e1 =>
        simp only [Option.some.injEq, Prod.mk.injEq, Except.error.injEq] at h
        obtain ⟨h1, h2⟩ := open_file_error o o1 e1 hopen
        rw [← h.1, ← h.2.1]
        exact Or.inl ⟨Or.inl h1, h2⟩
      | ok u =>
        simp only at h
        split at h
        · simp only [Option.some.injEq, Prod.mk.injEq, Except.error.injEq] at h
          rw [← h.1, ← h.2.1]
          exact Or.inl ⟨Or.inr (Or.inl rfl), rfl⟩
        · split at h
          · simp at h
          · rename_i e1 o2 himp
            simp only [Option.some.injEq, Prod.mk.injEq, Except.error.injEq] at h
            rw [← h.1, ← h.2.1]
            have hrule := line_counter_rule_after_open o o1 o2 key e1 hopen
              (object_import_error o1 o2 key e1 himp)
            rw [hopen] at hrule
            exact hrule
          · split at h <;> simp at h
  · unfold ConfigFileObject.remove_key at h
    cases hopen : o.open_file with
    | mk res o1 =>
      rw [hopen] at h
      cases res with
      | error e1 =>
        simp only [Option.some.injEq, Prod.mk.injEq, Except.error.injEq] at h
        obtain ⟨h1, h2⟩ := open_file_error o o1 e1 hopen
        rw [← h.1, ← h.2.1]
        exact Or.inl ⟨Or.inl h1, h2⟩
      | ok u =>
        simp only at h
        split at h
        · simp only [Option.some.injEq, Prod.mk.injEq, Except.error.injEq] at h
          rw [← h.1, ← h.2.1]
          exact Or.inl ⟨Or.inr (Or.inl rfl), rfl⟩
        · split at h
          · simp at h
          · rename_i e1 o2 himp
            simp only [Option.some.injEq, Prod.mk.injEq, Except.error.injEq] at h
            rw [← h.1, ← h.2.1]
            have hrule := line_counter_rule_after_open o o1 o2 key e1 hopen
              (object_import_error o1 o2 key e1 himp)
            rw [hopen] at hrule
            exact hrule
          · simp at h
  · unfold ConfigFileObject.set_value_for_key_in_place at h
    cases hopen : o.open_file with
    | mk res o1 =>
      have hpath : o1.file_path = o.file_path := by
        have := open_file_file_path o
        rw [hopen] at this
        exact this
      rw [hopen] at h
      cases res with
      | error e1 =>
        simp only [Option.some.injEq] at h
        obtain ⟨h1, h2⟩ := rewrite_error _ _ _ _ h
        rw [hpath] at h1
        exact Or.inl ⟨Or.inl h1, h2⟩
      | ok u =>
        simp only at h
        split at h
        · simp at h
        · rename_i e1 o2 himp
          simp only [Option.some.injEq, Prod.mk.injEq, Except.error.injEq] at h
          rw [← h.1, ← h.2]
          have hrule := line_counter_rule_after_open o o1 o2 key e1 hopen
            (object_import_error o1 o2 key e1 himp)
          rw [hopen] at hrule
          exact hrule
        · rename_i key_vals o2 himp
          simp only [Option.some.injEq] at h
          obtain ⟨h1, h2⟩ := rewrite_error _ _ _ _ h
          have hp2 : o2.file_path = o.file_path := by
            rw [← hpath]
            exact import_to_map_file_path o1 _ _ himp
          simp only [hp2] at h1
          exact Or.inl ⟨Or.inl h1, h2⟩
  · unfold ConfigFileObject.remove_key_in_place at h
    cases hopen : o.open_file with
    | mk res o1 =>
      have hpath : o1.file_path = o.file_path := by
        have := open_file_file_path o
        rw [hopen] at this
        exact this
      rw [hopen] at h
      cases res with
      | error e1 =>
        simp only [Option.some.injEq, Prod.mk.injEq, Except.error.injEq] at h
        obtain ⟨h1, h2⟩ := open_file_error o o1 e1 hopen
        rw [← h.1, ← h.2]
        exact Or.inl ⟨Or.inl h1, h2⟩
      | ok u =>
        simp only at h
        split at h
        · simp at h
        · rename_i e1 o2 himp
          simp only [Option.some.injEq, Prod.mk.injEq, Except.error.injEq] at h
          rw [← h.1, ← h.2]
          have hrule := line_counter_rule_after_open o o1 o2 key e1 hopen
            (object_import_error o1 o2 key e1 himp)
          rw [hopen] at hrule
          exact hrule
        · rename_i key_vals o2 himp
          simp only [Option.some.injEq] at h
          obtain ⟨h1, h2⟩ := rewrite_error _ _ _ _ h
          have hp2 : o2.file_path = o.file_path := by
            rw [← hpath]
            exact import_to_map_file_path o1 _ _ himp
          simp only [hp2] at h1
          exact Or.inl ⟨Or.inl h1, h2⟩

theorem line_counter_after_failure_witness :
    ((ConfigFileObject.unopened "f".toList (some "\nA =\n\tx\n\nB\n".toList) 7).import_to_map =
        some (.error .MissingEqualTo,
          ⟨"f".toList, some "\nA =\n\tx\n\nB\n".toList, true, true,
            ⟨⟨[], false, false⟩, 3⟩⟩)) ∧
      (((CkvError.MissingEqualTo = .FileOpenFailed "f".toList ∨
            CkvError.MissingEqualTo = .InvalidOutputStream ∨
            CkvError.MissingEqualTo = .KeyNotFound "B".toList) ∧ (3 : Nat) = 0) ∨
        (is_syntax_error .MissingEqualTo = true ∧ 1 ≤ (3 : Nat) ∧
          ∃ cf0,
            ScanPoint (ConfigFileObject.unopened "f".toList (some "\nA =\n\tx\n\nB\n".toList)
              7).open_file.2.begin_scan cf0 ∧
            out_block_parse cf0 = (.error .MissingEqualTo, ⟨⟨[], false, false⟩, 3⟩))) ∧
      (((CkvError.FileOpenFailed "f".toList = .FileOpenFailed "f".toList ∨
            CkvError.FileOpenFailed "f".toList = .InvalidOutputStream ∨
            CkvError.FileOpenFailed "f".toList = .KeyNotFound "A".toList) ∧ (0 : Nat) = 0) ∨
        (is_syntax_error (.FileOpenFailed "f".toList) = true ∧ 1 ≤ (0 : Nat) ∧
          ∃ cf0,
            ScanPoint (ConfigFileObject.unopened "f".toList none 7).open_file.2.begin_scan cf0 ∧
            out_block_parse cf0 =
              (.error (.FileOpenFailed "f".toList), ⟨⟨[], false, true⟩, 0⟩))) ∧
      (((CkvError.TrailingCharsAfterEqualTo = .FileOpenFailed "f".toList ∨
            CkvError.TrailingCharsAfterEqualTo = .InvalidOutputStream ∨
            CkvError.TrailingCharsAfterEqualTo = .KeyNotFound "A".toList) ∧ (2 : Nat) = 0) ∨
        (is_syntax_error .TrailingCharsAfterEqualTo = true ∧ 1 ≤ (2 : Nat) ∧
          ∃ cf0,
            ScanPoint (ConfigFileObject.unopened "f".toList (some "\nA = x\n".toList)
              7).open_file.2.begin_scan cf0 ∧
            out_block_parse cf0 =
              (.error .TrailingCharsAfterEqualTo, ⟨⟨"\n".toList, false, false⟩, 2⟩))) :=
  ⟨rfl,
    line_counter_after_failure
      (ConfigFileObject.unopened "f".toList (some "\nA =\n\tx\n\nB\n".toList) 7)
      ⟨"f".toList, some "\nA =\n\tx\n\nB\n".toList, true, true, ⟨⟨[], false, false⟩, 3⟩⟩
      id "B".toList [] .MissingEqualTo (Or.inr (Or.inl rfl)),
    line_counter_after_failure (ConfigFileObject.unopened "f".toList none 7)
      ⟨"f".toList, none, true, false, ⟨⟨[], false, true⟩, 0⟩⟩
      id "A".toList [] (.FileOpenFailed "f".toList) (Or.inl rfl),
    line_counter_after_failure
      (ConfigFileObject.unopened "f".toList (some "\nA = x\n".toList) 7)
      ⟨"f".toList, some "\nA = x\n".toList, true, true, ⟨⟨"\n".toList, false, false⟩, 2⟩⟩
      id "A".toList [] .TrailingCharsAfterEqualTo (Or.inr (Or.inr (Or.inr (Or.inr (Or.inr rfl)))))⟩

end ckv
